import Mathlib

/-!
WebSocket server: frame codec, handshake and connection lifecycle.

A shallow embedding of `src/websocket_server.cpp` and
`src/simple_websocket/simple_websocket_server.cpp`.

Conventions of the embedding.

* A `uint8_t` / `char` is a `Byte` (`Fin 256`); `std::string` and
  `std::vector<uint8_t>` are `List Byte`.
* `size_t` and `uint64_t` are natural numbers reduced `% 2 ^ 64` wherever the
  C++ arithmetic can wrap; `uint32_t` is reduced `% 2 ^ 32`.
* Every `frame[i]` of the C++ code is a checked read `frame[i]?`; a function
  that would read outside its buffer returns `none` (undefined behaviour in
  C++), so that memory safety is a statement about the result.
* Socket calls are not executed: their results are inputs of the model and the
  calls that the code performs are recorded as a list of `Event`s.
-/

namespace WebSocket

set_option maxRecDepth 100000

/-- A `uint8_t` (equally a `char` of a `std::string`). -/
abbrev Byte := Fin 256

/-- Conversion of an integer value to `uint8_t` (keeps the low 8 bits). -/
def toByte (n : Nat) : Byte := ⟨n % 256, Nat.mod_lt _ (by decide)⟩

/-- The bytes of an ASCII string literal of the source. -/
def ascii (s : String) : List Byte := s.toList.map (fun c => toByte c.toNat)

/-- Wrap-around of `size_t` / `uint64_t` arithmetic. -/
def wrap64 (n : Nat) : Nat := n % 2 ^ 64

/-- Wrap-around of `uint32_t` arithmetic. -/
def wrap32 (n : Nat) : Nat := n % 2 ^ 32

/-! ## Observable effects -/

/-- The socket calls and user callbacks performed by the code, in order. -/
inductive Event where
  /-- The call `::close(fd)`. -/
  | sockClose (fd : Int)
  /-- The call `send(fd, data, ...)`. -/
  | sockSend (fd : Int) (data : List Byte)
  /-- The call `recv(fd, ...)`. -/
  | sockRecv (fd : Int)
  /-- The call `connection_handler(client_id, client_ip)`. -/
  | onConnect (client_id : Int) (client_ip : String)
  /-- The call `message_handler(client_id, message)`. -/
  | onMessage (client_id : Int) (message : List Byte)
  /-- The call `disconnection_handler(client_id)`. -/
  | onDisconnect (client_id : Int)
  deriving DecidableEq, Repr

/-- The members of `WebSocketConnection` (`send_mutex` carries no data). -/
structure WebSocketConnection where
  socket_fd : Int
  client_ip : String
  connected : Bool
  deriving DecidableEq, Repr

/-! ## Frame codec (`encodeFrame`, `decodeFrame`) -/

/-- The loop `for (int i = 7; i >= 0; i--) frame.push_back((payload_length >> (i * 8)) & 0xFF)`. -/
def pushLength64 (payload_length : Nat) : List Byte :=
  [7, 6, 5, 4, 3, 2, 1, 0].map (fun i => toByte ((payload_length >>> (i * 8)) &&& 0xFF))

/-- `WebSocketConnection::encodeFrame` (lines 136-167). -/
def encodeFrame (payload : List Byte) : List Byte :=
  let payload_length := payload.length
  let frame : List Byte := [toByte 0x81]
  let frame :=
    if payload_length < 126 then
      frame ++ [toByte payload_length]
    else if payload_length < 65536 then
      frame ++ [toByte 126, toByte ((payload_length >>> 8) &&& 0xFF),
        toByte (payload_length &&& 0xFF)]
    else
      frame ++ [toByte 127] ++ pushLength64 payload_length
  frame ++ payload

/-- The loop `for (int i = 0; i < 8; i++) payload_length = (payload_length << 8) | frame[2 + i]`
on a `uint64_t`; `steps` iterations remain, `i` is the loop counter. -/
def readLength64 (frame : List Byte) : (steps : Nat) → (i : Nat) → (payload_length : Nat) → Option Nat
  | 0, _, payload_length => some payload_length
  | steps + 1, i, payload_length =>
    match frame[2 + i]? with
    | none => none
    | some b => readLength64 frame steps (i + 1) (wrap64 (payload_length <<< 8) ||| b.val)

/-- The array `uint8_t mask[4]` read at `mask[j]` for `j < 4`. -/
def maskAt (m0 m1 m2 m3 : Byte) (j : Nat) : Byte :=
  match j with
  | 0 => m0
  | 1 => m1
  | 2 => m2
  | _ => m3

/-- The loop `for (uint64_t i = 0; i < payload_length; i++)
payload += static_cast<char>(frame[header_size + i] ^ mask[i % 4])`; `steps` iterations
remain, `i` is the loop counter. -/
def unmaskLoop (frame : List Byte) (header_size : Nat) (m0 m1 m2 m3 : Byte) :
    (steps : Nat) → (i : Nat) → Option (List Byte)
  | 0, _ => some []
  | steps + 1, i =>
    match frame[wrap64 (header_size + i)]? with
    | none => none
    | some b =>
      match unmaskLoop frame header_size m0 m1 m2 m3 steps (i + 1) with
      | none => none
      | some rest => some (toByte (b.val ^^^ (maskAt m0 m1 m2 m3 (i % 4)).val) :: rest)

/-- The tail of `decodeFrame` after the length field has been read (lines 204-226):
the mask bit, the size check and the extraction of the payload. -/
def decodePayload (frame : List Byte) (masked : Bool) (payload_length header_size : Nat) :
    Option (List Byte) :=
  let header_size := if masked then wrap64 (header_size + 4) else header_size
  if frame.length < wrap64 (header_size + payload_length) then
    some []
  else if masked then
    match frame[header_size - 4]?, frame[header_size - 3]?, frame[header_size - 2]?,
        frame[header_size - 1]? with
    | some m0, some m1, some m2, some m3 =>
      unmaskLoop frame header_size m0 m1 m2 m3 payload_length 0
    | _, _, _, _ => none
  else
    -- std::string(frame.begin() + header_size, frame.begin() + header_size + payload_length):
    -- the range lies in the buffer exactly when header_size + payload_length <= frame.size()
    if header_size + payload_length ≤ frame.length then
      some ((frame.drop header_size).take payload_length)
    else
      none

/-- `WebSocketConnection::decodeFrame` (lines 169-227). The result is the returned string and
the connection afterwards, or `none` when the code reads outside `frame`. -/
def decodeFrame (self : WebSocketConnection) (frame : List Byte) :
    Option (List Byte × WebSocketConnection) :=
  if frame.length < 2 then
    some ([], self)
  else
    match frame[0]?, frame[1]? with
    | some b0, some b1 =>
      let opcode := b0.val &&& 0x0F
      if opcode = 0x8 then
        some ([], { self with connected := false })
      else
        let masked := (b1.val &&& 0x80) != 0
        let payload_length := b1.val &&& 0x7F
        if payload_length = 126 then
          if frame.length < 4 then
            some ([], self)
          else
            match frame[2]?, frame[3]? with
            | some b2, some b3 =>
              let payload_length := (b2.val <<< 8) ||| b3.val
              (decodePayload frame masked payload_length 4).map (fun payload => (payload, self))
            | _, _ => none
        else if payload_length = 127 then
          if frame.length < 10 then
            some ([], self)
          else
            match readLength64 frame 8 0 0 with
            | some payload_length =>
              (decodePayload frame masked payload_length 10).map (fun payload => (payload, self))
            | none => none
        else
          (decodePayload frame masked payload_length 2).map (fun payload => (payload, self))
    | _, _ => none

/-! ## `SimpleSHA1` -/

/-- `SimpleSHA1::leftRotate` on `uint32_t`. -/
def leftRotate (value amount : Nat) : Nat :=
  wrap32 (value <<< amount) ||| (value >>> (32 - amount))

/-- The padding loop `while ((message.size() % 64) != 56) message.push_back(0x00)`;
`none` when `fuel` iterations do not reach the exit condition. -/
def padLoop : (fuel : Nat) → (message : List Byte) → Option (List Byte)
  | 0, message => if message.length % 64 != 56 then none else some message
  | fuel + 1, message =>
    if message.length % 64 != 56 then padLoop fuel (message ++ [toByte 0x00]) else some message

/-- The loop `for (int i = 0; i < 16; i++) w[i] = (chunk[i*4] << 24) | (chunk[i*4+1] << 16) |
(chunk[i*4+2] << 8) | chunk[i*4+3]`, where `chunk = &message[offset]`. -/
def loadWords (message : List Byte) (offset : Nat) : (steps : Nat) → (i : Nat) → (w : List Nat) →
    Option (List Nat)
  | 0, _, w => some w
  | steps + 1, i, w =>
    match message[offset + i * 4]?, message[offset + (i * 4 + 1)]?,
        message[offset + (i * 4 + 2)]?, message[offset + (i * 4 + 3)]? with
    | some c0, some c1, some c2, some c3 =>
      loadWords message offset steps (i + 1)
        (w ++ [wrap32 ((c0.val <<< 24) ||| (c1.val <<< 16) ||| (c2.val <<< 8) ||| c3.val)])
    | _, _, _, _ => none

/-- The loop `for (int i = 16; i < 80; i++) w[i] = leftRotate(w[i-3] ^ w[i-8] ^ w[i-14] ^ w[i-16], 1)`;
`w` holds the entries `w[0..i-1]` written so far. -/
def extendWords : (steps : Nat) → (i : Nat) → (w : List Nat) → List Nat
  | 0, _, w => w
  | steps + 1, i, w =>
    extendWords steps (i + 1)
      (w ++ [leftRotate (w.getD (i - 3) 0 ^^^ w.getD (i - 8) 0 ^^^ w.getD (i - 14) 0 ^^^
        w.getD (i - 16) 0) 1])

/-- The five working variables `a, b, c, d, e` (equally the state `h[0..4]`). -/
structure Sha1State where
  a : Nat
  b : Nat
  c : Nat
  d : Nat
  e : Nat
  deriving DecidableEq, Repr

/-- One iteration of the main loop of `processChunk` (lines 66-88). -/
def sha1Round (w : List Nat) (i : Nat) (s : Sha1State) : Sha1State :=
  let fk : Nat × Nat :=
    if i < 20 then
      ((s.b &&& s.c) ||| ((s.b ^^^ 0xFFFFFFFF) &&& s.d), 0x5A827999)
    else if i < 40 then
      (s.b ^^^ s.c ^^^ s.d, 0x6ED9EBA1)
    else if i < 60 then
      ((s.b &&& s.c) ||| (s.b &&& s.d) ||| (s.c &&& s.d), 0x8F1BBCDC)
    else
      (s.b ^^^ s.c ^^^ s.d, 0xCA62C1D6)
  let temp := wrap32 (leftRotate s.a 5 + fk.1 + s.e + fk.2 + w.getD i 0)
  { a := temp, b := s.a, c := leftRotate s.b 30, d := s.c, e := s.d }

/-- The main loop `for (int i = 0; i < 80; i++)` of `processChunk`. -/
def sha1Rounds (w : List Nat) : (steps : Nat) → (i : Nat) → Sha1State → Sha1State
  | 0, _, s => s
  | steps + 1, i, s => sha1Rounds w steps (i + 1) (sha1Round w i s)

/-- `SimpleSHA1::processChunk(&message[offset], h)`; `none` when the 64 bytes of the chunk are
not all inside `message`. -/
def processChunk (message : List Byte) (offset : Nat) (h : Sha1State) : Option Sha1State :=
  match loadWords message offset 16 0 [] with
  | none => none
  | some w16 =>
    let w := extendWords 64 16 w16
    let s := sha1Rounds w 80 0 h
    some { a := wrap32 (h.a + s.a), b := wrap32 (h.b + s.b), c := wrap32 (h.c + s.c),
           d := wrap32 (h.d + s.d), e := wrap32 (h.e + s.e) }

/-- The loop `for (size_t i = 0; i < message.size(); i += 64) processChunk(&message[i], h)`. -/
def chunkLoop (message : List Byte) : (fuel : Nat) → (i : Nat) → Sha1State → Option Sha1State
  | 0, i, h => if i < message.length then none else some h
  | fuel + 1, i, h =>
    if i < message.length then
      match processChunk message i h with
      | none => none
      | some h => chunkLoop message fuel (i + 64) h
    else
      some h

/-- The alphabet `chars` of `SimpleSHA1::base64Encode`. -/
def base64Chars : List Byte :=
  ascii "ABCDEFGHIJKLMNOPQRSTUVWXYZabcdefghijklmnopqrstuvwxyz0123456789+/"

/-- The inner loop `for (int j = 0; j < 3 && i + j < input.size(); j++)` of `base64Encode`,
returning `(value, count)`. -/
def base64Gather (input : List Byte) (i : Nat) : (steps : Nat) → (j : Nat) → (value count : Nat) →
    Nat × Nat
  | 0, _, value, count => (value, count)
  | steps + 1, j, value, count =>
    if h : i + j < input.length then
      base64Gather input i steps (j + 1) (wrap32 (value <<< 8) ||| (input[i + j]).val) (count + 1)
    else
      (value, count)

/-- One iteration of the outer loop of `base64Encode`: the four characters appended for the
group that starts at `i`. -/
def base64Group (input : List Byte) (i : Nat) : List Byte :=
  let vc := base64Gather input i 3 0 0 0
  let count := vc.2
  let value := wrap32 (vc.1 <<< ((3 - count) * 8))
  [0, 1, 2, 3].map (fun j =>
    if j ≤ count then base64Chars.getD ((value >>> (18 - j * 6)) &&& 0x3F) (toByte 0)
    else toByte 61)

/-- The outer loop `for (size_t i = 0; i < input.size(); i += 3)` of `base64Encode`. -/
def base64Loop (input : List Byte) : (fuel : Nat) → (i : Nat) → List Byte
  | 0, _ => []
  | fuel + 1, i =>
    if i < input.length then base64Group input i ++ base64Loop input fuel (i + 3) else []

/-- `SimpleSHA1::base64Encode` (lines 98-123). The loop runs at most `input.size()` times. -/
def base64Encode (input : List Byte) : List Byte :=
  base64Loop input input.length 0

/-- The digest bytes `hash_bytes` of `SimpleSHA1::hash` (lines 35-40). -/
def hashBytes (h : Sha1State) : List Byte :=
  [h.a, h.b, h.c, h.d, h.e].flatMap (fun hi =>
    [3, 2, 1, 0].map (fun j => toByte ((hi >>> (j * 8)) &&& 0xFF)))

/-- The part of `SimpleSHA1::hash` that computes the 20 digest bytes (lines 4-40). -/
def sha1Digest (input : List Byte) : Option (List Byte) :=
  let h : Sha1State :=
    { a := 0x67452301, b := 0xEFCDAB89, c := 0x98BADCFE, d := 0x10325476, e := 0xC3D2E1F0 }
  let message := input
  let original_length := wrap64 (message.length * 8)
  let message := message ++ [toByte 0x80]
  match padLoop 64 message with
  | none => none
  | some message =>
    let message := message ++ pushLength64 original_length
    match chunkLoop message message.length 0 h with
    | none => none
    | some h => some (hashBytes h)

/-- `SimpleSHA1::hash` (lines 4-43). -/
def SimpleSHA1.hash (input : List Byte) : Option (List Byte) :=
  (sha1Digest input).map base64Encode

/-- The constant `magic_string` of `generateAcceptKey`. -/
def magic_string : List Byte := ascii "258EAFA5-E914-47DA-95CA-C5AB0DC85B11"

/-- `SimpleWebSocketConnection::generateAcceptKey` (simple_websocket_server.cpp, lines 188-192). -/
def SimpleWebSocketConnection.generateAcceptKey (key : List Byte) : Option (List Byte) :=
  let combined := key ++ magic_string
  SimpleSHA1.hash combined


/-! ## Handshake (`performHandshake`, `generateAcceptKey`) -/

/-- The OpenSSL routines called by `WebSocketConnection::generateAcceptKey` and
`WebSocketConnection::base64Encode`: library code outside the repository, taken as
parameters (`SHA1`, and the base64 `BIO` with `BIO_FLAGS_BASE64_NO_NL`). -/
structure OpenSSL where
  SHA1 : List Byte → List Byte
  base64 : List Byte → List Byte

/-- `WebSocketConnection::generateAcceptKey` (websocket_server.cpp, lines 74-84). -/
def WebSocketConnection.generateAcceptKey (lib : OpenSSL) (key : List Byte) : List Byte :=
  let combined := key ++ magic_string
  let hash := lib.SHA1 combined
  lib.base64 hash

/-- The literal text at the start of the pattern `"Sec-WebSocket-Key: ([^\r\n]+)"`. -/
def keyLiteral : List Byte := ascii "Sec-WebSocket-Key: "

/-- Membership in the bracket expression `[^\r\n]`. -/
def notCRLF (b : Byte) : Bool := b != toByte 13 && b != toByte 10

/-- Matching a literal at the start of `s`: the rest of `s` after it. -/
def stripLiteral : (literal s : List Byte) → Option (List Byte)
  | [], s => some s
  | _ :: _, [] => none
  | c :: literal, d :: s => if c = d then stripLiteral literal s else none

/-- An attempt to match `"Sec-WebSocket-Key: ([^\r\n]+)"` with the match starting at the first
character of `s`: the text of group 1 (the greedy, non-empty run of `[^\r\n]`). -/
def matchKeyAt (s : List Byte) : Option (List Byte) :=
  match stripLiteral keyLiteral s with
  | none => none
  | some rest =>
    let group := rest.takeWhile notCRLF
    if group = [] then none else some group

/-- The call `std::regex_search(request, match, key_regex)` followed by `match[1].str()`:
the start positions are tried from left to right and the first match is returned. -/
def regexSearchKey : (request : List Byte) → Option (List Byte)
  | [] => matchKeyAt []
  | c :: request =>
    match matchKeyAt (c :: request) with
    | some key => some key
    | none => regexSearchKey request

/-- One `recv(fd, buffer, capacity, 0)`: `pending = none` is a socket error (return value -1),
`pending = some d` delivers the first `capacity` bytes of `d` (return value 0 when `d` is
empty: the peer has shut down). The result is the return value and the bytes stored. -/
def recv (pending : Option (List Byte)) (capacity : Nat) : Int × List Byte :=
  match pending with
  | none => (-1, [])
  | some d => (((d.take capacity).length : Nat), d.take capacity)

/-- What the socket does during the handshake: the data pending for the `recv` call and the
return value of the `send` call. -/
structure HandshakeIO where
  pending : Option (List Byte)
  sendRet : Int

/-- The text `request` of `performHandshake`: `buffer[bytes_received] = 0` and
`std::string request(buffer)` keep the received bytes up to the first NUL. -/
def requestText (buffer : List Byte) : List Byte :=
  buffer.takeWhile (fun b => b != toByte 0)

/-- The response assembled by `performHandshake` (lines 63-70). -/
def handshakeResponse (accept_key : List Byte) : List Byte :=
  ascii "HTTP/1.1 101 Switching Protocols\r\n" ++ ascii "Upgrade: websocket\r\n" ++
    ascii "Connection: Upgrade\r\n" ++ ascii "Sec-WebSocket-Accept: " ++ accept_key ++
    ascii "\r\n" ++ ascii "\r\n"

/-- `WebSocketConnection::performHandshake` (lines 38-72): the returned flag and the socket
calls made. -/
def WebSocketConnection.performHandshake (lib : OpenSSL) (self : WebSocketConnection)
    (io : HandshakeIO) : Bool × List Event :=
  let r := recv io.pending 4095
  let bytes_received := r.1
  if bytes_received ≤ 0 then
    (false, [Event.sockRecv self.socket_fd])
  else
    let request := requestText r.2
    match regexSearchKey request with
    | none => (false, [Event.sockRecv self.socket_fd])
    | some websocket_key =>
      let accept_key := WebSocketConnection.generateAcceptKey lib websocket_key
      let response_str := handshakeResponse accept_key
      (decide (io.sendRet > 0),
        [Event.sockRecv self.socket_fd, Event.sockSend self.socket_fd response_str])

/-! ## Connection lifecycle -/

/-- The constructor `WebSocketConnection::WebSocketConnection` (lines 10-23). -/
def WebSocketConnection.new (lib : OpenSSL) (socket_fd : Int) (client_ip : String)
    (io : HandshakeIO) : WebSocketConnection × List Event :=
  let self : WebSocketConnection :=
    { socket_fd := socket_fd, client_ip := client_ip, connected := false }
  let r := WebSocketConnection.performHandshake lib self io
  if r.1 then
    ({ self with connected := true }, r.2)
  else
    (self, r.2 ++ [Event.sockClose socket_fd])

/-- `WebSocketConnection::close` (lines 30-36): `connected.exchange(false)` returns the old
value of the flag. -/
def WebSocketConnection.close (self : WebSocketConnection) : WebSocketConnection × List Event :=
  let old := self.connected
  let self := { self with connected := false }
  if old then (self, [Event.sockClose self.socket_fd]) else (self, [])

/-- The destructor `WebSocketConnection::~WebSocketConnection` (lines 25-28). -/
def WebSocketConnection.destroy (self : WebSocketConnection) : WebSocketConnection × List Event :=
  self.close

/-- `WebSocketConnection::sendMessage` (lines 106-116); `sendRet` is the return value of
`send`. -/
def WebSocketConnection.sendMessage (self : WebSocketConnection) (message : List Byte)
    (sendRet : Int) : Bool × List Event :=
  if !self.connected then
    (false, [])
  else
    let frame := encodeFrame message
    let bytes_sent := sendRet
    (decide (bytes_sent > 0), [Event.sockSend self.socket_fd frame])

/-- `WebSocketConnection::receiveMessage` (lines 118-134): the returned string, the connection
afterwards and the socket calls made; `none` when `decodeFrame` reads outside the buffer. -/
def WebSocketConnection.receiveMessage (self : WebSocketConnection)
    (pending : Option (List Byte)) : Option (List Byte × WebSocketConnection) × List Event :=
  if !self.connected then
    (some ([], self), [])
  else
    let r := recv pending 4096
    let bytes_received := r.1
    if bytes_received ≤ 0 then
      (some ([], { self with connected := false }), [Event.sockRecv self.socket_fd])
    else
      let buffer := r.2
      (decodeFrame self buffer, [Event.sockRecv self.socket_fd])

/-- `N` successive calls of `close()`. -/
def closeTimes : Nat → WebSocketConnection → WebSocketConnection × List Event
  | 0, self => (self, [])
  | n + 1, self =>
    let r := self.close
    let r' := closeTimes n r.1
    (r'.1, r.2 ++ r'.2)

/-- A call of a member function of `WebSocketConnection`, with what the socket does in it. -/
inductive ConnCall where
  | receiveMessage (pending : Option (List Byte))
  | decodeFrame (frame : List Byte)
  | sendMessage (message : List Byte) (sendRet : Int)
  | isConnected
  | close

/-- The effect of one call on a connection; `none` when the call reads outside a buffer. -/
def ConnCall.run (self : WebSocketConnection) :
    ConnCall → Option (WebSocketConnection × List Event)
  | .receiveMessage pending =>
    match self.receiveMessage pending with
    | (some r, ev) => some (r.2, ev)
    | (none, _) => none
  | .decodeFrame frame => (WebSocket.decodeFrame self frame).map (fun r => (r.2, []))
  | .sendMessage message sendRet => some (self, (self.sendMessage message sendRet).2)
  | .isConnected => some (self, [])
  | .close => some self.close

/-- A sequence of calls on one connection, the events in order. -/
def runCalls : List ConnCall → WebSocketConnection → Option (WebSocketConnection × List Event)
  | [], self => some (self, [])
  | call :: calls, self =>
    match call.run self with
    | none => none
    | some (self, ev) =>
      match runCalls calls self with
      | none => none
      | some (self, ev') => some (self, ev ++ ev')

/-- The number of `::close(fd)` calls among the events. -/
def closeCount (fd : Int) (events : List Event) : Nat :=
  events.count (Event.sockClose fd)

/-! ## Server: accepting connections -/

/-- The members of `WebSocketServer` used by `acceptConnections`; `connection_handler` records
whether the `std::function` is set. -/
structure WebSocketServer where
  running : Bool
  clients : List (Int × WebSocketConnection)
  next_client_id : Int
  connection_handler : Bool
  deriving DecidableEq, Repr

/-- Wrap-around of the `std::atomic<int>` counter. -/
def wrapInt32 (n : Int) : Int := (n + 2 ^ 31) % 2 ^ 32 - 2 ^ 31

/-- The assignment `clients[client_id] = connection` on the `std::map`, kept in key order. -/
def mapAssign (clients : List (Int × WebSocketConnection)) (client_id : Int)
    (connection : WebSocketConnection) : List (Int × WebSocketConnection) :=
  match clients with
  | [] => [(client_id, connection)]
  | (k, v) :: rest =>
    if client_id < k then (client_id, connection) :: (k, v) :: rest
    else if client_id = k then (client_id, connection) :: rest
    else (k, v) :: mapAssign rest client_id connection

/-- The result of one `accept` call: a negative return value, or a client socket with the
peer address and what that socket does during the handshake. -/
inductive AcceptOutcome where
  | failed
  | accepted (client_socket : Int) (client_ip : String) (io : HandshakeIO)

/-- One iteration of the loop of `WebSocketServer::acceptConnections` (lines 483-518): the
server afterwards, the connection returned (`none`: the loop continues) and the events. When
the loop continues, the `shared_ptr` of the iteration is released and the connection is
destroyed. -/
def acceptIteration (lib : OpenSSL) (s : WebSocketServer) :
    AcceptOutcome → WebSocketServer × Option WebSocketConnection × List Event
  | .failed => (s, none, [])
  | .accepted client_socket client_ip io =>
    let client_id := s.next_client_id
    let s := { s with next_client_id := wrapInt32 (s.next_client_id + 1) }
    let r := WebSocketConnection.new lib client_socket client_ip io
    let connection := r.1
    if connection.connected then
      let s := { s with clients := mapAssign s.clients client_id connection }
      let ev := if s.connection_handler then [Event.onConnect client_id client_ip] else []
      (s, some connection, r.2 ++ ev)
    else
      (s, none, r.2 ++ connection.destroy.2)

/-- `WebSocketServer::acceptConnections` (lines 479-523) over the results of the successive
`accept` calls. The result `none` is the null pointer (server not running); it also stands
for the call still waiting in `accept` when the list is used up. -/
def acceptConnections (lib : OpenSSL) :
    List AcceptOutcome → WebSocketServer → WebSocketServer × Option WebSocketConnection × List Event
  | [], s => (s, none, [])
  | outcome :: outcomes, s =>
    if !s.running then
      (s, none, [])
    else
      match acceptIteration lib s outcome with
      | (s, some connection, ev) => (s, some connection, ev)
      | (s, none, ev) =>
        let r := acceptConnections lib outcomes s
        (r.1, r.2.1, ev ++ r.2.2)

/-! ## Thread pool (`thread_pool.h`) -/

/-- What one worker thread of the pool is doing: blocked in `condition.wait` (line 61),
executing `task()` (line 74), or returned from its loop (line 64). -/
inductive WorkerState (τ : Type) where
  | waiting
  | running (task : τ)
  | exited
  deriving DecidableEq, Repr

/-- The members of `ThreadPool`; `workers` holds the state of each worker thread and `tasks`
is the `std::queue`, front first. -/
structure ThreadPool (τ : Type) where
  workers : List (WorkerState τ)
  tasks : List τ
  stop : Bool
  total_threads : Nat
  busy_threads : Nat
  deriving DecidableEq, Repr

/-- The constructor `ThreadPool::ThreadPool(threads)` (lines 49-85). -/
def ThreadPool.new {τ : Type} (threads : Nat) : ThreadPool τ :=
  { workers := List.replicate threads WorkerState.waiting, tasks := [], stop := false,
    total_threads := threads, busy_threads := 0 }

/-- `ThreadPool::enqueue` (lines 103-125): the pool afterwards and the exception thrown, if
any. -/
def ThreadPool.enqueue {τ : Type} (self : ThreadPool τ) (task : τ) :
    ThreadPool τ × Option String :=
  if self.stop then
    (self, some "enqueue on stopped ThreadPool")
  else
    ({ self with tasks := self.tasks ++ [task] }, none)

/-- The locked block of the worker loop (lines 59-71) run by worker `i` once its wait
predicate `stop || !tasks.empty()` holds: the worker returns when the pool is stopped and the
queue is empty, and otherwise pops the front task and counts itself busy. The second
component is the task the worker goes on to execute. A worker whose predicate does not hold
stays blocked. -/
def ThreadPool.workerTake {τ : Type} (self : ThreadPool τ) (i : Nat) :
    ThreadPool τ × Option τ :=
  match self.workers[i]? with
  | some WorkerState.waiting =>
    if self.stop || !self.tasks.isEmpty then
      if self.stop && self.tasks.isEmpty then
        ({ self with workers := self.workers.set i WorkerState.exited }, none)
      else
        match self.tasks with
        | [] => (self, none)
        | task :: rest =>
          ({ self with
              tasks := rest
              busy_threads := wrap64 (self.busy_threads + 1)
              workers := self.workers.set i (WorkerState.running task) }, some task)
    else
      (self, none)
  | _ => (self, none)

/-- The locked block after `task()` has returned (lines 76-82), run by worker `i`. -/
def ThreadPool.workerFinish {τ : Type} (self : ThreadPool τ) (i : Nat) : ThreadPool τ :=
  match self.workers[i]? with
  | some (WorkerState.running _) =>
    { self with
        busy_threads := wrap64 (self.busy_threads + 2 ^ 64 - 1)
        workers := self.workers.set i WorkerState.waiting }
  | _ => self

/-- `ThreadPool::getAvailableThreads` (lines 96-100): a subtraction of `size_t` values. -/
def ThreadPool.getAvailableThreads {τ : Type} (self : ThreadPool τ) : Nat :=
  wrap64 (self.total_threads + 2 ^ 64 - self.busy_threads)

/-- The predicate on which `ThreadPool::waitForAvailableThread` returns (lines 88-93). -/
def ThreadPool.waitForAvailableThreadReturns {τ : Type} (self : ThreadPool τ) : Bool :=
  self.stop || decide (self.busy_threads < self.total_threads)

/-- The first block of the destructor `ThreadPool::~ThreadPool` (lines 130-133); the
destructor then wakes every worker and joins them. -/
def ThreadPool.requestStop {τ : Type} (self : ThreadPool τ) : ThreadPool τ :=
  { self with stop := true }

/-- A step of the pool: a call of `enqueue`, worker `i` passing its wait (`take`), worker `i`
returning from `task()` (`finish`), or the destructor setting the stop flag. -/
inductive PoolStep (τ : Type) where
  | enqueue (task : τ)
  | take (i : Nat)
  | finish (i : Nat)
  | requestStop

/-- The effect of one step: the pool afterwards and the tasks whose execution starts. -/
def PoolStep.run {τ : Type} (pool : ThreadPool τ) : PoolStep τ → ThreadPool τ × List τ
  | .enqueue task => ((pool.enqueue task).1, [])
  | .take i => ((pool.workerTake i).1, (pool.workerTake i).2.toList)
  | .finish i => (pool.workerFinish i, [])
  | .requestStop => (pool.requestStop, [])

/-- A sequence of steps: the pool afterwards and the tasks executed, in the order in which
their execution started. -/
def runPool {τ : Type} : List (PoolStep τ) → ThreadPool τ → ThreadPool τ × List τ
  | [], pool => (pool, [])
  | step :: steps, pool =>
    let r := step.run pool
    let r' := runPool steps r.1
    (r'.1, r.2 ++ r'.2)

/-- The number of workers that are executing a task. -/
def runningCount {τ : Type} : List (WorkerState τ) → Nat
  | [] => 0
  | WorkerState.running _ :: rest => runningCount rest + 1
  | _ :: rest => runningCount rest

/-- `std::map::find` on a map held as a list of entries in key order: the value of the first
entry with the key. -/
def mapFind {β : Type} : List (Int × β) → Int → Option β
  | [], _ => none
  | (k, v) :: rest, key => if k = key then some v else mapFind rest key

/-- `std::map::erase` of the entry that `find` returns. -/
def mapErase {β : Type} : List (Int × β) → Int → List (Int × β)
  | [], _ => []
  | (k, v) :: rest, key => if k = key then rest else (k, v) :: mapErase rest key

/-- The assignment `map[key] = value`, the entries kept in key order. -/
def mapSet {β : Type} : List (Int × β) → Int → β → List (Int × β)
  | [], key, value => [(key, value)]
  | (k, v) :: rest, key, value =>
    if key < k then (key, value) :: (k, v) :: rest
    else if key = k then (key, value) :: rest
    else (k, v) :: mapSet rest key value

/-- The lambda that the reactor hands to the pool (lines 370-386) with its captures;
`connection` is the `shared_ptr`, held as the index of the connection object. -/
structure ReadTask where
  connection : Nat
  client_id : Int
  client_socket : Int
  deriving DecidableEq, Repr

/-- The state of a `WebSocketServer` with everything its threads share. The connection
objects live in `objects`, and a `shared_ptr<WebSocketConnection>` is the index of its
object, so that the registry, the reactor and the queued tasks refer to one object;
`next_object` is the index of the next object to be constructed. `socket_to_client_id` is the
map local to the reactor thread. The three handler fields record whether the
`std::function` is set. -/
structure ServerState where
  running : Bool
  server_socket : Int
  objects : Nat → WebSocketConnection
  next_object : Nat
  clients : List (Int × Nat)
  next_client_id : Int
  socket_to_client_id : List (Int × Int)
  thread_pool : ThreadPool ReadTask
  message_handler : Bool
  connection_handler : Bool
  disconnection_handler : Bool

/-- The constructor `WebSocketServer::WebSocketServer` (lines 230-234), the handlers being set
or not as given. -/
def ServerState.new (thread_pool_size : Nat) (message_handler connection_handler
    disconnection_handler : Bool) : ServerState :=
  { running := false, server_socket := -1,
    objects := fun _ => { socket_fd := -1, client_ip := "", connected := false },
    next_object := 0, clients := [], next_client_id := 1, socket_to_client_id := [],
    thread_pool := ThreadPool.new thread_pool_size, message_handler := message_handler,
    connection_handler := connection_handler, disconnection_handler := disconnection_handler }

/-- `WebSocketServer::start` (lines 241-252) when `setupSocket` succeeds with the listening
socket `listen_fd`. -/
def ServerState.start (s : ServerState) (listen_fd : Int) : ServerState × Bool :=
  if s.running then (s, false)
  else ({ s with server_socket := listen_fd, running := true }, true)

/-- The object store after the object `h` has been given a new state. -/
def storeObject (objects : Nat → WebSocketConnection) (h : Nat) (c : WebSocketConnection) :
    Nat → WebSocketConnection :=
  fun h' => if h' = h then c else objects h'

/-- `WebSocketServer::getClientCount` (lines 605-609). -/
def ServerState.getClientCount (s : ServerState) : Nat := s.clients.length

/-- `WebSocketServer::isClientExists` (lines 659-662). -/
def ServerState.isClientExists (s : ServerState) (client_id : Int) : Bool :=
  (mapFind s.clients client_id).isSome

/-- The registration `clients[client_id] = connection` of `acceptConnections`
(lines 504-507). -/
def ServerState.registerClient (s : ServerState) (client_id : Int) (connection : Nat) :
    ServerState :=
  { s with clients := mapSet s.clients client_id connection }

/-- `WebSocketServer::removeClient` (lines 556-565). -/
def ServerState.removeClient (s : ServerState) (client_id : Int) : ServerState × List Event :=
  match mapFind s.clients client_id with
  | none => (s, [])
  | some h =>
    let r := (s.objects h).close
    ({ s with objects := storeObject s.objects h r.1, clients := mapErase s.clients client_id },
      r.2)

/-- The loop of `broadcastMessage` over the registry, in key order; `sendRet` gives the
return value of `send` on each socket. -/
def broadcastLoop (objects : Nat → WebSocketConnection) (message : List Byte)
    (sendRet : Int → Int) : List (Int × Nat) → List Event
  | [] => []
  | (_, h) :: rest =>
    (if (objects h).connected then
      ((objects h).sendMessage message (sendRet (objects h).socket_fd)).2
    else []) ++ broadcastLoop objects message sendRet rest

/-- `WebSocketServer::broadcastMessage` (lines 567-577). -/
def ServerState.broadcastMessage (s : ServerState) (message : List Byte) (sendRet : Int → Int) :
    ServerState × List Event :=
  (s, broadcastLoop s.objects message sendRet s.clients)

/-- `WebSocketServer::sendMessageToClient` (lines 579-587). -/
def ServerState.sendMessageToClient (s : ServerState) (client_id : Int) (message : List Byte)
    (sendRet : Int) : ServerState × List Event :=
  match mapFind s.clients client_id with
  | none => (s, [])
  | some h =>
    if (s.objects h).connected then (s, ((s.objects h).sendMessage message sendRet).2)
    else (s, [])

/-- `WebSocketServer::disconnectClient` (lines 637-657): the server afterwards, the returned
flag and the events. -/
def ServerState.disconnectClient (s : ServerState) (client_id : Int) :
    ServerState × Bool × List Event :=
  match mapFind s.clients client_id with
  | none => (s, false, [])
  | some h =>
    if (s.objects h).connected then
      let r := (s.objects h).close
      let s := { s with
        objects := storeObject s.objects h r.1, clients := mapErase s.clients client_id }
      let ev := if s.disconnection_handler then [Event.onDisconnect client_id] else []
      (s, true, r.2 ++ ev)
    else
      (s, false, [])

/-- The loop `for (auto &pair : clients) pair.second->close()` of `stop`. -/
def closeAll (objects : Nat → WebSocketConnection) :
    List (Int × Nat) → (Nat → WebSocketConnection) × List Event
  | [] => (objects, [])
  | (_, h) :: rest =>
    let r := (objects h).close
    let r' := closeAll (storeObject objects h r.1) rest
    (r'.1, r.2 ++ r'.2)

/-- `WebSocketServer::stop` (lines 409-434). -/
def ServerState.stop (s : ServerState) : ServerState × List Event :=
  if !s.running then
    (s, [])
  else
    let s := { s with running := false }
    let r := closeAll s.objects s.clients
    let s := { s with objects := r.1, clients := [] }
    if s.server_socket ≠ -1 then
      ({ s with server_socket := -1 }, r.2 ++ [Event.sockClose s.server_socket])
    else
      (s, r.2)

/-- One iteration of the loop of `acceptConnections` (lines 483-518) on the shared state: the
server afterwards, the connection returned (`none`: the loop continues) and the events. The
connection object is constructed at index `next_object`. -/
def ServerState.acceptIteration (lib : OpenSSL) (s : ServerState) :
    AcceptOutcome → ServerState × Option Nat × List Event
  | .failed => (s, none, [])
  | .accepted client_socket client_ip io =>
    let client_id := s.next_client_id
    let s := { s with next_client_id := wrapInt32 (s.next_client_id + 1) }
    let r := WebSocketConnection.new lib client_socket client_ip io
    let connection := s.next_object
    let s := { s with objects := storeObject s.objects connection r.1,
                      next_object := s.next_object + 1 }
    if (s.objects connection).connected then
      let s := s.registerClient client_id connection
      let ev := if s.connection_handler then [Event.onConnect client_id client_ip] else []
      (s, some connection, r.2 ++ ev)
    else
      let d := (s.objects connection).destroy
      ({ s with objects := storeObject s.objects connection d.1 }, none, r.2 ++ d.2)

/-- `WebSocketServer::acceptConnections` (lines 479-523) on the shared state, over the results
of the successive `accept` calls; `none` is the null pointer, and also stands for the call
still waiting in `accept` when the list is used up. -/
def ServerState.acceptConnections (lib : OpenSSL) :
    List AcceptOutcome → ServerState → ServerState × Option Nat × List Event
  | [], s => (s, none, [])
  | outcome :: outcomes, s =>
    if !s.running then
      (s, none, [])
    else
      match s.acceptIteration lib outcome with
      | (s, some connection, ev) => (s, some connection, ev)
      | (s, none, ev) =>
        let r := ServerState.acceptConnections lib outcomes s
        (r.1, r.2.1, ev ++ r.2.2)

/-- The search `for (const auto& pair : clients) if (pair.second == connection)` of the reactor
(lines 326-335), starting from `client_id = -1`. -/
def findClientId (clients : List (Int × Nat)) (connection : Nat) : Int :=
  match clients with
  | [] => -1
  | (k, h) :: rest => if h = connection then k else findClientId rest connection

/-- The reactor on a readiness event of the listening socket (lines 315-344); `epollOk` tells
whether `epoll_ctl(EPOLL_CTL_ADD)` succeeds. -/
def ServerState.acceptEvent (lib : OpenSSL) (s : ServerState) (outcomes : List AcceptOutcome)
    (epollOk : Bool) : ServerState × List Event :=
  let r := ServerState.acceptConnections lib outcomes s
  let s := r.1
  match r.2.1 with
  | none => (s, r.2.2)
  | some connection =>
    if (s.objects connection).connected then
      if epollOk then
        let client_id := findClientId s.clients connection
        if client_id ≠ -1 then
          ({ s with socket_to_client_id :=
              mapSet s.socket_to_client_id (s.objects connection).socket_fd client_id }, r.2.2)
        else (s, r.2.2)
      else (s, r.2.2)
    else (s, r.2.2)

/-- The clean-up shared by the sweep and by the readiness branch (lines 303-308 and
389-394): the socket is dropped from the reactor's map, the client is removed and the
disconnection handler is called. -/
def ServerState.cleanupClient (s : ServerState) (sock_fd client_id : Int) :
    ServerState × List Event :=
  let s := { s with socket_to_client_id := mapErase s.socket_to_client_id sock_fd }
  let r := s.removeClient client_id
  (r.1, r.2 ++ (if s.disconnection_handler then [Event.onDisconnect client_id] else []))

/-- The second loop of the sweep (lines 299-311). -/
def sweepLoop : List Int → ServerState → ServerState × List Event
  | [], s => (s, [])
  | sock_fd :: rest, s =>
    match mapFind s.socket_to_client_id sock_fd with
    | none => sweepLoop rest s
    | some client_id =>
      let r := s.cleanupClient sock_fd client_id
      let r' := sweepLoop rest r.1
      (r'.1, r.2 ++ r'.2)

/-- The reactor on a timeout of `epoll_wait` (lines 284-312). -/
def ServerState.sweep (s : ServerState) : ServerState × List Event :=
  let disconnected_sockets := s.socket_to_client_id.filterMap (fun pair =>
    match mapFind s.clients pair.2 with
    | some h => if !(s.objects h).connected then some pair.1 else none
    | none => none)
  sweepLoop disconnected_sockets s

/-- The reactor on a readiness event of the client socket `client_socket` (lines 346-396);
`none` when `enqueue` throws. The wait for a free worker (lines 364-367) only delays the step
and is not represented. -/
def ServerState.clientEvent (s : ServerState) (client_socket : Int) :
    Option (ServerState × List Event) :=
  match mapFind s.socket_to_client_id client_socket with
  | none => some (s, [])
  | some client_id =>
    let connection := mapFind s.clients client_id
    match connection with
    | some h =>
      if (s.objects h).connected then
        let r := s.thread_pool.enqueue
          { connection := h, client_id := client_id, client_socket := client_socket }
        match r.2 with
        | some _ => none
        | none => some ({ s with thread_pool := r.1 }, [])
      else
        some (s.cleanupClient client_socket client_id)
    | none => some (s.cleanupClient client_socket client_id)

/-- The body of the task of the reactor (lines 370-386) on the connection it captured:
the connection afterwards and the events; `none` when `decodeFrame` reads outside the
buffer. -/
def readTask (message_handler : Bool) (connection : WebSocketConnection) (client_id : Int)
    (pending : Option (List Byte)) : Option (WebSocketConnection × List Event) :=
  match connection.receiveMessage pending with
  | (none, _) => none
  | (some (message, connection), ev) =>
    if message ≠ [] then
      some (connection,
        ev ++ (if message_handler then [Event.onMessage client_id message] else []))
    else
      let r := connection.close
      some (r.1, ev ++ r.2)

/-- Worker `i` executes the task it has taken, the socket delivering `pending`, and then
runs the block after `task()`. -/
def ServerState.workerComplete (s : ServerState) (i : Nat) (pending : Option (List Byte)) :
    Option (ServerState × List Event) :=
  match s.thread_pool.workers[i]? with
  | some (WorkerState.running task) =>
    match readTask s.message_handler (s.objects task.connection) task.client_id pending with
    | none => none
    | some r =>
      some ({ s with objects := storeObject s.objects task.connection r.1,
                     thread_pool := s.thread_pool.workerFinish i }, r.2)
  | _ => some (s, [])

/-- A step of the server: a reactor step, a worker step or a call of the public interface,
with what the environment does in it. -/
inductive ServerStep where
  | sweep
  | clientEvent (client_socket : Int)
  | acceptEvent (outcomes : List AcceptOutcome) (epollOk : Bool)
  | workerTake (i : Nat)
  | workerComplete (i : Nat) (pending : Option (List Byte))
  | disconnectClient (client_id : Int)
  | sendMessageToClient (client_id : Int) (message : List Byte) (sendRet : Int)
  | broadcastMessage (message : List Byte) (sendRet : Int → Int)
  | stop

/-- The effect of one step; `none` when the step ends in an uncaught exception or reads
outside a buffer. -/
def ServerStep.run (lib : OpenSSL) (s : ServerState) : ServerStep → Option (ServerState × List Event)
  | .sweep => some s.sweep
  | .clientEvent client_socket => s.clientEvent client_socket
  | .acceptEvent outcomes epollOk => some (s.acceptEvent lib outcomes epollOk)
  | .workerTake i => some ({ s with thread_pool := (s.thread_pool.workerTake i).1 }, [])
  | .workerComplete i pending => s.workerComplete i pending
  | .disconnectClient client_id =>
    some ((s.disconnectClient client_id).1, (s.disconnectClient client_id).2.2)
  | .sendMessageToClient client_id message sendRet =>
    some (s.sendMessageToClient client_id message sendRet)
  | .broadcastMessage message sendRet => some (s.broadcastMessage message sendRet)
  | .stop => some s.stop

/-- A sequence of steps, the events in order. -/
def runServer (lib : OpenSSL) : List ServerStep → ServerState → Option (ServerState × List Event)
  | [], s => some (s, [])
  | step :: steps, s =>
    match step.run lib s with
    | none => none
    | some (s, ev) =>
      match runServer lib steps s with
      | none => none
      | some (s, ev') => some (s, ev ++ ev')

/-- A server with three registered connections, the second one already disconnected. -/
def threeClients : ServerState :=
  { ServerState.new 2 true true true with
    running := true
    server_socket := 3
    objects := fun h =>
      match h with
      | 0 => { socket_fd := 7, client_ip := "10.0.0.1", connected := true }
      | 1 => { socket_fd := 8, client_ip := "10.0.0.2", connected := false }
      | _ => { socket_fd := 9, client_ip := "10.0.0.3", connected := true }
    next_object := 3
    clients := [(1, 0), (2, 1), (3, 2)]
    next_client_id := 4
    socket_to_client_id := [(7, 1), (8, 2), (9, 3)] }

/-! ## Lock scopes of the registry mutex -/

/-- A step of a public operation as seen from the registry mutex `clients_mutex`: taking the
lock, releasing it, or a socket call or handler call. -/
inductive Traced where
  | lock
  | unlock
  | call (e : Event)
  deriving DecidableEq, Repr

/-- `broadcastMessage` (lines 567-577) with its lock scope: the `lock_guard` is taken on entry
and released on return. -/
def ServerState.broadcastMessageTraced (s : ServerState) (message : List Byte)
    (sendRet : Int → Int) : List Traced :=
  [Traced.lock] ++ (s.broadcastMessage message sendRet).2.map Traced.call ++ [Traced.unlock]

/-- `sendMessageToClient` (lines 579-587) with its lock scope. -/
def ServerState.sendMessageToClientTraced (s : ServerState) (client_id : Int)
    (message : List Byte) (sendRet : Int) : List Traced :=
  [Traced.lock] ++ (s.sendMessageToClient client_id message sendRet).2.map Traced.call ++
    [Traced.unlock]

/-- `disconnectClient` (lines 637-657) with its lock scope. -/
def ServerState.disconnectClientTraced (s : ServerState) (client_id : Int) : List Traced :=
  [Traced.lock] ++ (s.disconnectClient client_id).2.2.map Traced.call ++ [Traced.unlock]

/-- `removeClient` (lines 556-565) with its lock scope. -/
def ServerState.removeClientTraced (s : ServerState) (client_id : Int) : List Traced :=
  [Traced.lock] ++ (s.removeClient client_id).2.map Traced.call ++ [Traced.unlock]

/-- `stop` (lines 409-434) with its lock scope: the block that closes and clears the registry
holds the lock, the listening socket is closed after the block. -/
def ServerState.stopTraced (s : ServerState) : List Traced :=
  if !s.running then
    []
  else
    [Traced.lock] ++ (closeAll s.objects s.clients).2.map Traced.call ++ [Traced.unlock] ++
      (if s.server_socket ≠ -1 then [Traced.call (Event.sockClose s.server_socket)] else [])

/-- The calls of a trace that are made while the lock is held (`held` tells whether it is
held at the start). -/
def callsWhileLocked : (held : Bool) → List Traced → List Event
  | _, [] => []
  | _, Traced.lock :: rest => callsWhileLocked true rest
  | _, Traced.unlock :: rest => callsWhileLocked false rest
  | held, Traced.call e :: rest =>
    (if held then [e] else []) ++ callsWhileLocked held rest

/-- The calls of a trace, whether the lock is held or not. -/
def callsOf : List Traced → List Event
  | [] => []
  | Traced.call e :: rest => e :: callsOf rest
  | _ :: rest => callsOf rest

/-! ## Successive accepts -/

/-- The number written by a sequence of bytes, most significant byte first. -/
def bigEndianValue (bs : List Byte) : Nat := bs.foldl (fun acc b => acc * 256 + b.val) 0

/-- The bytes `p[i] XOR mask[(start + i) mod 4]`, in order. -/
def xorMask (m0 m1 m2 m3 : Byte) : (start : Nat) → List Byte → List Byte
  | _, [] => []
  | i, b :: bs =>
    toByte (b.val ^^^ (maskAt m0 m1 m2 m3 (i % 4)).val) :: xorMask m0 m1 m2 m3 (i + 1) bs

/-- The length field of RFC 6455 for a payload of `n` bytes: the 7-bit length (or the marker
126 or 127 followed by the length as 2 or 8 bytes, most significant first), with the mask bit
in bit 7 of the first byte. -/
def lengthField (maskBit : Bool) (n : Nat) : List Byte :=
  let flag := if maskBit then 0x80 else 0
  if n < 126 then [toByte (flag + n)]
  else if n ≤ 65535 then [toByte (flag + 126), toByte (n / 256), toByte n]
  else [toByte (flag + 127), toByte (n / 2 ^ 56), toByte (n / 2 ^ 48), toByte (n / 2 ^ 40),
    toByte (n / 2 ^ 32), toByte (n / 2 ^ 24), toByte (n / 2 ^ 16), toByte (n / 2 ^ 8), toByte n]

/-- A masked frame as a client builds it: first byte, length field with the mask bit set, the
four mask bytes, and the payload bytes XOR-ed with `mask[i mod 4]`. -/
def maskedFrame (b0 m0 m1 m2 m3 : Byte) (p : List Byte) : List Byte :=
  b0 :: (lengthField true p.length ++ [m0, m1, m2, m3] ++ xorMask m0 m1 m2 m3 0 p)

/-- The header size that the first two bytes of a buffer declare (RFC 6455): 2, 4 or 10 bytes
for the three length classes, and 4 more for the mask key when the mask bit is set. -/
def declaredHeaderSize (frame : List Byte) : Nat :=
  match frame[1]? with
  | none => 2
  | some b1 =>
    (if b1.val % 128 = 126 then 4 else if b1.val % 128 = 127 then 10 else 2) +
      (if 128 ≤ b1.val then 4 else 0)

/-- The payload length that a buffer declares (RFC 6455); `none` when the buffer ends before
the end of its length field. -/
def declaredPayloadLength (frame : List Byte) : Option Nat :=
  match frame[1]? with
  | none => none
  | some b1 =>
    if b1.val % 128 = 126 then
      if frame.length < 4 then none else some (bigEndianValue ((frame.drop 2).take 2))
    else if b1.val % 128 = 127 then
      if frame.length < 10 then none else some (bigEndianValue ((frame.drop 2).take 8))
    else some (b1.val % 128)

/-- A buffer is shorter than its declared header plus its declared payload. -/
def isTruncated (frame : List Byte) : Bool :=
  match declaredPayloadLength frame with
  | none => true
  | some n => decide (frame.length < declaredHeaderSize frame + n)

/-- A 14-byte buffer: text frame, mask bit set, 64-bit length field `0xFFFFFFFFFFFFFFFF`,
mask key, no payload byte. -/
def overflowFrame : List Byte :=
  [0x81, 0xFF, 0xFF, 0xFF, 0xFF, 0xFF, 0xFF, 0xFF, 0xFF, 0xFF, 0x00, 0x00, 0x00, 0x00]

/-- The SHA-1 digest of the RFC 6455 example key followed by the GUID. -/
def exampleDigest : List Byte :=
  [0xb3, 0x7a, 0x4f, 0x2c, 0xc0, 0x62, 0x4f, 0x16, 0x90, 0xf6,
   0x46, 0x06, 0xcf, 0x38, 0x59, 0x45, 0xb2, 0xbe, 0xc4, 0xea]

/-- The OpenSSL parameters instantiated with the routines of `SimpleSHA1`. -/
def inSourceCrypto : OpenSSL :=
  { SHA1 := fun input => (sha1Digest input).getD [], base64 := base64Encode }

/-- At offset `pre.length` the request holds the text `Sec-WebSocket-Key: ` followed by a
character other than CR and LF. -/
def OccursAt (request pre : List Byte) : Prop :=
  ∃ c t, notCRLF c = true ∧ request = pre ++ keyLiteral ++ c :: t

/-- The lines of a request text: the pieces between LF characters. -/
def splitLines : List Byte → List (List Byte)
  | [] => [[]]
  | b :: rest =>
    match splitLines rest with
    | [] => [[b]]
    | line :: lines => if b = toByte 10 then [] :: line :: lines else (b :: line) :: lines

/-- The key of a line-oriented search, as the specification words it: on the first line that
starts with `Sec-WebSocket-Key: `, the text after the header name up to the first CR or LF. -/
def lineOrientedKey (request : List Byte) : Option (List Byte) :=
  match (splitLines request).find? (fun line => (stripLiteral keyLiteral line).isSome) with
  | none => none
  | some line => some ((line.drop keyLiteral.length).takeWhile notCRLF)

/-- A request whose second line holds the header name in the middle of the line. -/
def shadowedRequest : List Byte :=
  ascii ("GET /chat HTTP/1.1\r\nX-Sec-WebSocket-Key: evil\r\n" ++
    "Sec-WebSocket-Key: dGhlIHNhbXBsZSBub25jZQ==\r\n\r\n")

/-- A request without a `Sec-WebSocket-Key` header line. -/
def noKeyLineRequest : List Byte :=
  ascii "GET /chat HTTP/1.1\r\nX-Sec-WebSocket-Key: evil\r\n\r\n"

/-- A well-formed upgrade request (the example of RFC 6455). -/
def exampleRequest : List Byte :=
  ascii ("GET /chat HTTP/1.1\r\nHost: server.example.com\r\nUpgrade: websocket\r\n" ++
    "Connection: Upgrade\r\nSec-WebSocket-Key: dGhlIHNhbXBsZSBub25jZQ==\r\n" ++
    "Sec-WebSocket-Version: 13\r\n\r\n")

/-- The accounting invariant of the pool: one worker state per thread, and `busy_threads`
counts the workers that are executing a task. -/
def PoolInvariant {τ : Type} (pool : ThreadPool τ) : Prop :=
  pool.workers.length = pool.total_threads ∧ pool.busy_threads = runningCount pool.workers ∧
    pool.total_threads < 2 ^ 64

/-- A stand-in for the library routines, for evaluating the server on concrete inputs. -/
def plainCrypto : OpenSSL := { SHA1 := fun m => m, base64 := fun m => m }

/-! ## Arithmetic of bytes and of the length fields -/

theorem toByte_val (n : Nat) : (toByte n).val = n % 256 := rfl

theorem toByte_val_of_lt {n : Nat} (h : n < 256) : (toByte n).val = n := by
  rw [toByte_val]; exact Nat.mod_eq_of_lt h

theorem toByte_byte (b : Byte) : toByte b.val = b := by
  apply Fin.ext
  rw [toByte_val]; exact Nat.mod_eq_of_lt b.isLt

theorem and_0xFF (n : Nat) : n &&& 0xFF = n % 256 := Nat.and_pow_two_sub_one_eq_mod n 8

theorem and_0x7F (n : Nat) : n &&& 0x7F = n % 128 := Nat.and_pow_two_sub_one_eq_mod n 7

theorem and_0x0F (n : Nat) : n &&& 0x0F = n % 16 := Nat.and_pow_two_sub_one_eq_mod n 4

theorem byte_and_0x80 : ∀ b : Byte, ((b.val &&& 0x80) != 0) = decide (128 ≤ b.val) := by
  decide

theorem shl8_or (a b : Nat) (hb : b < 256) : (a <<< 8) ||| b = a * 256 + b := by
  rw [Nat.shiftLeft_eq, Nat.mul_comm]
  exact (Nat.mul_add_lt_is_or (i := 8) hb a).symm

theorem wrap64_shl8_or (a b : Nat) (hb : b < 256) :
    wrap64 (a <<< 8) ||| b = (a % 2 ^ 56) * 256 + b := by
  have h : wrap64 (a <<< 8) = (a % 2 ^ 56) <<< 8 := by
    simp only [wrap64, Nat.shiftLeft_eq]
    omega
  rw [h, shl8_or _ _ hb]

theorem byte_mask_bit_clear (b : Byte) (h : b.val < 128) : b.val &&& 0x80 = 0 := by
  have h1 := byte_and_0x80 b
  have h2 : decide (128 ≤ b.val) = false := by simp; omega
  rw [h2] at h1
  simpa using h1

theorem div_pow_succ (n k : Nat) : n / 2 ^ (k + 8) = n / 2 ^ k / 256 := by
  rw [Nat.pow_add, Nat.div_div_eq_div_mul]

theorem bigEndianValue_pushLength64 (n : Nat) (h : n < 2 ^ 64) :
    bigEndianValue (pushLength64 n) = n := by
  have e : bigEndianValue (pushLength64 n) =
      (((((((0 * 256 + n / 2 ^ 56 % 256) * 256 + n / 2 ^ 48 % 256) * 256 + n / 2 ^ 40 % 256) * 256 +
        n / 2 ^ 32 % 256) * 256 + n / 2 ^ 24 % 256) * 256 + n / 2 ^ 16 % 256) * 256 +
        n / 2 ^ 8 % 256) * 256 + n / 2 ^ 0 % 256 := by
    simp only [bigEndianValue, pushLength64, List.map_cons, List.map_nil, List.foldl_cons,
      List.foldl_nil, toByte_val, and_0xFF, Nat.shiftRight_eq_div_pow, Nat.mod_mod]
  have h7 : n / 2 ^ 56 < 256 := by
    rw [Nat.div_lt_iff_lt_mul (by positivity)]
    calc n < 2 ^ 64 := h
      _ = 256 * 2 ^ 56 := by norm_num
  rw [e, div_pow_succ n 48, div_pow_succ n 40, div_pow_succ n 32, div_pow_succ n 24,
    div_pow_succ n 16, div_pow_succ n 8, div_pow_succ n 0] at *
  rw [show n / 2 ^ 0 = n by simp] at *
  omega
theorem pushLength64_length (n : Nat) : (pushLength64 n).length = 8 := by
  simp [pushLength64]

theorem encodeFrame_small (p : List Byte) (h : p.length < 126) :
    encodeFrame p = toByte 0x81 :: toByte p.length :: p := by
  simp [encodeFrame, h]

theorem encodeFrame_medium (p : List Byte) (h1 : 126 ≤ p.length) (h2 : p.length < 65536) :
    encodeFrame p = toByte 0x81 :: toByte 126 :: toByte ((p.length >>> 8) &&& 0xFF) ::
      toByte (p.length &&& 0xFF) :: p := by
  have h : ¬ p.length < 126 := by omega
  simp [encodeFrame, h, h2]

theorem encodeFrame_large (p : List Byte) (h1 : 65536 ≤ p.length) :
    encodeFrame p = toByte 0x81 :: toByte 127 :: (pushLength64 p.length ++ p) := by
  have h : ¬ p.length < 126 := by omega
  have h' : ¬ p.length < 65536 := by omega
  simp [encodeFrame, h, h']

/-- C5. Encoding layout: for a payload `p` of `n` bytes (`n` a `size_t`), `encodeFrame p` is the
byte `0x81`, then the length field (the byte `n` when `n < 126`; the byte 126 and `n` as two
big-endian bytes when `126 <= n <= 65535`; the byte 127 and `n` as eight big-endian bytes when
`n >= 65536`), then the payload unchanged; the frame has `n + 2`, `n + 4` or `n + 10` bytes
and bit 7 of byte 1 (the mask bit) is clear. -/
theorem encodeFrame_layout (p : List Byte) (hsize : p.length < 2 ^ 64) :
    (p.length < 126 →
      encodeFrame p = toByte 0x81 :: toByte p.length :: p ∧
        (toByte p.length).val = p.length ∧ (encodeFrame p).length = p.length + 2) ∧
    (126 ≤ p.length → p.length ≤ 65535 →
      ∃ hi lo : Byte, encodeFrame p = toByte 0x81 :: toByte 126 :: hi :: lo :: p ∧
        bigEndianValue [hi, lo] = p.length ∧ (encodeFrame p).length = p.length + 4) ∧
    (65536 ≤ p.length →
      ∃ bs : List Byte, bs.length = 8 ∧ bigEndianValue bs = p.length ∧
        encodeFrame p = toByte 0x81 :: toByte 127 :: (bs ++ p) ∧
        (encodeFrame p).length = p.length + 10) ∧
    (∃ b1 : Byte, (encodeFrame p)[1]? = some b1 ∧ b1.val &&& 0x80 = 0) := by
  refine ⟨?_, ?_, ?_, ?_⟩
  · intro h
    refine ⟨encodeFrame_small p h, toByte_val_of_lt (by omega), ?_⟩
    rw [encodeFrame_small p h]; simp
  · intro h1 h2
    refine ⟨_, _, encodeFrame_medium p h1 (by omega), ?_, ?_⟩
    · simp only [bigEndianValue, List.foldl, toByte_val, and_0xFF, Nat.shiftRight_eq_div_pow]
      omega
    · rw [encodeFrame_medium p h1 (by omega)]; simp
  · intro h1
    refine ⟨pushLength64 p.length, pushLength64_length _, bigEndianValue_pushLength64 _ hsize,
      encodeFrame_large p h1, ?_⟩
    rw [encodeFrame_large p h1]; simp [pushLength64_length]; omega
  · by_cases h : p.length < 126
    · refine ⟨toByte p.length, by rw [encodeFrame_small p h]; simp, ?_⟩
      apply byte_mask_bit_clear
      rw [toByte_val]; omega
    · by_cases h' : p.length < 65536
      · exact ⟨toByte 126, by rw [encodeFrame_medium p (by omega) h']; simp, by decide⟩
      · exact ⟨toByte 127, by rw [encodeFrame_large p (by omega)]; simp, by decide⟩

theorem encodeFrame_layout_witness :
    (ascii "hi").length < 2 ^ 64 ∧ encodeFrame (ascii "hi") = [0x81, 2, 104, 105] :=
  ⟨by decide, ((encodeFrame_layout (ascii "hi") (by decide)).1 (by decide)).1⟩

theorem wrap64_of_lt {n : Nat} (h : n < 2 ^ 64) : wrap64 n = n := Nat.mod_eq_of_lt h

theorem readLength64_append (x y : Byte) (bs done rest : List Byte) (acc : Nat) :
    readLength64 (x :: y :: (done ++ bs ++ rest)) bs.length done.length acc =
      some (bs.foldl (fun a b => wrap64 (a <<< 8) ||| b.val) acc) := by
  induction bs generalizing done acc with
  | nil => rfl
  | cons b bs ih =>
    have hget : (x :: y :: (done ++ b :: bs ++ rest))[2 + done.length]? = some b := by
      rw [Nat.add_comm]
      show (x :: y :: (done ++ b :: bs ++ rest))[done.length + 1 + 1]? = some b
      rw [List.getElem?_cons_succ, List.getElem?_cons_succ, List.append_assoc,
        List.getElem?_append_right (Nat.le_refl _)]
      simp
    have ih' := ih (done ++ [b]) (wrap64 (acc <<< 8) ||| b.val)
    simp only [List.length_append, List.length_singleton, List.append_assoc,
      List.singleton_append] at ih'
    simp only [List.length_cons, readLength64, hget, List.foldl_cons]
    simpa using ih'

theorem foldl_wrap_eight (c0 c1 c2 c3 c4 c5 c6 c7 : Byte) :
    [c0, c1, c2, c3, c4, c5, c6, c7].foldl (fun a b => wrap64 (a <<< 8) ||| b.val) 0 =
      bigEndianValue [c0, c1, c2, c3, c4, c5, c6, c7] := by
  have h0 := c0.isLt
  have h1 := c1.isLt
  have h2 := c2.isLt
  have h3 := c3.isLt
  have h4 := c4.isLt
  have h5 := c5.isLt
  have h6 := c6.isLt
  have h7 := c7.isLt
  simp only [bigEndianValue, List.foldl_cons, List.foldl_nil]
  rw [wrap64_shl8_or _ _ h0, wrap64_shl8_or _ _ h1, wrap64_shl8_or _ _ h2, wrap64_shl8_or _ _ h3,
    wrap64_shl8_or _ _ h4, wrap64_shl8_or _ _ h5, wrap64_shl8_or _ _ h6, wrap64_shl8_or _ _ h7]
  have e : ∀ a : Nat, a < 2 ^ 56 → a % 2 ^ 56 = a := fun a h => Nat.mod_eq_of_lt h
  rw [e _ (by omega), e _ (by omega), e _ (by omega), e _ (by omega), e _ (by omega),
    e _ (by omega), e _ (by omega), e _ (by omega)]

theorem decodePayload_unmasked (hdr p : List Byte) (h : hdr.length + p.length < 2 ^ 64) :
    decodePayload (hdr ++ p) false p.length hdr.length = some p := by
  simp [decodePayload, wrap64_of_lt h]

/-! ## The decoder on well-formed frames -/

theorem xorMask_length (m0 m1 m2 m3 : Byte) (i : Nat) (p : List Byte) :
    (xorMask m0 m1 m2 m3 i p).length = p.length := by
  induction p generalizing i with
  | nil => rfl
  | cons b bs ih => simp [xorMask, ih]

theorem xor_byte_cancel (b m : Byte) : toByte ((toByte (b.val ^^^ m.val)).val ^^^ m.val) = b := by
  have h : b.val ^^^ m.val < 2 ^ 8 := Nat.xor_lt_two_pow b.isLt m.isLt
  rw [toByte_val_of_lt h, Nat.xor_assoc, Nat.xor_self, Nat.xor_zero, toByte_byte]

theorem xorMask_xorMask (m0 m1 m2 m3 : Byte) (i : Nat) (p : List Byte) :
    xorMask m0 m1 m2 m3 i (xorMask m0 m1 m2 m3 i p) = p := by
  induction p generalizing i with
  | nil => rfl
  | cons b bs ih => simp [xorMask, ih, xor_byte_cancel]

theorem getElem?_append_add (hdr l : List Byte) (k : Nat) :
    (hdr ++ l)[hdr.length + k]? = l[k]? := by
  rw [List.getElem?_append_right (Nat.le_add_right _ _), Nat.add_sub_cancel_left]

theorem unmaskLoop_append (m0 m1 m2 m3 : Byte) (pre bs done rest : List Byte)
    (h : pre.length + done.length + bs.length < 2 ^ 64) :
    unmaskLoop (pre ++ done ++ bs ++ rest) pre.length m0 m1 m2 m3 bs.length done.length =
      some (xorMask m0 m1 m2 m3 done.length bs) := by
  induction bs generalizing done with
  | nil => rfl
  | cons b bs ih =>
    have hlt : pre.length + done.length < 2 ^ 64 := by
      simp only [List.length_cons] at h; omega
    have hget : (pre ++ done ++ b :: bs ++ rest)[wrap64 (pre.length + done.length)]? = some b := by
      rw [wrap64_of_lt hlt, ← List.length_append, List.append_assoc (pre ++ done),
        List.getElem?_append_right (Nat.le_refl _)]
      simp
    have hlen : pre.length + (done ++ [b]).length + bs.length < 2 ^ 64 := by
      simp only [List.length_append, List.length_cons, List.length_nil] at h ⊢
      omega
    have ih' := ih (done ++ [b]) hlen
    simp only [List.length_append, List.length_singleton, List.append_assoc,
      List.singleton_append] at ih'
    simp only [List.length_cons, unmaskLoop, hget, xorMask]
    simp only [List.append_assoc, List.cons_append] at ih' ⊢
    rw [ih']

theorem decodePayload_unmasked_append (hdr p rest : List Byte)
    (h : hdr.length + p.length < 2 ^ 64) :
    decodePayload (hdr ++ p ++ rest) false p.length hdr.length = some p := by
  simp [decodePayload, wrap64_of_lt h]

theorem decodePayload_masked_append (m0 m1 m2 m3 : Byte) (hdr bs rest : List Byte)
    (h : hdr.length + 4 + bs.length < 2 ^ 64) :
    decodePayload (hdr ++ [m0, m1, m2, m3] ++ bs ++ rest) true bs.length hdr.length =
      some (xorMask m0 m1 m2 m3 0 bs) := by
  have h4 : wrap64 (hdr.length + 4) = hdr.length + 4 := wrap64_of_lt (by omega)
  have hloop := unmaskLoop_append m0 m1 m2 m3 (hdr ++ [m0, m1, m2, m3]) bs [] rest
    (by simp; omega)
  simp only [List.length_append, List.length_cons, List.length_nil, List.append_nil,
    Nat.zero_add] at hloop
  have hfr : hdr ++ [m0, m1, m2, m3] ++ bs ++ rest = hdr ++ (m0 :: m1 :: m2 :: m3 :: (bs ++ rest)) := by
    simp
  have g0 : (hdr ++ [m0, m1, m2, m3] ++ bs ++ rest)[hdr.length + 4 - 4]? = some m0 := by
    rw [show hdr.length + 4 - 4 = hdr.length + 0 by omega, hfr, getElem?_append_add]; simp
  have g1 : (hdr ++ [m0, m1, m2, m3] ++ bs ++ rest)[hdr.length + 4 - 3]? = some m1 := by
    rw [show hdr.length + 4 - 3 = hdr.length + 1 by omega, hfr, getElem?_append_add]; simp
  have g2 : (hdr ++ [m0, m1, m2, m3] ++ bs ++ rest)[hdr.length + 4 - 2]? = some m2 := by
    rw [show hdr.length + 4 - 2 = hdr.length + 2 by omega, hfr, getElem?_append_add]; simp
  have g3 : (hdr ++ [m0, m1, m2, m3] ++ bs ++ rest)[hdr.length + 4 - 1]? = some m3 := by
    rw [show hdr.length + 4 - 1 = hdr.length + 3 by omega, hfr, getElem?_append_add]; simp
  have hsz : ¬ (hdr ++ [m0, m1, m2, m3] ++ bs ++ rest).length <
      wrap64 (hdr.length + 4 + bs.length) := by
    rw [wrap64_of_lt h]; simp; omega
  simp only [decodePayload, if_true, h4, hsz, if_false, g0, g1, g2, g3]
  exact hloop

theorem decodeFrame_small (self : WebSocketConnection) (b0 b1 : Byte) (tail : List Byte)
    (hop : b0.val &&& 0x0F ≠ 8) (h : b1.val % 128 < 126) :
    decodeFrame self (b0 :: b1 :: tail) =
      (decodePayload (b0 :: b1 :: tail) (decide (128 ≤ b1.val)) (b1.val % 128) 2).map
        (fun payload => (payload, self)) := by
  have h1 : b1.val % 128 ≠ 126 := by omega
  have h2 : b1.val % 128 ≠ 127 := by omega
  simp [decodeFrame, hop, and_0x7F, byte_and_0x80, h1, h2]

theorem decodeFrame_medium (self : WebSocketConnection) (b0 b1 hi lo : Byte) (tail : List Byte)
    (hop : b0.val &&& 0x0F ≠ 8) (h : b1.val % 128 = 126) :
    decodeFrame self (b0 :: b1 :: hi :: lo :: tail) =
      (decodePayload (b0 :: b1 :: hi :: lo :: tail) (decide (128 ≤ b1.val))
        (bigEndianValue [hi, lo]) 4).map (fun payload => (payload, self)) := by
  simp [decodeFrame, hop, and_0x7F, byte_and_0x80, h, shl8_or _ _ lo.isLt, bigEndianValue]
  split_ifs <;> first | rfl | (exfalso; omega)

theorem decodeFrame_large (self : WebSocketConnection) (b0 b1 c0 c1 c2 c3 c4 c5 c6 c7 : Byte)
    (tail : List Byte) (hop : b0.val &&& 0x0F ≠ 8) (h : b1.val % 128 = 127) :
    decodeFrame self (b0 :: b1 :: c0 :: c1 :: c2 :: c3 :: c4 :: c5 :: c6 :: c7 :: tail) =
      (decodePayload (b0 :: b1 :: c0 :: c1 :: c2 :: c3 :: c4 :: c5 :: c6 :: c7 :: tail)
        (decide (128 ≤ b1.val)) (bigEndianValue [c0, c1, c2, c3, c4, c5, c6, c7]) 10).map
        (fun payload => (payload, self)) := by
  have hr := readLength64_append b0 b1 [c0, c1, c2, c3, c4, c5, c6, c7] [] tail 0
  rw [foldl_wrap_eight] at hr
  simp only [List.nil_append, List.cons_append, List.length_cons, List.length_nil,
    Nat.zero_add, Nat.reduceAdd] at hr
  have h1 : b1.val % 128 ≠ 126 := by omega
  simp [decodeFrame, hop, and_0x7F, byte_and_0x80, h, hr]
  split_ifs <;> first | rfl | (exfalso; omega)

theorem pushLength64_eq (n : Nat) :
    pushLength64 n = [toByte (n / 2 ^ 56), toByte (n / 2 ^ 48), toByte (n / 2 ^ 40),
      toByte (n / 2 ^ 32), toByte (n / 2 ^ 24), toByte (n / 2 ^ 16), toByte (n / 2 ^ 8),
      toByte n] := by
  have e : ∀ m : Nat, toByte (m % 256) = toByte m := by
    intro m; apply Fin.ext; simp [toByte_val]
  simp only [pushLength64, List.map_cons, List.map_nil, and_0xFF, Nat.shiftRight_eq_div_pow, e]
  simp

/-- C1. Framing round trip: for every payload `p` whose frame fits a `size_t`, `decodeFrame`
applied to `encodeFrame p` returns exactly `p`, reads no byte outside the frame and leaves the
connection (its `connected` flag included) unchanged. -/
theorem decode_encode_roundtrip (self : WebSocketConnection) (p : List Byte)
    (hsize : (encodeFrame p).length < 2 ^ 64) :
    decodeFrame self (encodeFrame p) = some (p, self) := by
  have hop : (toByte 0x81).val &&& 0x0F ≠ 8 := by decide
  by_cases h : p.length < 126
  · rw [encodeFrame_small p h] at hsize ⊢
    have hv : (toByte p.length).val = p.length := toByte_val_of_lt (by omega)
    rw [decodeFrame_small self _ _ _ hop (by rw [hv]; omega), hv]
    have hm : decide (128 ≤ p.length) = false := by simp; omega
    have hp := decodePayload_unmasked_append [toByte 0x81, toByte p.length] p []
      (by simp at hsize ⊢; omega)
    simp only [List.append_nil, List.cons_append, List.nil_append, List.length_cons,
      List.length_nil, Nat.zero_add, Nat.reduceAdd] at hp
    rw [hm, Nat.mod_eq_of_lt (by omega : p.length < 128), hp]
    rfl
  · by_cases h' : p.length < 65536
    · rw [encodeFrame_medium p (by omega) h'] at hsize ⊢
      rw [decodeFrame_medium self _ _ _ _ _ hop (by decide)]
      have hv : bigEndianValue [toByte ((p.length >>> 8) &&& 0xFF), toByte (p.length &&& 0xFF)] =
          p.length := by
        simp only [bigEndianValue, List.foldl, toByte_val, and_0xFF, Nat.shiftRight_eq_div_pow]
        omega
      have hp := decodePayload_unmasked_append [toByte 0x81, toByte 126,
        toByte ((p.length >>> 8) &&& 0xFF), toByte (p.length &&& 0xFF)] p []
        (by simp at hsize ⊢; omega)
      simp only [List.append_nil, List.cons_append, List.nil_append, List.length_cons,
        List.length_nil, Nat.zero_add, Nat.reduceAdd] at hp
      rw [hv, show decide (128 ≤ (toByte 126).val) = false by decide, hp]
      rfl
    · rw [encodeFrame_large p (by omega)] at hsize ⊢
      have hn : p.length < 2 ^ 64 := by
        simp only [List.length_cons, List.length_append] at hsize; omega
      have hv := bigEndianValue_pushLength64 p.length hn
      rw [pushLength64_eq] at hv hsize ⊢
      rw [List.cons_append, List.cons_append, List.cons_append, List.cons_append,
        List.cons_append, List.cons_append, List.cons_append, List.cons_append, List.nil_append,
        decodeFrame_large self _ _ _ _ _ _ _ _ _ _ _ hop (by decide), hv]
      have hp := decodePayload_unmasked_append [toByte 0x81, toByte 127,
        toByte (p.length / 2 ^ 56), toByte (p.length / 2 ^ 48), toByte (p.length / 2 ^ 40),
        toByte (p.length / 2 ^ 32), toByte (p.length / 2 ^ 24), toByte (p.length / 2 ^ 16),
        toByte (p.length / 2 ^ 8), toByte p.length] p []
        (by simp at hsize ⊢; omega)
      simp only [List.append_nil, List.cons_append, List.nil_append, List.length_cons,
        List.length_nil, Nat.zero_add, Nat.reduceAdd] at hp
      rw [show decide (128 ≤ (toByte 127).val) = false by decide, hp]
      rfl

theorem decode_encode_roundtrip_witness :
    (encodeFrame (ascii "hello")).length < 2 ^ 64 ∧
      decodeFrame ⟨5, "10.0.0.1", true⟩ (encodeFrame (ascii "hello")) =
        some (ascii "hello", ⟨5, "10.0.0.1", true⟩) :=
  ⟨by decide, decode_encode_roundtrip ⟨5, "10.0.0.1", true⟩ (ascii "hello") (by decide)⟩

/-- C2. Masking correctness: for every payload `p`, every mask `m0 m1 m2 m3` and every first
byte whose opcode is not 8, `decodeFrame` of the frame made of that byte, the RFC 6455 length
field of `p` with the mask bit set, the mask and the bytes `p[i] XOR m[i mod 4]` returns
exactly `p` (the frame fitting a `size_t`). -/
theorem decode_masked_frame (self : WebSocketConnection) (b0 m0 m1 m2 m3 : Byte)
    (p : List Byte) (hop : b0.val % 16 ≠ 8)
    (hsize : (maskedFrame b0 m0 m1 m2 m3 p).length < 2 ^ 64) :
    decodeFrame self (maskedFrame b0 m0 m1 m2 m3 p) = some (p, self) := by
  have hop' : b0.val &&& 0x0F ≠ 8 := by rw [and_0x0F]; exact hop
  have hx := xorMask_length m0 m1 m2 m3 0 p
  have hxx := xorMask_xorMask m0 m1 m2 m3 0 p
  by_cases h : p.length < 126
  · have hfr : maskedFrame b0 m0 m1 m2 m3 p =
        [b0, toByte (0x80 + p.length)] ++ [m0, m1, m2, m3] ++ xorMask m0 m1 m2 m3 0 p ++ [] := by
      simp [maskedFrame, lengthField, h]
    have hv : (toByte (0x80 + p.length)).val = 128 + p.length := toByte_val_of_lt (by omega)
    have hp := decodePayload_masked_append m0 m1 m2 m3 [b0, toByte (0x80 + p.length)]
      (xorMask m0 m1 m2 m3 0 p) [] (by rw [hfr] at hsize; simp at hsize ⊢; omega)
    rw [hx, hxx] at hp
    rw [hfr] at hsize ⊢
    simp only [List.cons_append, List.nil_append] at hp ⊢
    rw [decodeFrame_small self _ _ _ hop' (by rw [hv]; omega), hv,
      show decide (128 ≤ 128 + p.length) = true by simp,
      show (128 + p.length) % 128 = p.length by omega]
    simp only [List.length_cons, List.length_nil, Nat.zero_add, Nat.reduceAdd] at hp
    rw [hp]
    rfl
  · by_cases h' : p.length ≤ 65535
    · have hfr : maskedFrame b0 m0 m1 m2 m3 p =
          [b0, toByte (0x80 + 126), toByte (p.length / 256), toByte p.length] ++
            [m0, m1, m2, m3] ++ xorMask m0 m1 m2 m3 0 p ++ [] := by
        simp [maskedFrame, lengthField, h, h']
      have hv : bigEndianValue [toByte (p.length / 256), toByte p.length] = p.length := by
        simp only [bigEndianValue, List.foldl, toByte_val]
        omega
      have hp := decodePayload_masked_append m0 m1 m2 m3
        [b0, toByte (0x80 + 126), toByte (p.length / 256), toByte p.length]
        (xorMask m0 m1 m2 m3 0 p) [] (by rw [hfr] at hsize; simp at hsize ⊢; omega)
      rw [hx, hxx] at hp
      rw [hfr]
      simp only [List.cons_append, List.nil_append] at hp ⊢
      rw [decodeFrame_medium self _ _ _ _ _ hop' (by decide), hv,
        show decide (128 ≤ (toByte (0x80 + 126)).val) = true by decide]
      simp only [List.length_cons, List.length_nil, Nat.zero_add, Nat.reduceAdd] at hp
      rw [hp]
      rfl
    · have hfr : maskedFrame b0 m0 m1 m2 m3 p =
          [b0, toByte (0x80 + 127), toByte (p.length / 2 ^ 56), toByte (p.length / 2 ^ 48),
            toByte (p.length / 2 ^ 40), toByte (p.length / 2 ^ 32), toByte (p.length / 2 ^ 24),
            toByte (p.length / 2 ^ 16), toByte (p.length / 2 ^ 8), toByte p.length] ++
            [m0, m1, m2, m3] ++ xorMask m0 m1 m2 m3 0 p ++ [] := by
        simp [maskedFrame, lengthField, h, h']
      have hn : p.length < 2 ^ 64 := by
        rw [hfr] at hsize
        simp only [List.length_cons, List.length_append, hx] at hsize; omega
      have hv := bigEndianValue_pushLength64 p.length hn
      rw [pushLength64_eq] at hv
      have hp := decodePayload_masked_append m0 m1 m2 m3
        [b0, toByte (0x80 + 127), toByte (p.length / 2 ^ 56), toByte (p.length / 2 ^ 48),
            toByte (p.length / 2 ^ 40), toByte (p.length / 2 ^ 32), toByte (p.length / 2 ^ 24),
            toByte (p.length / 2 ^ 16), toByte (p.length / 2 ^ 8), toByte p.length]
        (xorMask m0 m1 m2 m3 0 p) [] (by rw [hfr] at hsize; simp at hsize ⊢; omega)
      rw [hx, hxx] at hp
      rw [hfr]
      simp only [List.cons_append, List.nil_append] at hp ⊢
      rw [decodeFrame_large self _ _ _ _ _ _ _ _ _ _ _ hop' (by decide), hv,
        show decide (128 ≤ (toByte (0x80 + 127)).val) = true by decide]
      simp only [List.length_cons, List.length_nil, Nat.zero_add, Nat.reduceAdd] at hp
      rw [hp]
      rfl

theorem decode_masked_frame_witness :
    (0x81 : Byte).val % 16 ≠ 8 ∧
      (maskedFrame 0x81 0x37 0xfa 0x21 0x3d (ascii "Hello")).length < 2 ^ 64 ∧
      maskedFrame 0x81 0x37 0xfa 0x21 0x3d (ascii "Hello") =
        [0x81, 0x85, 0x37, 0xfa, 0x21, 0x3d, 0x7f, 0x9f, 0x4d, 0x51, 0x58] ∧
      decodeFrame ⟨5, "10.0.0.1", true⟩ (maskedFrame 0x81 0x37 0xfa 0x21 0x3d (ascii "Hello")) =
        some (ascii "Hello", ⟨5, "10.0.0.1", true⟩) :=
  ⟨by decide, by decide, by decide,
    decode_masked_frame ⟨5, "10.0.0.1", true⟩ 0x81 0x37 0xfa 0x21 0x3d (ascii "Hello")
      (by decide) (by decide)⟩

/-! ## Truncated buffers, close frames and the accept key -/

/-- C3. Truncated frame safety is broken by a 64-bit length: the buffer `overflowFrame` has
14 bytes, declares a 14-byte header and a payload of `2 ^ 64 - 1` bytes, so it is truncated;
`header_size + payload_length` wraps to 13, the size check passes and `decodeFrame` reads
`frame[14]`, outside the buffer, instead of returning the empty string. -/
theorem decodeFrame_overflow_reads_past_end :
    overflowFrame.length = 14 ∧ declaredHeaderSize overflowFrame = 14 ∧
      declaredPayloadLength overflowFrame = some (2 ^ 64 - 1) ∧ isTruncated overflowFrame = true ∧
      wrap64 (14 + (2 ^ 64 - 1)) = 13 ∧ overflowFrame[14]? = none ∧
      decodeFrame ⟨5, "10.0.0.1", true⟩ overflowFrame = none := by
  decide

/-- C4 (as stated) fails on a one-byte buffer: the buffer `[0x88]` has opcode 8 in byte 0, and
`decodeFrame` returns before it looks at the opcode, the connection staying connected. -/
theorem close_opcode_one_byte_stays_connected :
    (([0x88] : List Byte)[0]?).map (fun b => b.val % 16) = some 8 ∧
      decodeFrame ⟨5, "10.0.0.1", true⟩ [0x88] = some ([], ⟨5, "10.0.0.1", true⟩) := by
  decide

/-- C4 (amended). Close-frame detection: a buffer of at least two bytes whose byte 0 has
opcode 8 decodes to the empty string and leaves the connection not connected, whatever bytes
follow; a buffer of fewer than two bytes decodes to the empty string and leaves the connection
as it is, the flag unchanged, whatever its byte is. -/
theorem close_frame_detection (self : WebSocketConnection) (frame : List Byte) :
    (∀ b0, 2 ≤ frame.length → frame[0]? = some b0 → b0.val % 16 = 8 →
      decodeFrame self frame = some ([], { self with connected := false })) ∧
    (frame.length < 2 → decodeFrame self frame = some ([], self)) := by
  constructor
  · intro b0 hlen h0 hop
    match frame, hlen, h0 with
    | c0 :: c1 :: tail, _, h0 =>
      simp only [List.getElem?_cons_zero, Option.some.injEq] at h0
      subst h0
      have h : c0.val &&& 0x0F = 8 := by rw [and_0x0F]; exact hop
      simp [decodeFrame, h]
  · intro h
    simp [decodeFrame, h]

theorem close_frame_detection_witness :
    decodeFrame ⟨5, "10.0.0.1", true⟩ (0x88 :: 0x02 :: [0x03, 0xe8]) =
        some ([], ⟨5, "10.0.0.1", false⟩) ∧
      decodeFrame ⟨5, "10.0.0.1", true⟩ [0x88] = some ([], ⟨5, "10.0.0.1", true⟩) ∧
      decodeFrame ⟨5, "10.0.0.1", true⟩ [] = some ([], ⟨5, "10.0.0.1", true⟩) :=
  ⟨(close_frame_detection ⟨5, "10.0.0.1", true⟩ (0x88 :: 0x02 :: [0x03, 0xe8])).1 0x88
      (by decide) (by decide) (by decide),
    (close_frame_detection ⟨5, "10.0.0.1", true⟩ [0x88]).2 (by decide),
    (close_frame_detection ⟨5, "10.0.0.1", true⟩ []).2 (by decide)⟩

theorem sha1Digest_example :
    sha1Digest (ascii "dGhlIHNhbXBsZSBub25jZQ==" ++ magic_string) = some exampleDigest := by
  decide!

theorem base64Encode_example :
    base64Encode exampleDigest = ascii "s3pPLMBiTxaQ9kYGzzhZRbK+xOo=" := by
  decide

/-- C6. Accept-key derivation: on the RFC 6455 example key `dGhlIHNhbXBsZSBub25jZQ==`,
`SimpleWebSocketConnection::generateAcceptKey` returns `s3pPLMBiTxaQ9kYGzzhZRbK+xOo=`, which is
`SimpleSHA1::hash` of the key followed by the GUID; `WebSocketConnection::generateAcceptKey`
returns the same text when its two library routines are the in-source SHA-1 and base64. -/
theorem accept_key_rfc6455_example :
    SimpleWebSocketConnection.generateAcceptKey (ascii "dGhlIHNhbXBsZSBub25jZQ==") =
        some (ascii "s3pPLMBiTxaQ9kYGzzhZRbK+xOo=") ∧
      SimpleSHA1.hash (ascii "dGhlIHNhbXBsZSBub25jZQ==" ++
        ascii "258EAFA5-E914-47DA-95CA-C5AB0DC85B11") = some (ascii "s3pPLMBiTxaQ9kYGzzhZRbK+xOo=") ∧
      WebSocketConnection.generateAcceptKey inSourceCrypto (ascii "dGhlIHNhbXBsZSBub25jZQ==") =
        ascii "s3pPLMBiTxaQ9kYGzzhZRbK+xOo=" := by
  have hd := sha1Digest_example
  have hb := base64Encode_example
  refine ⟨?_, ?_, ?_⟩
  · simp only [SimpleWebSocketConnection.generateAcceptKey, SimpleSHA1.hash, hd, Option.map_some',
      hb]
  · show SimpleSHA1.hash (ascii "dGhlIHNhbXBsZSBub25jZQ==" ++ magic_string) = _
    simp only [SimpleSHA1.hash, hd, Option.map_some', hb]
  · simp only [WebSocketConnection.generateAcceptKey, inSourceCrypto, hd, Option.getD_some, hb]

/-! ## The search for the key in the handshake request -/

theorem stripLiteral_eq_some (literal s rest : List Byte) :
    stripLiteral literal s = some rest ↔ s = literal ++ rest := by
  induction literal generalizing s with
  | nil => simp [stripLiteral, eq_comm]
  | cons c literal ih =>
    cases s with
    | nil => simp [stripLiteral]
    | cons d s =>
      by_cases h : c = d
      · subst h; simp [stripLiteral, ih]
      · simp [stripLiteral, h, Ne.symm h]

theorem takeWhile_eq_iff (p : Byte → Bool) (l key : List Byte) :
    l.takeWhile p = key ↔
      ∃ post, l = key ++ post ∧ (∀ b ∈ key, p b = true) ∧ (∀ c t, post = c :: t → p c = false) := by
  constructor
  · intro h
    subst h
    refine ⟨l.dropWhile p, (List.takeWhile_append_dropWhile p l).symm,
      fun b hb => List.mem_takeWhile_imp hb, ?_⟩
    intro c t hpost
    have hh := List.head?_dropWhile_not p l
    rw [hpost] at hh
    simpa using hh
  · rintro ⟨post, rfl, hkey, hpost⟩
    rw [List.takeWhile_append_of_pos hkey]
    cases post with
    | nil => simp
    | cons c t =>
      have hc := hpost c t rfl
      rw [List.takeWhile_cons_of_neg (by simp [hc])]
      simp

theorem matchKeyAt_eq_some (s key : List Byte) :
    matchKeyAt s = some key ↔
      ∃ post, s = keyLiteral ++ key ++ post ∧ key ≠ [] ∧ (∀ b ∈ key, notCRLF b = true) ∧
        (∀ c t, post = c :: t → notCRLF c = false) := by
  unfold matchKeyAt
  constructor
  · intro h
    cases hs : stripLiteral keyLiteral s with
    | none => rw [hs] at h; simp at h
    | some rest =>
      rw [hs] at h
      simp only at h
      by_cases hg : rest.takeWhile notCRLF = []
      · rw [if_pos hg] at h; simp at h
      · rw [if_neg hg] at h
        have hk : rest.takeWhile notCRLF = key := Option.some.inj h
        obtain ⟨post, hrest, hkey, hpost⟩ := (takeWhile_eq_iff notCRLF rest key).1 hk
        refine ⟨post, ?_, hk ▸ hg, hkey, hpost⟩
        rw [(stripLiteral_eq_some keyLiteral s rest).1 hs, hrest, List.append_assoc]
  · rintro ⟨post, hs, hne, hkey, hpost⟩
    have h1 : stripLiteral keyLiteral s = some (key ++ post) :=
      (stripLiteral_eq_some keyLiteral s (key ++ post)).2 (by rw [hs, List.append_assoc])
    have h2 : (key ++ post).takeWhile notCRLF = key :=
      (takeWhile_eq_iff notCRLF (key ++ post) key).2 ⟨post, rfl, hkey, hpost⟩
    rw [h1]
    simp only [h2, if_neg hne]

theorem matchKeyAt_eq_none (s : List Byte) : matchKeyAt s = none ↔ ¬ OccursAt s [] := by
  constructor
  · rintro h ⟨c, t, hc, hs⟩
    have h1 : stripLiteral keyLiteral s = some (c :: t) :=
      (stripLiteral_eq_some keyLiteral s (c :: t)).2 (by simpa using hs)
    unfold matchKeyAt at h
    rw [h1] at h
    simp [List.takeWhile_cons_of_pos hc] at h
  · intro h
    cases hm : matchKeyAt s with
    | none => rfl
    | some key =>
      exfalso
      obtain ⟨post, hs, hne, hkey, _⟩ := (matchKeyAt_eq_some s key).1 hm
      cases key with
      | nil => exact hne rfl
      | cons c key =>
        exact h ⟨c, key ++ post, hkey c (List.mem_cons_self _ _), by simp [hs]⟩

theorem keyLiteral_ne_nil : keyLiteral ≠ [] := by decide

theorem occursAt_cons (c : Byte) (r q : List Byte) : OccursAt (c :: r) (c :: q) ↔ OccursAt r q := by
  unfold OccursAt
  constructor
  · rintro ⟨d, t, hd, h⟩
    refine ⟨d, t, hd, ?_⟩
    simpa using h
  · rintro ⟨d, t, hd, h⟩
    exact ⟨d, t, hd, by simp [h]⟩

theorem occursAt_head (c : Byte) (r pre : List Byte) (h : OccursAt (c :: r) pre)
    (h0 : ¬ OccursAt (c :: r) []) : ∃ q, pre = c :: q ∧ OccursAt r q := by
  cases pre with
  | nil => exact absurd h h0
  | cons d q =>
    obtain ⟨e, t, he, hs⟩ := h
    have hd : c = d := by
      simp only [List.cons_append] at hs
      exact (List.cons.inj hs).1
    subst hd
    exact ⟨q, rfl, (occursAt_cons c r q).1 ⟨e, t, he, hs⟩⟩

/-- The key found by `regexSearchKey` is the one at the leftmost offset at which the pattern
matches. -/
theorem regexSearchKey_characterisation (request : List Byte) :
    (∀ key, regexSearchKey request = some key ↔
      ∃ pre post, request = pre ++ keyLiteral ++ key ++ post ∧ key ≠ [] ∧
        (∀ b ∈ key, notCRLF b = true) ∧ (∀ c t, post = c :: t → notCRLF c = false) ∧
        (∀ pre', OccursAt request pre' → pre.length ≤ pre'.length)) ∧
    (regexSearchKey request = none ↔ ∀ pre, ¬ OccursAt request pre) := by
  induction request with
  | nil =>
    have hnone : regexSearchKey [] = none := by decide
    have hocc : ∀ pre, ¬ OccursAt [] pre := by
      rintro pre ⟨c, t, _, h⟩
      have := congrArg List.length h
      simp at this
      omega
    refine ⟨fun key => ?_, ?_⟩
    · rw [hnone]
      constructor
      · intro h; cases h
      · rintro ⟨pre, post, h, hne, _⟩
        have := congrArg List.length h
        have hk : key.length ≠ 0 := fun hk => hne (List.length_eq_zero.1 hk)
        simp at this
        omega
    · rw [hnone]; simp [hocc]
  | cons c r ih =>
    cases hm : matchKeyAt (c :: r) with
    | some k =>
      have hreg : regexSearchKey (c :: r) = some k := by simp [regexSearchKey, hm]
      obtain ⟨post, hs, hne, hkey, hpost⟩ := (matchKeyAt_eq_some (c :: r) k).1 hm
      have hocc : OccursAt (c :: r) [] := by
        by_contra hcon
        rw [(matchKeyAt_eq_none (c :: r)).2 hcon] at hm
        cases hm
      refine ⟨fun key => ?_, ?_⟩
      · rw [hreg]
        constructor
        · intro h
          have hk : k = key := Option.some.inj h
          subst hk
          exact ⟨[], post, by simpa using hs, hne, hkey, hpost, fun _ _ => Nat.zero_le _⟩
        · rintro ⟨pre, post', hs', hne', hkey', hpost', hleft⟩
          have hpre : pre = [] := List.length_eq_zero.1 (Nat.le_zero.1 (hleft [] hocc))
          subst hpre
          have hm' : matchKeyAt (c :: r) = some key :=
            (matchKeyAt_eq_some (c :: r) key).2 ⟨post', by simpa using hs', hne', hkey', hpost'⟩
          rw [hm] at hm'
          exact hm'
      · rw [hreg]
        constructor
        · intro h; cases h
        · intro h; exact absurd hocc (h [])
    | none =>
      have hreg : regexSearchKey (c :: r) = regexSearchKey r := by simp [regexSearchKey, hm]
      have hocc : ¬ OccursAt (c :: r) [] := (matchKeyAt_eq_none (c :: r)).1 hm
      refine ⟨fun key => ?_, ?_⟩
      · rw [hreg, ih.1 key]
        constructor
        · rintro ⟨pre, post, hs, hne, hkey, hpost, hleft⟩
          refine ⟨c :: pre, post, by simp [hs], hne, hkey, hpost, ?_⟩
          intro pre' hpre'
          obtain ⟨q, rfl, hq⟩ := occursAt_head c r pre' hpre' hocc
          have := hleft q hq
          simp only [List.length_cons]
          omega
        · rintro ⟨pre, post, hs, hne, hkey, hpost, hleft⟩
          cases pre with
          | nil =>
            exfalso
            have hm' : matchKeyAt (c :: r) = some key :=
              (matchKeyAt_eq_some (c :: r) key).2 ⟨post, by simpa using hs, hne, hkey, hpost⟩
            rw [hm] at hm'
            cases hm'
          | cons d q =>
            have hd : c = d := by
              simp only [List.cons_append] at hs
              exact (List.cons.inj hs).1
            subst hd
            refine ⟨q, post, ?_, hne, hkey, hpost, ?_⟩
            · simp only [List.cons_append] at hs
              exact (List.cons.inj hs).2
            · intro pre' hpre'
              have := hleft (c :: pre') ((occursAt_cons c r pre').2 hpre')
              simp only [List.length_cons] at this
              omega
      · rw [hreg, ih.2]
        constructor
        · intro h pre hpre
          obtain ⟨q, rfl, hq⟩ := occursAt_head c r pre hpre hocc
          exact h q hq
        · intro h pre hpre
          exact h (c :: pre) ((occursAt_cons c r pre).2 hpre)

/-- C7 (as stated) fails: the search is not line-oriented. On `shadowedRequest` the code takes
the key `evil` from the middle of the second line, not the key of the line that starts with
the header name; on `noKeyLineRequest`, which has no such line, the code still finds a key and
the handshake succeeds. -/
theorem key_search_not_line_oriented :
    regexSearchKey shadowedRequest = some (ascii "evil") ∧
      lineOrientedKey shadowedRequest = some (ascii "dGhlIHNhbXBsZSBub25jZQ==") ∧
      lineOrientedKey noKeyLineRequest = none ∧
      regexSearchKey noKeyLineRequest = some (ascii "evil") ∧
      (WebSocketConnection.performHandshake inSourceCrypto ⟨5, "10.0.0.1", false⟩
        ⟨some noKeyLineRequest, 129⟩).1 = true := by
  decide

/-- C7 (amended). The key used by `performHandshake` is the longest run of characters other
than CR and LF that follows the leftmost occurrence, anywhere in the request text, of
`Sec-WebSocket-Key: ` followed by such a character; the handshake fails when the request text
has no such occurrence, and a key is found whenever it has one. -/
theorem handshake_key_leftmost_occurrence (lib : OpenSSL) (self : WebSocketConnection)
    (io : HandshakeIO) (hrecv : 0 < (recv io.pending 4095).1) :
    (∀ pre key post,
      requestText (recv io.pending 4095).2 = pre ++ keyLiteral ++ key ++ post → key ≠ [] →
      (∀ b ∈ key, notCRLF b = true) → (∀ c t, post = c :: t → notCRLF c = false) →
      (∀ pre', OccursAt (requestText (recv io.pending 4095).2) pre' → pre.length ≤ pre'.length) →
      WebSocketConnection.performHandshake lib self io =
        (decide (io.sendRet > 0), [Event.sockRecv self.socket_fd,
          Event.sockSend self.socket_fd
            (handshakeResponse (WebSocketConnection.generateAcceptKey lib key))])) ∧
    ((∀ pre, ¬ OccursAt (requestText (recv io.pending 4095).2) pre) →
      WebSocketConnection.performHandshake lib self io =
        (false, [Event.sockRecv self.socket_fd])) ∧
    ((∃ pre, OccursAt (requestText (recv io.pending 4095).2) pre) →
      ∃ key, regexSearchKey (requestText (recv io.pending 4095).2) = some key) := by
  have hchar := regexSearchKey_characterisation (requestText (recv io.pending 4095).2)
  have hpos : ¬ (recv io.pending 4095).1 ≤ 0 := by omega
  refine ⟨?_, ?_, ?_⟩
  · intro pre key post hreq hne hkey hpost hleft
    have hk := (hchar.1 key).2 ⟨pre, post, hreq, hne, hkey, hpost, hleft⟩
    simp only [WebSocketConnection.performHandshake, if_neg hpos, hk]
  · intro hno
    have hk := hchar.2.2 hno
    simp only [WebSocketConnection.performHandshake, if_neg hpos, hk]
  · rintro ⟨pre, hpre⟩
    cases hk : regexSearchKey (requestText (recv io.pending 4095).2) with
    | some key => exact ⟨key, rfl⟩
    | none => exact absurd hpre (hchar.2.1 hk pre)

theorem handshake_key_leftmost_occurrence_witness :
    0 < (recv (some shadowedRequest) 4095).1 ∧
      WebSocketConnection.performHandshake inSourceCrypto ⟨5, "10.0.0.1", false⟩
          ⟨some shadowedRequest, 129⟩ =
        (true, [Event.sockRecv 5, Event.sockSend 5
          (handshakeResponse (WebSocketConnection.generateAcceptKey inSourceCrypto
            (ascii "evil")))]) := by
  have hk : regexSearchKey (requestText (recv (some shadowedRequest) 4095).2) =
      some (ascii "evil") := by decide
  obtain ⟨pre, post, hreq, hne, hkey, hpost, hleft⟩ :=
    ((regexSearchKey_characterisation _).1 (ascii "evil")).1 hk
  exact ⟨by decide,
    (handshake_key_leftmost_occurrence inSourceCrypto ⟨5, "10.0.0.1", false⟩
      ⟨some shadowedRequest, 129⟩ (by decide)).1 pre (ascii "evil") post hreq hne hkey hpost hleft⟩

/-! ## Connection lifecycle -/

theorem performHandshake_fails (lib : OpenSSL) (self : WebSocketConnection) (io : HandshakeIO)
    (hfail : (recv io.pending 4095).1 ≤ 0 ∨
      regexSearchKey (requestText (recv io.pending 4095).2) = none ∨ io.sendRet ≤ 0) :
    (WebSocketConnection.performHandshake lib self io).1 = false ∧
      closeCount self.socket_fd (WebSocketConnection.performHandshake lib self io).2 = 0 ∧
      ∀ id ip, Event.onConnect id ip ∉ (WebSocketConnection.performHandshake lib self io).2 := by
  by_cases h1 : (recv io.pending 4095).1 ≤ 0
  · simp [WebSocketConnection.performHandshake, h1, closeCount]
  · cases h2 : regexSearchKey (requestText (recv io.pending 4095).2) with
    | none => simp [WebSocketConnection.performHandshake, h1, h2, closeCount]
    | some key =>
      have h3 : io.sendRet ≤ 0 := by
        rcases hfail with h | h | h
        · exact absurd h h1
        · rw [h2] at h; cases h
        · exact h
      have h4 : ¬ io.sendRet > 0 := by omega
      simp [WebSocketConnection.performHandshake, h1, h2, closeCount, h4]

/-- C8. Handshake failure is atomic: when the handshake fails (nothing read, no key found in
the request, or the write of the response fails), the constructor leaves the connection not
connected and closes the socket once, the destructor closes nothing more, and the iteration of
`acceptConnections` leaves the client registry unchanged, returns no connection, performs that
single close and does not invoke the connection callback. -/
theorem handshake_failure_atomic (lib : OpenSSL) (s : WebSocketServer) (fd : Int) (ip : String)
    (io : HandshakeIO)
    (hfail : (recv io.pending 4095).1 ≤ 0 ∨
      regexSearchKey (requestText (recv io.pending 4095).2) = none ∨ io.sendRet ≤ 0) :
    (WebSocketConnection.new lib fd ip io).1.connected = false ∧
      closeCount fd (WebSocketConnection.new lib fd ip io).2 = 1 ∧
      (WebSocketConnection.new lib fd ip io).1.destroy =
        ((WebSocketConnection.new lib fd ip io).1, []) ∧
      (acceptIteration lib s (.accepted fd ip io)).1.clients = s.clients ∧
      (acceptIteration lib s (.accepted fd ip io)).2.1 = none ∧
      closeCount fd (acceptIteration lib s (.accepted fd ip io)).2.2 = 1 ∧
      (∀ id ip', Event.onConnect id ip' ∉ (acceptIteration lib s (.accepted fd ip io)).2.2) := by
  obtain ⟨hf, hc, hn⟩ := performHandshake_fails lib ⟨fd, ip, false⟩ io hfail
  have hc' : List.count (Event.sockClose fd)
      (WebSocketConnection.performHandshake lib ⟨fd, ip, false⟩ io).2 = 0 := hc
  have hnew : WebSocketConnection.new lib fd ip io =
      (⟨fd, ip, false⟩,
        (WebSocketConnection.performHandshake lib ⟨fd, ip, false⟩ io).2 ++
          [Event.sockClose fd]) := by
    simp [WebSocketConnection.new, hf]
  have hit : acceptIteration lib s (.accepted fd ip io) =
      ({ s with next_client_id := wrapInt32 (s.next_client_id + 1) }, none,
        (WebSocketConnection.performHandshake lib ⟨fd, ip, false⟩ io).2 ++
          [Event.sockClose fd] ++ []) := by
    simp [acceptIteration, hnew, WebSocketConnection.destroy, WebSocketConnection.close]
  rw [hit, hnew]
  refine ⟨rfl, ?_, ?_, rfl, rfl, ?_, ?_⟩
  · simp [closeCount, List.count_append, hc']
  · simp [WebSocketConnection.destroy, WebSocketConnection.close]
  · simp [closeCount, List.count_append, hc']
  · intro id ip' hmem
    simp only [List.append_nil, List.mem_append, List.mem_singleton] at hmem
    rcases hmem with h | h
    · exact hn id ip' h
    · cases h

theorem handshake_failure_atomic_witness :
    ((recv (some (ascii "GET / HTTP/1.1\r\nHost: example\r\n\r\n")) 4095).1 ≤ 0 ∨
        regexSearchKey (requestText
          (recv (some (ascii "GET / HTTP/1.1\r\nHost: example\r\n\r\n")) 4095).2) = none ∨
        (129 : Int) ≤ 0) ∧
      (acceptIteration inSourceCrypto ⟨true, [], 1, true⟩
        (.accepted 7 "10.0.0.1" ⟨some (ascii "GET / HTTP/1.1\r\nHost: example\r\n\r\n"), 129⟩)).1.clients
        = [] ∧
      closeCount 7 (acceptIteration inSourceCrypto ⟨true, [], 1, true⟩
        (.accepted 7 "10.0.0.1"
          ⟨some (ascii "GET / HTTP/1.1\r\nHost: example\r\n\r\n"), 129⟩)).2.2 = 1 :=
  have h := handshake_failure_atomic inSourceCrypto ⟨true, [], 1, true⟩ 7 "10.0.0.1"
    ⟨some (ascii "GET / HTTP/1.1\r\nHost: example\r\n\r\n"), 129⟩ (Or.inr (Or.inl (by decide)))
  ⟨Or.inr (Or.inl (by decide)), h.2.2.2.1, h.2.2.2.2.2.1⟩

/-- C9. Idempotent close: on a connected connection, `N >= 1` successive calls of `close()`
perform exactly one `::close(socket_fd)` and leave `connected = false`; on a connection that
is not connected, `close()` performs no socket call and changes nothing. -/
theorem close_idempotent (self : WebSocketConnection) (N : Nat) (hN : 1 ≤ N) :
    (self.connected = true →
      closeTimes N self = ({ self with connected := false }, [Event.sockClose self.socket_fd])) ∧
    (self.connected = false → self.close = (self, []) ∧ closeTimes N self = (self, [])) := by
  have hoff : ∀ (n : Nat) (c : WebSocketConnection), c.connected = false →
      closeTimes n c = (c, []) := by
    intro n
    induction n with
    | zero => intro c _; rfl
    | succ n ih =>
      intro c hc
      have hclose : c.close = (c, []) := by
        cases c with
        | mk fd ip conn => simp only at hc; subst hc; rfl
      simp [closeTimes, hclose, ih c hc]
  constructor
  · intro hc
    obtain ⟨n, rfl⟩ : ∃ n, N = n + 1 := ⟨N - 1, by omega⟩
    have hclose : self.close = ({ self with connected := false }, [Event.sockClose self.socket_fd]) := by
      simp [WebSocketConnection.close, hc]
    simp [closeTimes, hclose, hoff n { self with connected := false } rfl]
  · intro hc
    refine ⟨?_, hoff N self hc⟩
    cases self with
    | mk fd ip conn => simp only at hc; subst hc; rfl

theorem close_idempotent_witness :
    1 ≤ 3 ∧ closeTimes 3 ⟨7, "10.0.0.1", true⟩ = (⟨7, "10.0.0.1", false⟩, [Event.sockClose 7]) :=
  ⟨by decide, (close_idempotent ⟨7, "10.0.0.1", true⟩ 3 (by decide)).1 rfl⟩

/-- C10. A connection whose handshake succeeded, on which `receiveMessage` sees the peer's
shutdown (a read of 0 bytes) or a close frame, is then closed or destroyed without any
`::close(socket_fd)`: the socket is closed zero times, not once. -/
theorem socket_not_closed_after_peer_close :
    (WebSocketConnection.new inSourceCrypto 7 "10.0.0.1" ⟨some exampleRequest, 129⟩).1 =
        ⟨7, "10.0.0.1", true⟩ ∧
      runCalls [ConnCall.receiveMessage (some []), ConnCall.close] ⟨7, "10.0.0.1", true⟩ =
        some (⟨7, "10.0.0.1", false⟩, [Event.sockRecv 7]) ∧
      runCalls [ConnCall.receiveMessage (some [0x88, 0x00]), ConnCall.close]
          ⟨7, "10.0.0.1", true⟩ =
        some (⟨7, "10.0.0.1", false⟩, [Event.sockRecv 7]) ∧
      runCalls [ConnCall.receiveMessage none, ConnCall.close, ConnCall.close]
          ⟨7, "10.0.0.1", true⟩ =
        some (⟨7, "10.0.0.1", false⟩, [Event.sockRecv 7]) ∧
      closeCount 7 [Event.sockRecv 7] = 0 ∧
      (⟨7, "10.0.0.1", false⟩ : WebSocketConnection).destroy = (⟨7, "10.0.0.1", false⟩, []) := by
  decide

/-! ## Truncated buffers without overflow -/

theorem decodePayload_truncated (frame : List Byte) (masked : Bool) (n hs : Nat)
    (hno : hs + (if masked then 4 else 0) + n < 2 ^ 64)
    (h : frame.length < hs + (if masked then 4 else 0) + n) :
    decodePayload frame masked n hs = some [] := by
  cases masked with
  | false =>
    simp only [Bool.false_eq_true, if_false, Nat.add_zero] at hno h
    simp [decodePayload, wrap64_of_lt hno, h]
  | true =>
    simp only [if_true] at hno h
    have h4 : wrap64 (hs + 4) = hs + 4 := wrap64_of_lt (by omega)
    simp [decodePayload, h4, wrap64_of_lt hno, h]

/-- A truncated buffer whose declared header size plus declared payload length stays below
`2 ^ 64` decodes to the empty string, and no byte outside the buffer is read. -/
theorem decodeFrame_truncated_of_no_overflow (self : WebSocketConnection) (frame : List Byte)
    (htrunc : isTruncated frame = true)
    (hno : ∀ n, declaredPayloadLength frame = some n → declaredHeaderSize frame + n < 2 ^ 64) :
    ∃ c, decodeFrame self frame = some ([], c) := by
  match frame, htrunc, hno with
  | [], _, _ => exact ⟨self, rfl⟩
  | [_], _, _ => exact ⟨self, rfl⟩
  | b0 :: b1 :: tail, htrunc, hno =>
    by_cases hop : b0.val &&& 0x0F = 8
    · exact ⟨{ self with connected := false }, by simp [decodeFrame, hop]⟩
    · refine ⟨self, ?_⟩
      by_cases h126 : b1.val % 128 = 126
      · match tail, htrunc, hno with
        | [], _, _ => simp [decodeFrame, hop, and_0x7F, h126]
        | [_], _, _ => simp [decodeFrame, hop, and_0x7F, h126]
        | hi :: lo :: tail, htrunc, hno =>
          rw [decodeFrame_medium self b0 b1 hi lo tail hop h126]
          have hd : declaredPayloadLength (b0 :: b1 :: hi :: lo :: tail) =
              some (bigEndianValue [hi, lo]) := by
            simp [declaredPayloadLength, h126]
          have hh : declaredHeaderSize (b0 :: b1 :: hi :: lo :: tail) =
              4 + (if decide (128 ≤ b1.val) = true then 4 else 0) := by
            simp [declaredHeaderSize, h126]
          have hno' := hno _ hd
          simp only [isTruncated, hd, decide_eq_true_eq] at htrunc
          rw [hh] at hno' htrunc
          rw [decodePayload_truncated _ _ _ _ hno' htrunc]
          rfl
      · by_cases h127 : b1.val % 128 = 127
        · by_cases hlen : (b0 :: b1 :: tail).length < 10
          · have h1 : ¬ (b0 :: b1 :: tail).length < 2 := by simp
            simp only [decodeFrame, if_neg h1, List.getElem?_cons_zero, List.getElem?_cons_succ,
              if_neg hop, and_0x7F, h127, if_pos hlen]
            simp
          · match tail, htrunc, hno, hlen with
            | c0 :: c1 :: c2 :: c3 :: c4 :: c5 :: c6 :: c7 :: tail, htrunc, hno, _ =>
              rw [decodeFrame_large self b0 b1 c0 c1 c2 c3 c4 c5 c6 c7 tail hop h127]
              have hd : declaredPayloadLength
                  (b0 :: b1 :: c0 :: c1 :: c2 :: c3 :: c4 :: c5 :: c6 :: c7 :: tail) =
                  some (bigEndianValue [c0, c1, c2, c3, c4, c5, c6, c7]) := by
                simp [declaredPayloadLength, h127]
              have hh : declaredHeaderSize
                  (b0 :: b1 :: c0 :: c1 :: c2 :: c3 :: c4 :: c5 :: c6 :: c7 :: tail) =
                  10 + (if decide (128 ≤ b1.val) = true then 4 else 0) := by
                simp [declaredHeaderSize, h127]
              have hno' := hno _ hd
              simp only [isTruncated, hd, decide_eq_true_eq] at htrunc
              rw [hh] at hno' htrunc
              rw [decodePayload_truncated _ _ _ _ hno' htrunc]
              rfl
            | [], _, _, hlen => simp at hlen
            | [_], _, _, hlen => simp at hlen
            | [_, _], _, _, hlen => simp at hlen
            | [_, _, _], _, _, hlen => simp at hlen
            | [_, _, _, _], _, _, hlen => simp at hlen
            | [_, _, _, _, _], _, _, hlen => simp at hlen
            | [_, _, _, _, _, _], _, _, hlen => simp at hlen
            | [_, _, _, _, _, _, _], _, _, hlen => simp at hlen
        · have hsm : b1.val % 128 < 126 := by omega
          rw [decodeFrame_small self b0 b1 tail hop hsm]
          have hd : declaredPayloadLength (b0 :: b1 :: tail) = some (b1.val % 128) := by
            simp [declaredPayloadLength, h126, h127]
          have hh : declaredHeaderSize (b0 :: b1 :: tail) =
              2 + (if decide (128 ≤ b1.val) = true then 4 else 0) := by
            simp [declaredHeaderSize, h126, h127]
          have hno' := hno _ hd
          simp only [isTruncated, hd, decide_eq_true_eq] at htrunc
          rw [hh] at hno' htrunc
          rw [decodePayload_truncated _ _ _ _ hno' htrunc]
          rfl

/-- The result of `decodeFrame` is a payload (or a read outside the buffer) with the connection
unchanged, or the empty string with the flag cleared. -/
theorem decodeFrame_shape (self : WebSocketConnection) (frame : List Byte) :
    (∃ r : Option (List Byte), decodeFrame self frame = r.map (fun payload => (payload, self))) ∨
      decodeFrame self frame = some ([], { self with connected := false }) := by
  match frame with
  | [] => exact Or.inl ⟨some [], rfl⟩
  | [_] => exact Or.inl ⟨some [], rfl⟩
  | b0 :: b1 :: tail =>
    by_cases hop : b0.val &&& 0x0F = 8
    · exact Or.inr (by simp [decodeFrame, hop])
    · left
      by_cases h126 : b1.val % 128 = 126
      · match tail with
        | [] => exact ⟨some [], by simp [decodeFrame, hop, and_0x7F, h126]⟩
        | [_] => exact ⟨some [], by simp [decodeFrame, hop, and_0x7F, h126]⟩
        | hi :: lo :: tail => exact ⟨_, decodeFrame_medium self b0 b1 hi lo tail hop h126⟩
      · by_cases h127 : b1.val % 128 = 127
        · by_cases hlen : (b0 :: b1 :: tail).length < 10
          · refine ⟨some [], ?_⟩
            have h1 : ¬ (b0 :: b1 :: tail).length < 2 := by simp
            simp only [decodeFrame, if_neg h1, List.getElem?_cons_zero, List.getElem?_cons_succ,
              if_neg hop, and_0x7F, h127, if_pos hlen]
            simp
          · match tail, hlen with
            | c0 :: c1 :: c2 :: c3 :: c4 :: c5 :: c6 :: c7 :: tail, _ =>
              exact ⟨_, decodeFrame_large self b0 b1 c0 c1 c2 c3 c4 c5 c6 c7 tail hop h127⟩
            | [], hlen => simp at hlen
            | [_], hlen => simp at hlen
            | [_, _], hlen => simp at hlen
            | [_, _, _], hlen => simp at hlen
            | [_, _, _, _], hlen => simp at hlen
            | [_, _, _, _, _], hlen => simp at hlen
            | [_, _, _, _, _, _], hlen => simp at hlen
            | [_, _, _, _, _, _, _], hlen => simp at hlen
        · exact ⟨_, decodeFrame_small self b0 b1 tail hop (by omega)⟩

/-- `decodeFrame` returns the connection it was given, or that connection with the flag
cleared (and then the empty string). -/
theorem decodeFrame_connection (self c : WebSocketConnection) (frame payload : List Byte)
    (h : decodeFrame self frame = some (payload, c)) :
    c = self ∨ (c = { self with connected := false } ∧ payload = []) := by
  rcases decodeFrame_shape self frame with ⟨r, hr⟩ | hr
  · rw [hr] at h
    cases r with
    | none => cases h
    | some q =>
      simp only [Option.map_some', Option.some.injEq, Prod.mk.injEq] at h
      exact Or.inl h.2.symm
  · rw [hr] at h
    simp only [Option.some.injEq, Prod.mk.injEq] at h
    exact Or.inr ⟨h.2.symm, h.1.symm⟩

/-- On a connection that is not connected, no call closes the socket and the flag stays
cleared. -/
theorem runCalls_not_connected (calls : List ConnCall) (self c : WebSocketConnection)
    (events : List Event) (hc : self.connected = false)
    (h : runCalls calls self = some (c, events)) :
    c = self ∧ closeCount self.socket_fd events = 0 := by
  have hself : { self with connected := false } = self := by
    cases self with
    | mk fd ip conn => simp only at hc; subst hc; rfl
  induction calls generalizing events with
  | nil =>
    simp only [runCalls, Option.some.injEq, Prod.mk.injEq] at h
    exact ⟨h.1.symm, by rw [← h.2]; rfl⟩
  | cons call calls ih =>
    have hstep : call.run self = some (self, []) ∨ call.run self = none := by
      cases call with
      | receiveMessage pending =>
        left; simp [ConnCall.run, WebSocketConnection.receiveMessage, hc]
      | decodeFrame frame =>
        cases hd : WebSocket.decodeFrame self frame with
        | none => right; simp [ConnCall.run, hd]
        | some r =>
          left
          obtain ⟨payload, c'⟩ := r
          rcases decodeFrame_connection self c' frame payload hd with h1 | ⟨h1, _⟩
          · simp [ConnCall.run, hd, h1]
          · simp [ConnCall.run, hd, h1, hself]
      | sendMessage message sendRet =>
        left; simp [ConnCall.run, WebSocketConnection.sendMessage, hc]
      | isConnected =>
        left; simp [ConnCall.run]
      | close =>
        left; simp [ConnCall.run, WebSocketConnection.close, hc, hself]
    rcases hstep with hs | hs
    · simp only [runCalls, hs] at h
      cases hr : runCalls calls self with
      | none => rw [hr] at h; cases h
      | some r =>
        obtain ⟨c', ev'⟩ := r
        rw [hr] at h
        simp only [List.nil_append, Option.some.injEq, Prod.mk.injEq] at h
        obtain ⟨h1, h2⟩ := h
        subst h1 h2
        exact ih ev' hr
    · simp only [runCalls, hs] at h
      cases h

/-! ## Thread pool -/

theorem runningCount_le_length {τ : Type} (l : List (WorkerState τ)) :
    runningCount l ≤ l.length := by
  induction l with
  | nil => simp [runningCount]
  | cons w l ih => cases w <;> simp [runningCount] <;> omega

theorem runningCount_set_waiting_to_running {τ : Type} (l : List (WorkerState τ)) (i : Nat)
    (task : τ) (h : l[i]? = some WorkerState.waiting) :
    runningCount (l.set i (WorkerState.running task)) = runningCount l + 1 := by
  induction l generalizing i with
  | nil => simp at h
  | cons w l ih =>
    cases i with
    | zero =>
      simp only [List.getElem?_cons_zero, Option.some.injEq] at h
      subst h
      simp [runningCount]
    | succ i =>
      simp only [List.getElem?_cons_succ] at h
      cases w <;> simp [runningCount, ih i h]

theorem runningCount_set_waiting_to_exited {τ : Type} (l : List (WorkerState τ)) (i : Nat)
    (h : l[i]? = some WorkerState.waiting) :
    runningCount (l.set i WorkerState.exited) = runningCount l := by
  induction l generalizing i with
  | nil => simp at h
  | cons w l ih =>
    cases i with
    | zero =>
      simp only [List.getElem?_cons_zero, Option.some.injEq] at h
      subst h
      simp [runningCount]
    | succ i =>
      simp only [List.getElem?_cons_succ] at h
      cases w <;> simp [runningCount, ih i h]

theorem runningCount_set_running_to_waiting {τ : Type} (l : List (WorkerState τ)) (i : Nat)
    (task : τ) (h : l[i]? = some (WorkerState.running task)) :
    runningCount (l.set i WorkerState.waiting) + 1 = runningCount l := by
  induction l generalizing i with
  | nil => simp at h
  | cons w l ih =>
    cases i with
    | zero =>
      simp only [List.getElem?_cons_zero, Option.some.injEq] at h
      subst h
      simp [runningCount]
    | succ i =>
      simp only [List.getElem?_cons_succ] at h
      have := ih i h
      cases w <;> simp [runningCount] <;> omega

theorem poolInvariant_new {τ : Type} (N : Nat) (hN : N < 2 ^ 64) :
    PoolInvariant (ThreadPool.new N : ThreadPool τ) := by
  refine ⟨by simp [ThreadPool.new], ?_, hN⟩
  show 0 = runningCount (List.replicate N WorkerState.waiting)
  induction N with
  | zero => rfl
  | succ n ih =>
    rw [List.replicate_succ]
    exact ih (by omega)

theorem poolInvariant_workerTake {τ : Type} (pool : ThreadPool τ) (i : Nat)
    (h : PoolInvariant pool) : PoolInvariant (pool.workerTake i).1 := by
  obtain ⟨h1, h2, h3⟩ := h
  unfold ThreadPool.workerTake
  cases hw : pool.workers[i]? with
  | none => exact ⟨h1, h2, h3⟩
  | some w =>
    cases w with
    | running t => exact ⟨h1, h2, h3⟩
    | exited => exact ⟨h1, h2, h3⟩
    | waiting =>
      simp only
      by_cases hp : (pool.stop || !pool.tasks.isEmpty) = true
      · rw [if_pos hp]
        by_cases hq : (pool.stop && pool.tasks.isEmpty) = true
        · rw [if_pos hq]
          refine ⟨by simpa using h1, ?_, h3⟩
          simp only
          rw [runningCount_set_waiting_to_exited _ _ hw]
          exact h2
        · rw [if_neg hq]
          cases ht : pool.tasks with
          | nil => exact ⟨h1, h2, h3⟩
          | cons t rest =>
            simp only
            have hc := runningCount_set_waiting_to_running pool.workers i t hw
            have hl := runningCount_le_length (pool.workers.set i (WorkerState.running t))
            rw [List.length_set] at hl
            refine ⟨by simpa using h1, ?_, h3⟩
            simp only
            rw [hc, wrap64_of_lt (by omega), h2]
      · rw [if_neg hp]
        exact ⟨h1, h2, h3⟩

theorem poolInvariant_workerFinish {τ : Type} (pool : ThreadPool τ) (i : Nat)
    (h : PoolInvariant pool) : PoolInvariant (pool.workerFinish i) := by
  obtain ⟨h1, h2, h3⟩ := h
  unfold ThreadPool.workerFinish
  cases hw : pool.workers[i]? with
  | none => exact ⟨h1, h2, h3⟩
  | some w =>
    cases w with
    | waiting => exact ⟨h1, h2, h3⟩
    | exited => exact ⟨h1, h2, h3⟩
    | running t =>
      simp only
      have hc := runningCount_set_running_to_waiting pool.workers i t hw
      have hl := runningCount_le_length pool.workers
      refine ⟨by simpa using h1, ?_, h3⟩
      simp only
      have hb : pool.busy_threads + 2 ^ 64 - 1 = (pool.busy_threads - 1) + 2 ^ 64 := by omega
      rw [hb, wrap64]
      rw [Nat.add_mod_right, Nat.mod_eq_of_lt (by omega)]
      omega

theorem poolInvariant_step {τ : Type} (pool : ThreadPool τ) (step : PoolStep τ)
    (h : PoolInvariant pool) : PoolInvariant (step.run pool).1 := by
  cases step with
  | enqueue task =>
    simp only [PoolStep.run, ThreadPool.enqueue]
    split <;> exact h
  | take i => exact poolInvariant_workerTake pool i h
  | finish i => exact poolInvariant_workerFinish pool i h
  | requestStop => exact h

theorem poolInvariant_runPool {τ : Type} (steps : List (PoolStep τ)) (pool : ThreadPool τ)
    (h : PoolInvariant pool) : PoolInvariant (runPool steps pool).1 := by
  induction steps generalizing pool with
  | nil => exact h
  | cons step steps ih => exact ih _ (poolInvariant_step pool step h)

theorem getAvailableThreads_of_invariant {τ : Type} (pool : ThreadPool τ)
    (h : PoolInvariant pool) :
    pool.busy_threads ≤ pool.total_threads ∧
      pool.getAvailableThreads = pool.total_threads - pool.busy_threads := by
  obtain ⟨h1, h2, h3⟩ := h
  have hl := runningCount_le_length pool.workers
  have hle : pool.busy_threads ≤ pool.total_threads := by omega
  refine ⟨hle, ?_⟩
  unfold ThreadPool.getAvailableThreads
  have hb : pool.total_threads + 2 ^ 64 - pool.busy_threads =
      (pool.total_threads - pool.busy_threads) + 2 ^ 64 := by omega
  rw [hb, wrap64, Nat.add_mod_right, Nat.mod_eq_of_lt (by omega)]

theorem total_threads_step {τ : Type} (pool : ThreadPool τ) (step : PoolStep τ) :
    (step.run pool).1.total_threads = pool.total_threads := by
  cases step with
  | enqueue task =>
    simp only [PoolStep.run, ThreadPool.enqueue]
    split <;> rfl
  | take i =>
    simp only [PoolStep.run, ThreadPool.workerTake]
    split
    · split
      · split
        · rfl
        · split <;> rfl
      · rfl
    · rfl
  | finish i =>
    simp only [PoolStep.run, ThreadPool.workerFinish]
    split <;> rfl
  | requestStop => rfl

theorem total_threads_runPool {τ : Type} (steps : List (PoolStep τ)) (pool : ThreadPool τ) :
    (runPool steps pool).1.total_threads = pool.total_threads := by
  induction steps generalizing pool with
  | nil => rfl
  | cons step steps ih =>
    show (runPool steps (step.run pool).1).1.total_threads = pool.total_threads
    rw [ih, total_threads_step]

/-- C18. Pool capacity accounting: in every state reached from a fresh pool of `N` workers
(`N` a `size_t`) by enqueue, take, finish and stop-request steps, `busy_threads` is the number
of workers executing a task, it is at most `N`, and `getAvailableThreads()` is
`N - busy_threads` without wrap-around; with `N = 1` it is 0 while the task executes and 1
once the task has completed. -/
theorem pool_capacity_accounting {τ : Type} (N : Nat) (hN : N < 2 ^ 64)
    (steps : List (PoolStep τ)) :
    (runPool steps (ThreadPool.new N)).1.busy_threads =
        runningCount (runPool steps (ThreadPool.new N)).1.workers ∧
      (runPool steps (ThreadPool.new N)).1.busy_threads ≤ N ∧
      (runPool steps (ThreadPool.new N)).1.getAvailableThreads =
        N - (runPool steps (ThreadPool.new N)).1.busy_threads ∧
      (∀ task : τ,
        (runPool [PoolStep.enqueue task, PoolStep.take 0]
          (ThreadPool.new 1)).1.getAvailableThreads = 0 ∧
        (runPool [PoolStep.enqueue task, PoolStep.take 0, PoolStep.finish 0]
          (ThreadPool.new 1)).1.getAvailableThreads = 1) := by
  have key : ∀ (M : Nat) (hM : M < 2 ^ 64) (ss : List (PoolStep τ)),
      (runPool ss (ThreadPool.new M)).1.busy_threads =
          runningCount (runPool ss (ThreadPool.new M)).1.workers ∧
        (runPool ss (ThreadPool.new M)).1.busy_threads ≤ M ∧
        (runPool ss (ThreadPool.new M)).1.getAvailableThreads =
          M - (runPool ss (ThreadPool.new M)).1.busy_threads := by
    intro M hM ss
    have hinv := poolInvariant_runPool ss _ (poolInvariant_new (τ := τ) M hM)
    have htot : (runPool ss (ThreadPool.new M : ThreadPool τ)).1.total_threads = M := by
      rw [total_threads_runPool]; rfl
    obtain ⟨hle, hav⟩ := getAvailableThreads_of_invariant _ hinv
    rw [htot] at hle hav
    exact ⟨hinv.2.1, hle, hav⟩
  obtain ⟨h1, h2, h3⟩ := key N hN steps
  refine ⟨h1, h2, h3, ?_⟩
  intro task
  have hone : (1 : Nat) < 2 ^ 64 := by norm_num
  constructor
  · obtain ⟨k1, _, k3⟩ := key 1 hone [PoolStep.enqueue task, PoolStep.take 0]
    have hw : (runPool [PoolStep.enqueue task, PoolStep.take 0]
        (ThreadPool.new 1)).1.workers = [WorkerState.running task] := by
      simp [runPool, PoolStep.run, ThreadPool.enqueue, ThreadPool.workerTake, ThreadPool.new]
    rw [k3, k1, hw]
    rfl
  · obtain ⟨k1, _, k3⟩ :=
      key 1 hone [PoolStep.enqueue task, PoolStep.take 0, PoolStep.finish 0]
    have hw : (runPool [PoolStep.enqueue task, PoolStep.take 0, PoolStep.finish 0]
        (ThreadPool.new 1)).1.workers = [WorkerState.waiting] := by
      simp [runPool, PoolStep.run, ThreadPool.enqueue, ThreadPool.workerTake,
        ThreadPool.workerFinish, ThreadPool.new]
    rw [k3, k1, hw]
    rfl

theorem pool_capacity_accounting_witness :
    (4 : Nat) < 2 ^ 64 ∧
      (runPool [PoolStep.enqueue 10, PoolStep.enqueue 11, PoolStep.take 2, PoolStep.take 0,
        PoolStep.finish 2] (ThreadPool.new 4 : ThreadPool Nat)).1.getAvailableThreads =
        4 - (runPool [PoolStep.enqueue 10, PoolStep.enqueue 11, PoolStep.take 2,
          PoolStep.take 0, PoolStep.finish 2]
          (ThreadPool.new 4 : ThreadPool Nat)).1.busy_threads :=
  ⟨by decide, (pool_capacity_accounting 4 (by decide) _).2.2.1⟩

/-- C19. `enqueue` on a stopped pool throws and changes nothing; on a pool that is not stopped
it appends the task at the tail of the queue, the tasks already queued keeping their places,
and changes nothing else. -/
theorem enqueue_stopped_or_appends {τ : Type} (pool : ThreadPool τ) (task : τ) :
    (pool.stop = true → pool.enqueue task = (pool, some "enqueue on stopped ThreadPool")) ∧
    (pool.stop = false →
      (pool.enqueue task).2 = none ∧
        (pool.enqueue task).1 = { pool with tasks := pool.tasks ++ [task] } ∧
        (pool.enqueue task).1.tasks.take pool.tasks.length = pool.tasks ∧
        (pool.enqueue task).1.tasks.drop pool.tasks.length = [task] ∧
        (pool.enqueue task).1.busy_threads = pool.busy_threads ∧
        (pool.enqueue task).1.workers = pool.workers) := by
  constructor
  · intro h
    simp [ThreadPool.enqueue, h]
  · intro h
    simp [ThreadPool.enqueue, h]

theorem enqueue_stopped_or_appends_witness :
    ((ThreadPool.new 2 : ThreadPool Nat).requestStop.enqueue 7).2 =
        some "enqueue on stopped ThreadPool" ∧
      (((ThreadPool.new 2 : ThreadPool Nat).enqueue 5).1.enqueue 7).1.tasks = [5, 7] :=
  ⟨congrArg Prod.snd ((enqueue_stopped_or_appends (ThreadPool.new 2).requestStop 7).1 rfl),
    by decide⟩

theorem mapFind_mapSet_self {β : Type} (m : List (Int × β)) (key : Int) (value : β) :
    mapFind (mapSet m key value) key = some value := by
  induction m with
  | nil => simp [mapSet, mapFind]
  | cons e rest ih =>
    obtain ⟨k, v⟩ := e
    by_cases h1 : key < k
    · simp [mapSet, mapFind, h1]
    · by_cases h2 : key = k
      · simp [mapSet, mapFind, h2]
      · have h3 : ¬ k = key := fun h => h2 h.symm
        simp [mapSet, mapFind, h1, h2, h3, ih]

theorem mapSet_length_of_absent {β : Type} (m : List (Int × β)) (key : Int) (value : β)
    (h : mapFind m key = none) : (mapSet m key value).length = m.length + 1 := by
  induction m with
  | nil => simp [mapSet]
  | cons e rest ih =>
    obtain ⟨k, v⟩ := e
    by_cases h0 : k = key
    · simp [mapFind, h0] at h
    · have h0' : ¬ key = k := fun h => h0 h.symm
      simp only [mapFind, if_neg h0] at h
      by_cases h1 : key < k
      · simp [mapSet, h1]
      · simp [mapSet, h1, h0', ih h]

theorem mapErase_mapSet_of_absent {β : Type} (m : List (Int × β)) (key : Int) (value : β)
    (h : mapFind m key = none) : mapErase (mapSet m key value) key = m := by
  induction m with
  | nil => simp [mapSet, mapErase]
  | cons e rest ih =>
    obtain ⟨k, v⟩ := e
    by_cases h0 : k = key
    · simp [mapFind, h0] at h
    · have h0' : ¬ key = k := fun h => h0 h.symm
      simp only [mapFind, if_neg h0] at h
      by_cases h1 : key < k
      · simp [mapSet, mapErase, h1]
      · simp [mapSet, mapErase, h1, h0', h0, ih h]

theorem close_of_connected (c : WebSocketConnection) (h : c.connected = true) :
    c.close = ({ c with connected := false }, [Event.sockClose c.socket_fd]) := by
  simp [WebSocketConnection.close, h]

theorem close_of_not_connected (c : WebSocketConnection) (h : c.connected = false) :
    c.close = (c, []) := by
  cases c with
  | mk fd ip conn => simp only at h; subst h; rfl

theorem removeClient_of_absent (s : ServerState) (client_id : Int)
    (h : mapFind s.clients client_id = none) : s.removeClient client_id = (s, []) := by
  simp [ServerState.removeClient, h]

/-- C13. `receiveMessage` contract: on a connection that is not connected it returns the empty
string without a socket call; on a connected one, a read of zero or fewer bytes clears
`connected` and returns the empty string, and a read of `k > 0` bytes returns `decodeFrame` of
exactly the `k` bytes read (at most 4096), the connection being changed by `decodeFrame`
only. -/
theorem receiveMessage_contract (self : WebSocketConnection) (pending : Option (List Byte)) :
    (self.connected = false → self.receiveMessage pending = (some ([], self), [])) ∧
    (self.connected = true → (recv pending 4096).1 ≤ 0 →
      self.receiveMessage pending =
        (some ([], { self with connected := false }), [Event.sockRecv self.socket_fd])) ∧
    (self.connected = true → 0 < (recv pending 4096).1 →
      self.receiveMessage pending =
        (decodeFrame self (recv pending 4096).2, [Event.sockRecv self.socket_fd]) ∧
      ((recv pending 4096).2.length : Int) = (recv pending 4096).1 ∧
      (recv pending 4096).2.length ≤ 4096) ∧
    ((recv pending 4096).1 ≤ 0 ↔ pending = none ∨ pending = some []) ∧
    (∀ d, pending = some d → (recv pending 4096).2 = d.take 4096) := by
  refine ⟨?_, ?_, ?_, ?_, ?_⟩
  · intro h
    simp [WebSocketConnection.receiveMessage, h]
  · intro h hr
    simp [WebSocketConnection.receiveMessage, h, hr]
  · intro h hr
    have hr' : ¬ (recv pending 4096).1 ≤ 0 := by omega
    refine ⟨by simp [WebSocketConnection.receiveMessage, h, hr'], ?_, ?_⟩
    · cases pending with
      | none => simp [recv] at hr
      | some d => simp [recv]
    · cases pending with
      | none => simp [recv]
      | some d => simp [recv]
  · cases pending with
    | none => simp [recv]
    | some d =>
      cases d with
      | nil => simp [recv]
      | cons b d => simp [recv]; omega
  · intro d hd
    subst hd
    rfl

theorem broadcastLoop_eq (objects : Nat → WebSocketConnection) (message : List Byte)
    (sendRet : Int → Int) (clients : List (Int × Nat)) :
    broadcastLoop objects message sendRet clients =
      (clients.filter (fun e => (objects e.2).connected)).map
        (fun e => Event.sockSend (objects e.2).socket_fd (encodeFrame message)) := by
  induction clients with
  | nil => rfl
  | cons e rest ih =>
    obtain ⟨k, h⟩ := e
    by_cases hc : (objects h).connected = true
    · simp [broadcastLoop, hc, ih, WebSocketConnection.sendMessage, List.filter_cons]
    · simp [broadcastLoop, hc, ih, List.filter_cons]

/-- C14. Broadcast semantics: `broadcastMessage(m)` leaves the server unchanged and performs,
in registry order, exactly one `send` of the bytes `encodeFrame(m)` on the socket of every
registered connection whose `connected` flag is true, and no socket call for a registered
connection whose flag is false. -/
theorem broadcastMessage_semantics (s : ServerState) (message : List Byte)
    (sendRet : Int → Int) :
    (s.broadcastMessage message sendRet).1 = s ∧
      (s.broadcastMessage message sendRet).2 =
        (s.clients.filter (fun e => (s.objects e.2).connected)).map
          (fun e => Event.sockSend (s.objects e.2).socket_fd (encodeFrame message)) :=
  ⟨rfl, broadcastLoop_eq s.objects message sendRet s.clients⟩

theorem broadcastMessage_semantics_witness :
    (threeClients.broadcastMessage (ascii "x") (fun _ => 3)).2 =
      [Event.sockSend 7 [0x81, 0x01, 0x78], Event.sockSend 9 [0x81, 0x01, 0x78]] :=
  (broadcastMessage_semantics threeClients (ascii "x") (fun _ => 3)).2.trans (by decide)

/-- C15. Registry lifecycle: when `id` is not registered and `c` is a connected connection,
registering `c` under `id` makes `isClientExists(id)` true and `getClientCount()` one larger;
`removeClient(id)` then makes `isClientExists(id)` false, brings the registry back to what it
was, closes the socket of `c` once and leaves `c.isConnected()` false, every other connection
object being unchanged; `removeClient` of an identifier that is not registered changes
nothing. -/
theorem registry_lifecycle (s : ServerState) (client_id : Int) (connection : Nat)
    (habsent : mapFind s.clients client_id = none)
    (hconn : (s.objects connection).connected = true) :
    (s.registerClient client_id connection).isClientExists client_id = true ∧
      (s.registerClient client_id connection).getClientCount = s.getClientCount + 1 ∧
      ((s.registerClient client_id connection).removeClient client_id).1.isClientExists
        client_id = false ∧
      ((s.registerClient client_id connection).removeClient client_id).1.getClientCount =
        s.getClientCount ∧
      ((s.registerClient client_id connection).removeClient client_id).1.clients = s.clients ∧
      (((s.registerClient client_id connection).removeClient client_id).1.objects
        connection).connected = false ∧
      (∀ h, h ≠ connection →
        ((s.registerClient client_id connection).removeClient client_id).1.objects h =
          s.objects h) ∧
      ((s.registerClient client_id connection).removeClient client_id).2 =
        [Event.sockClose (s.objects connection).socket_fd] ∧
      (∀ (s' : ServerState) (id' : Int), mapFind s'.clients id' = none →
        s'.removeClient id' = (s', [])) := by
  have hfind : mapFind (mapSet s.clients client_id connection) client_id = some connection :=
    mapFind_mapSet_self _ _ _
  have hrem : (s.registerClient client_id connection).removeClient client_id =
      ({ s with
          objects := storeObject s.objects connection
            { s.objects connection with connected := false }
          clients := s.clients },
        [Event.sockClose (s.objects connection).socket_fd]) := by
    simp only [ServerState.removeClient, ServerState.registerClient, hfind,
      close_of_connected _ hconn, mapErase_mapSet_of_absent _ _ _ habsent]
  rw [hrem]
  refine ⟨?_, ?_, ?_, rfl, rfl, ?_, ?_, rfl, removeClient_of_absent⟩
  · simp [ServerState.isClientExists, ServerState.registerClient, hfind]
  · simp [ServerState.getClientCount, ServerState.registerClient,
      mapSet_length_of_absent _ _ _ habsent]
  · simp [ServerState.isClientExists, habsent]
  · simp [storeObject]
  · intro h hne
    simp [storeObject, hne]

theorem registry_lifecycle_witness :
    mapFind threeClients.clients 5 = none ∧ (threeClients.objects 0).connected = true ∧
      ((threeClients.registerClient 5 0).removeClient 5).2 = [Event.sockClose 7] :=
  ⟨by decide, by decide,
    (registry_lifecycle threeClients 5 0 (by decide) (by decide)).2.2.2.2.2.2.2.1⟩

/-- C16. Unknown identifiers are reported, not faulted: `disconnectClient(id)` returns true
exactly when `id` is registered and its connection is connected; it then closes the
connection, erases the entry and calls the disconnection handler once (when one is set);
when it returns false the server, every connection and the callbacks are untouched; and
`sendMessageToClient` with an identifier that is not registered performs no socket call. -/
theorem disconnectClient_reports (s : ServerState) (client_id : Int) :
    ((s.disconnectClient client_id).2.1 = true ↔
      ∃ h, mapFind s.clients client_id = some h ∧ (s.objects h).connected = true) ∧
    (∀ h, mapFind s.clients client_id = some h → (s.objects h).connected = true →
      s.disconnectClient client_id =
        ({ s with
            objects := storeObject s.objects h { s.objects h with connected := false }
            clients := mapErase s.clients client_id },
          true,
          [Event.sockClose (s.objects h).socket_fd] ++
            (if s.disconnection_handler then [Event.onDisconnect client_id] else []))) ∧
    ((s.disconnectClient client_id).2.1 = false →
      s.disconnectClient client_id = (s, false, [])) ∧
    (∀ message sendRet, mapFind s.clients client_id = none →
      s.sendMessageToClient client_id message sendRet = (s, [])) := by
  refine ⟨?_, ?_, ?_, ?_⟩
  · cases hf : mapFind s.clients client_id with
    | none => simp [ServerState.disconnectClient, hf]
    | some h =>
      by_cases hc : (s.objects h).connected = true
      · simp [ServerState.disconnectClient, hf, hc]
      · simp [ServerState.disconnectClient, hf, hc]
  · intro h hf hc
    simp only [ServerState.disconnectClient, hf, hc, if_true, close_of_connected _ hc]
  · cases hf : mapFind s.clients client_id with
    | none => simp [ServerState.disconnectClient, hf]
    | some h =>
      by_cases hc : (s.objects h).connected = true
      · simp [ServerState.disconnectClient, hf, hc]
      · simp [ServerState.disconnectClient, hf, hc]
  · intro message sendRet hf
    simp [ServerState.sendMessageToClient, hf]

theorem disconnectClient_reports_witness :
    (threeClients.disconnectClient 2).2 = (false, []) ∧
      (threeClients.disconnectClient 4).2 = (false, []) ∧
      (threeClients.disconnectClient 3).2 = (true, [Event.sockClose 9, Event.onDisconnect 3]) :=
  ⟨by decide, by decide,
    (congrArg Prod.snd ((disconnectClient_reports threeClients 3).2.1 2 (by decide)
      (by decide))).trans (by decide)⟩

/-! ## Reactor and read task -/

/-- After the task of the reactor, the connection is still connected only when
`receiveMessage` returned a message that is not empty. -/
theorem readTask_connected_only_with_message (message_handler : Bool)
    (connection c : WebSocketConnection) (client_id : Int) (pending : Option (List Byte))
    (events : List Event)
    (h : readTask message_handler connection client_id pending = some (c, events))
    (hc : c.connected = true) :
    ∃ message ev, message ≠ [] ∧ connection.receiveMessage pending = (some (message, c), ev) := by
  unfold readTask at h
  cases hr : connection.receiveMessage pending with
  | mk res ev =>
    rw [hr] at h
    cases res with
    | none => simp at h
    | some r =>
      obtain ⟨message, c'⟩ := r
      simp only at h
      by_cases hm : message ≠ []
      · rw [if_pos hm] at h
        simp only [Option.some.injEq, Prod.mk.injEq] at h
        exact ⟨message, ev, hm, by rw [h.1]⟩
      · rw [if_neg hm] at h
        simp only [Option.some.injEq, Prod.mk.injEq] at h
        have hcl : c'.close.1.connected = false := by
          simp only [WebSocketConnection.close]
          split <;> rfl
        rw [h.1] at hcl
        rw [hcl] at hc
        cases hc

/-- C11. The disconnection handler is called twice for one identifier: a client is accepted
on socket 7 and registered as client 1, `disconnectClient(1)` closes it, erases it from the
registry and calls the handler, and a readiness event for socket 7, which the reactor still
tracks, finds no registered connection and calls the handler for client 1 again. -/
theorem disconnection_handler_called_twice :
    (runServer inSourceCrypto
        [ServerStep.acceptEvent [AcceptOutcome.accepted 7 "10.0.0.1" ⟨some exampleRequest, 129⟩]
            true,
          ServerStep.disconnectClient 1,
          ServerStep.clientEvent 7]
        (ServerState.start (ServerState.new 2 true true true) 3).1).map
      (fun r => (r.1.clients, r.1.socket_to_client_id,
        r.2.count (Event.onConnect 1 "10.0.0.1"), r.2.count (Event.sockClose 7),
        r.2.count (Event.onDisconnect 1))) =
      some ([], [], 1, 1, 2) ∧
    (runServer inSourceCrypto
        [ServerStep.acceptEvent [AcceptOutcome.accepted 7 "10.0.0.1" ⟨some exampleRequest, 129⟩]
            true,
          ServerStep.disconnectClient 1]
        (ServerState.start (ServerState.new 2 true true true) 3).1).map
      (fun r => (r.1.clients, r.1.socket_to_client_id, r.2.count (Event.onDisconnect 1))) =
      some ([], [(7, 1)], 1) := by
  decide

/-- C12. A truncated frame is treated as a close: the task of the reactor reads the four
bytes `81 05 48 65` (a text frame that declares five payload bytes and holds two), the message
handler is not called, and the task closes the connection: `connected` is false and the socket
is closed after the task. The same happens for the complete frame `81 00` of an empty text
message. -/
theorem truncated_frame_closes_connection :
    isTruncated [0x81, 0x05, 0x48, 0x65] = true ∧
      (([0x81, 0x05, 0x48, 0x65] : List Byte)[0]?).map (fun b => b.val % 16) = some 1 ∧
      decodeFrame ⟨7, "10.0.0.1", true⟩ [0x81, 0x05, 0x48, 0x65] =
        some ([], ⟨7, "10.0.0.1", true⟩) ∧
      readTask true ⟨7, "10.0.0.1", true⟩ 1 (some [0x81, 0x05, 0x48, 0x65]) =
        some (⟨7, "10.0.0.1", false⟩, [Event.sockRecv 7, Event.sockClose 7]) ∧
      readTask true ⟨7, "10.0.0.1", true⟩ 1 (some [0x81, 0x00]) =
        some (⟨7, "10.0.0.1", false⟩, [Event.sockRecv 7, Event.sockClose 7]) ∧
      (runServer inSourceCrypto
          [ServerStep.acceptEvent
              [AcceptOutcome.accepted 7 "10.0.0.1" ⟨some exampleRequest, 129⟩] true,
            ServerStep.clientEvent 7,
            ServerStep.workerTake 0,
            ServerStep.workerComplete 0 (some [0x81, 0x05, 0x48, 0x65])]
          (ServerState.start (ServerState.new 2 true true true) 3).1).map
        (fun r => ((r.1.objects 0).connected, r.1.clients, r.2.count (Event.sockClose 7),
          r.2.count (Event.onMessage 1 []))) =
        some (false, [(1, 0)], 1, 0) := by
  decide

/-- C20. `stop()` leaves a registered socket open: client 1 is accepted on socket 7, its read
task sees the peer's shutdown (a read of 0 bytes), which clears `connected` without closing
the socket; `stop()` then empties the registry, clears `running` and closes the listening
socket 3, and socket 7 has not been closed by any step. -/
theorem stop_leaves_socket_open :
    (runServer inSourceCrypto
        [ServerStep.acceptEvent [AcceptOutcome.accepted 7 "10.0.0.1" ⟨some exampleRequest, 129⟩]
            true,
          ServerStep.clientEvent 7,
          ServerStep.workerTake 0,
          ServerStep.workerComplete 0 (some []),
          ServerStep.stop]
        (ServerState.start (ServerState.new 2 true true true) 3).1).map
      (fun r => (r.1.running, r.1.clients, r.1.server_socket, (r.1.objects 0).socket_fd,
        (r.1.objects 0).connected)) =
      some (false, [], (-1 : Int), (7 : Int), false) ∧
    (runServer inSourceCrypto
        [ServerStep.acceptEvent [AcceptOutcome.accepted 7 "10.0.0.1" ⟨some exampleRequest, 129⟩]
            true,
          ServerStep.clientEvent 7,
          ServerStep.workerTake 0,
          ServerStep.workerComplete 0 (some []),
          ServerStep.stop]
        (ServerState.start (ServerState.new 2 true true true) 3).1).map
      (fun r => (r.2.count (Event.sockClose 7), r.2.count (Event.sockClose 3),
        r.2.count (Event.onDisconnect 1))) =
      some (0, 1, 0) ∧
    (runServer inSourceCrypto
        [ServerStep.acceptEvent [AcceptOutcome.accepted 7 "10.0.0.1" ⟨some exampleRequest, 129⟩]
            true,
          ServerStep.clientEvent 7,
          ServerStep.workerTake 0,
          ServerStep.workerComplete 0 (some [])]
        (ServerState.start (ServerState.new 2 true true true) 3).1).map
      (fun r => (r.1.running, r.1.clients, (r.1.objects 0).connected,
        r.2.count (Event.sockClose 7))) =
      some (true, [(1, 0)], false, 0) := by
  refine ⟨by decide, by decide, by decide⟩

theorem close_result_not_connected (c : WebSocketConnection) : c.close.1.connected = false := by
  simp only [WebSocketConnection.close]
  split <;> rfl

theorem close_events_are_closes (c : WebSocketConnection) :
    ∀ ev ∈ c.close.2, ev = Event.sockClose c.socket_fd := by
  intro ev hev
  simp only [WebSocketConnection.close] at hev
  split at hev
  · simpa using hev
  · simp at hev

theorem closeAll_keeps_not_connected (clients : List (Int × Nat))
    (objects : Nat → WebSocketConnection) (h : Nat) (hc : (objects h).connected = false) :
    ((closeAll objects clients).1 h).connected = false := by
  induction clients generalizing objects with
  | nil => exact hc
  | cons e rest ih =>
    obtain ⟨k, h'⟩ := e
    simp only [closeAll]
    apply ih
    by_cases hh : h = h'
    · subst hh
      simp [storeObject, close_result_not_connected]
    · simp [storeObject, hh, hc]

theorem closeAll_clears_registered (clients : List (Int × Nat))
    (objects : Nat → WebSocketConnection) :
    ∀ e ∈ clients, ((closeAll objects clients).1 e.2).connected = false := by
  induction clients generalizing objects with
  | nil => intro e he; cases he
  | cons e' rest ih =>
    obtain ⟨k, h'⟩ := e'
    intro e he
    simp only [closeAll]
    rcases List.mem_cons.1 he with rfl | hmem
    · apply closeAll_keeps_not_connected
      simp [storeObject, close_result_not_connected]
    · exact ih _ e hmem

theorem closeAll_events_are_closes (clients : List (Int × Nat))
    (objects : Nat → WebSocketConnection) :
    ∀ ev ∈ (closeAll objects clients).2, ∃ fd, ev = Event.sockClose fd := by
  induction clients generalizing objects with
  | nil => intro ev hev; cases hev
  | cons e rest ih =>
    obtain ⟨k, h⟩ := e
    intro ev hev
    simp only [closeAll, List.mem_append] at hev
    rcases hev with hev | hev
    · exact ⟨_, close_events_are_closes _ ev hev⟩
    · exact ih _ ev hev

/-- What `stop()` does establish: on a running server it clears `running`, empties the
registry, releases the listening socket, leaves every registered connection not connected and
calls no handler; a second `stop()`, or `stop()` on a server that is not running, changes
nothing. -/
theorem stop_properties (s : ServerState) :
    (s.running = true →
      s.stop.1.running = false ∧ s.stop.1.clients = [] ∧ s.stop.1.server_socket = -1 ∧
        (∀ e ∈ s.clients, (s.stop.1.objects e.2).connected = false) ∧
        (∀ ev ∈ s.stop.2, ∃ fd, ev = Event.sockClose fd) ∧ s.stop.1.stop = (s.stop.1, [])) ∧
    (s.running = false → s.stop = (s, [])) := by
  constructor
  · intro hr
    by_cases hs : s.server_socket = -1
    · have e : s.stop =
          ({ s with
              running := false
              objects := (closeAll s.objects s.clients).1
              clients := [] }, (closeAll s.objects s.clients).2) := by
        simp [ServerState.stop, hr, hs]
      rw [e]
      refine ⟨rfl, rfl, hs, closeAll_clears_registered _ _, closeAll_events_are_closes _ _, ?_⟩
      simp [ServerState.stop]
    · have e : s.stop =
          ({ s with
              running := false
              objects := (closeAll s.objects s.clients).1
              clients := []
              server_socket := -1 },
            (closeAll s.objects s.clients).2 ++ [Event.sockClose s.server_socket]) := by
        simp [ServerState.stop, hr, hs]
      rw [e]
      refine ⟨rfl, rfl, rfl, closeAll_clears_registered _ _, ?_, ?_⟩
      · intro ev hev
        rcases List.mem_append.1 hev with h | h
        · exact closeAll_events_are_closes _ _ ev h
        · exact ⟨_, List.mem_singleton.1 h⟩
      · simp [ServerState.stop]
  · intro hr
    simp [ServerState.stop, hr]

/-! ## The connected flag -/

/-- C21. The connected flag only moves forward: on a connection whose `connected` flag is
false, every sequence of `sendMessage`, `receiveMessage`, `decodeFrame`, `isConnected` and
`close` calls that runs to its end leaves the connection as it is, the flag still false, and
none of the calls closes or reads the socket. -/
theorem connected_flag_never_set_again (calls : List ConnCall) (self c : WebSocketConnection)
    (events : List Event) (hc : self.connected = false)
    (h : runCalls calls self = some (c, events)) :
    c.connected = false ∧ c = self ∧ closeCount self.socket_fd events = 0 := by
  obtain ⟨h1, h2⟩ := runCalls_not_connected calls self c events hc h
  exact ⟨by rw [h1]; exact hc, h1, h2⟩

theorem connected_flag_never_set_again_witness :
    (⟨7, "10.0.0.1", false⟩ : WebSocketConnection).connected = false ∧
      runCalls [ConnCall.sendMessage (ascii "hi") 4, ConnCall.receiveMessage (some [0x81, 0x00]),
          ConnCall.decodeFrame [0x81, 0x01, 0x41], ConnCall.isConnected, ConnCall.close]
          ⟨7, "10.0.0.1", false⟩ = some (⟨7, "10.0.0.1", false⟩, []) ∧
      (⟨7, "10.0.0.1", false⟩ : WebSocketConnection).connected = false :=
  ⟨rfl, by decide,
    (connected_flag_never_set_again
      [ConnCall.sendMessage (ascii "hi") 4, ConnCall.receiveMessage (some [0x81, 0x00]),
        ConnCall.decodeFrame [0x81, 0x01, 0x41], ConnCall.isConnected, ConnCall.close]
      ⟨7, "10.0.0.1", false⟩ ⟨7, "10.0.0.1", false⟩ [] rfl (by decide)).1⟩

/-! ## Client identifiers -/

/-- A connection returned by an iteration is in the registry under the identifier that the
counter had before the iteration. -/
theorem mem_mapAssign (clients : List (Int × WebSocketConnection)) (client_id : Int)
    (connection : WebSocketConnection) :
    (client_id, connection) ∈ mapAssign clients client_id connection := by
  induction clients with
  | nil => simp [mapAssign]
  | cons e rest ih =>
    obtain ⟨k, v⟩ := e
    simp only [mapAssign]
    split
    · simp
    · split
      · simp
      · exact List.mem_cons_of_mem _ ih

theorem acceptIteration_registers (lib : OpenSSL) (s : WebSocketServer) (outcome : AcceptOutcome)
    (connection : WebSocketConnection)
    (h : (acceptIteration lib s outcome).2.1 = some connection) :
    (s.next_client_id, connection) ∈ (acceptIteration lib s outcome).1.clients := by
  cases outcome with
  | failed => simp [acceptIteration] at h
  | accepted fd ip io =>
    simp only [acceptIteration] at h ⊢
    split at h
    · rename_i hc
      simp only [Option.some.injEq] at h
      rw [if_pos hc, ← h]
      exact mem_mapAssign _ _ _
    · simp at h

/-- An evaluation of the handshake on a request with a key: the response written and the
result. -/
theorem performHandshake_example :
    (⟨7, "10.0.0.1", false⟩ : WebSocketConnection).performHandshake plainCrypto
        { pending := some (ascii "GET / HTTP/1.1\r\nSec-WebSocket-Key: abc\r\n\r\n"),
          sendRet := 100 } =
      (true, [Event.sockRecv 7, Event.sockSend 7
        (ascii "HTTP/1.1 101 Switching Protocols\r\nUpgrade: websocket\r\nConnection: Upgrade\r\nSec-WebSocket-Accept: abc258EAFA5-E914-47DA-95CA-C5AB0DC85B11\r\n\r\n")]) := by
  decide

/-! ## Lock scopes -/

theorem callsWhileLocked_calls (events : List Event) (rest : List Traced) :
    callsWhileLocked true (events.map Traced.call ++ rest) =
      events ++ callsWhileLocked true rest := by
  induction events with
  | nil => rfl
  | cons e events ih => simp [callsWhileLocked, ih]

theorem callsOf_calls (events : List Event) (rest : List Traced) :
    callsOf (events.map Traced.call ++ rest) = events ++ callsOf rest := by
  induction events with
  | nil => rfl
  | cons e events ih => simp [callsOf, ih]

/-- The calls of a body that a `lock_guard` spans are all made with the lock held. -/
theorem callsWhileLocked_guarded (held : Bool) (events : List Event) (rest : List Traced) :
    callsWhileLocked held ([Traced.lock] ++ events.map Traced.call ++ [Traced.unlock] ++ rest) =
      events ++ callsWhileLocked false rest := by
  have h : [Traced.lock] ++ events.map Traced.call ++ [Traced.unlock] ++ rest =
      Traced.lock :: (events.map Traced.call ++ (Traced.unlock :: rest)) := by simp
  rw [h]
  show callsWhileLocked true (events.map Traced.call ++ (Traced.unlock :: rest)) = _
  rw [callsWhileLocked_calls]
  rfl

theorem callsOf_guarded (events : List Event) (rest : List Traced) :
    callsOf ([Traced.lock] ++ events.map Traced.call ++ [Traced.unlock] ++ rest) =
      events ++ callsOf rest := by
  have h : [Traced.lock] ++ events.map Traced.call ++ [Traced.unlock] ++ rest =
      Traced.lock :: (events.map Traced.call ++ (Traced.unlock :: rest)) := by simp
  rw [h]
  show callsOf (events.map Traced.call ++ (Traced.unlock :: rest)) = _
  rw [callsOf_calls]
  rfl

theorem callsWhileLocked_guard (events : List Event) :
    callsWhileLocked false ([Traced.lock] ++ events.map Traced.call ++ [Traced.unlock]) =
      events := by
  have h := callsWhileLocked_guarded false events []
  rw [List.append_nil] at h
  rw [h]
  exact List.append_nil _

theorem callsOf_guard (events : List Event) :
    callsOf ([Traced.lock] ++ events.map Traced.call ++ [Traced.unlock]) = events := by
  have h := callsOf_guarded events []
  rw [List.append_nil] at h
  rw [h]
  exact List.append_nil _

/-- C24 (as stated) fails: a broadcast to three registered clients, two of them connected, makes
both `send` calls while the registry mutex is held. -/
theorem broadcast_sends_while_locked :
    callsWhileLocked false (threeClients.broadcastMessageTraced (ascii "hi") (fun _ => 4)) =
      [Event.sockSend 7 (encodeFrame (ascii "hi")), Event.sockSend 9 (encodeFrame (ascii "hi"))] := by
  decide

/-- C24 (amended). In `broadcastMessage`, `sendMessageToClient`, `disconnectClient` and
`removeClient` every socket call and the disconnection callback are made while the registry
mutex is held; in `stop` the client sockets are closed while it is held and only the close of
the listening socket is made after it has been released. -/
theorem registry_lock_spans_socket_calls (s : ServerState) (message : List Byte)
    (sendRets : Int → Int) (sendRet client_id : Int) :
    callsWhileLocked false (s.broadcastMessageTraced message sendRets) =
        (s.broadcastMessage message sendRets).2 ∧
      callsOf (s.broadcastMessageTraced message sendRets) =
        (s.broadcastMessage message sendRets).2 ∧
    callsWhileLocked false (s.sendMessageToClientTraced client_id message sendRet) =
        (s.sendMessageToClient client_id message sendRet).2 ∧
      callsOf (s.sendMessageToClientTraced client_id message sendRet) =
        (s.sendMessageToClient client_id message sendRet).2 ∧
    callsWhileLocked false (s.disconnectClientTraced client_id) =
        (s.disconnectClient client_id).2.2 ∧
      callsOf (s.disconnectClientTraced client_id) = (s.disconnectClient client_id).2.2 ∧
    callsWhileLocked false (s.removeClientTraced client_id) = (s.removeClient client_id).2 ∧
      callsOf (s.removeClientTraced client_id) = (s.removeClient client_id).2 ∧
    callsOf s.stopTraced = s.stop.2 ∧
      (s.running = true →
        callsWhileLocked false s.stopTraced = (closeAll s.objects s.clients).2 ∧
        s.stop.2 = (closeAll s.objects s.clients).2 ++
          (if s.server_socket ≠ -1 then [Event.sockClose s.server_socket] else [])) := by
  refine ⟨callsWhileLocked_guard _, callsOf_guard _, callsWhileLocked_guard _, callsOf_guard _,
    callsWhileLocked_guard _, callsOf_guard _, callsWhileLocked_guard _, callsOf_guard _, ?_, ?_⟩
  · unfold ServerState.stopTraced ServerState.stop
    by_cases hr : s.running = true
    · by_cases hs : s.server_socket = -1
      · simp only [hr, hs, Bool.not_true, Bool.false_eq_true, if_false, ne_eq, not_true_eq_false,
          List.append_nil, callsOf_guard]
      · simp only [hr, hs, Bool.not_true, Bool.false_eq_true, if_false, ne_eq, not_false_eq_true,
          if_true, callsOf_guarded]
        rfl
    · simp only [hr, Bool.not_eq_true, Bool.not_eq_true', eq_false_of_ne_true hr, Bool.not_false,
        if_true]
      rfl
  · intro hr
    unfold ServerState.stopTraced ServerState.stop
    by_cases hs : s.server_socket = -1
    · simp only [hr, hs, Bool.not_true, Bool.false_eq_true, if_false, ne_eq, not_true_eq_false,
        List.append_nil, callsWhileLocked_guard, and_self]
    · simp only [hr, hs, Bool.not_true, Bool.false_eq_true, if_false, ne_eq, not_false_eq_true,
        if_true, callsWhileLocked_guarded]
      simp [callsWhileLocked]

/-! ## The decoder on arbitrary buffers -/

/-- The unmasking loop stays inside the buffer and returns one byte for each step when the
range it reads ends inside the buffer. -/
theorem unmaskLoop_some (frame : List Byte) (hs : Nat) (m0 m1 m2 m3 : Byte) (steps i : Nat)
    (hfit : hs + i + steps ≤ frame.length) (hno : hs + i + steps < 2 ^ 64) :
    ∃ p, unmaskLoop frame hs m0 m1 m2 m3 steps i = some p ∧ p.length = steps := by
  induction steps generalizing i with
  | zero => exact ⟨[], rfl, rfl⟩
  | succ steps ih =>
    have hw : wrap64 (hs + i) = hs + i := wrap64_of_lt (by omega)
    have hlt : hs + i < frame.length := by omega
    obtain ⟨p, hp, hl⟩ := ih (i + 1) (by omega) (by omega)
    refine ⟨toByte ((frame.get ⟨hs + i, hlt⟩).val ^^^ (maskAt m0 m1 m2 m3 (i % 4)).val) :: p,
      ?_, by simp [hl]⟩
    simp only [unmaskLoop, hw, List.getElem?_eq_getElem hlt, hp, List.get_eq_getElem]

/-- Bytes after the range that the unmasking loop reads do not change its result. -/
theorem unmaskLoop_append_right (frame s : List Byte) (hs : Nat) (m0 m1 m2 m3 : Byte)
    (steps i : Nat) (hfit : hs + i + steps ≤ frame.length) (hno : hs + i + steps < 2 ^ 64) :
    unmaskLoop (frame ++ s) hs m0 m1 m2 m3 steps i = unmaskLoop frame hs m0 m1 m2 m3 steps i := by
  induction steps generalizing i with
  | zero => rfl
  | succ steps ih =>
    have hw : wrap64 (hs + i) = hs + i := wrap64_of_lt (by omega)
    have hlt : hs + i < frame.length := by omega
    simp only [unmaskLoop, hw, List.getElem?_append_left hlt, ih (i + 1) (by omega) (by omega)]

/-- The unmasking loop does not look at byte 0 of a buffer shorter than `2 ^ 64` bytes when it
starts after it. -/
theorem unmaskLoop_head (b0 c0 : Byte) (tail : List Byte) (hs : Nat) (m0 m1 m2 m3 : Byte)
    (steps i : Nat) (hlen : tail.length + 1 < 2 ^ 64) (hpos : 1 ≤ hs + i)
    (hno : hs + i < 2 ^ 64) :
    unmaskLoop (b0 :: tail) hs m0 m1 m2 m3 steps i =
      unmaskLoop (c0 :: tail) hs m0 m1 m2 m3 steps i := by
  induction steps generalizing i with
  | zero => rfl
  | succ steps ih =>
    obtain ⟨k, hk⟩ : ∃ k, hs + i = k + 1 := ⟨hs + i - 1, by omega⟩
    have hw : wrap64 (hs + i) = k + 1 := by rw [wrap64_of_lt hno, hk]
    simp only [unmaskLoop, hw, List.getElem?_cons_succ]
    cases hget : tail[k]? with
    | none => rfl
    | some b =>
      have hklt : k < tail.length := by
        by_contra hge
        rw [List.getElem?_eq_none (by omega)] at hget
        cases hget
      simp only [ih (i + 1) (by omega) (by omega)]

theorem decodePayload_some (frame : List Byte) (masked : Bool) (n hs : Nat)
    (hno : hs + (if masked then 4 else 0) + n < 2 ^ 64) :
    ∃ p, decodePayload frame masked n hs = some p ∧
      (p = [] ∨ (p.length = n ∧ hs + (if masked then 4 else 0) + n ≤ frame.length)) := by
  by_cases htr : frame.length < hs + (if masked then 4 else 0) + n
  · exact ⟨[], decodePayload_truncated frame masked n hs hno htr, Or.inl rfl⟩
  · cases masked with
    | false =>
      simp only [Bool.false_eq_true, if_false, Nat.add_zero] at hno htr ⊢
      refine ⟨(frame.drop hs).take n, ?_, Or.inr ⟨?_, by omega⟩⟩
      · simp only [decodePayload, Bool.false_eq_true, if_false, wrap64_of_lt hno, htr,
          if_pos (Nat.le_of_not_lt htr)]
      · rw [List.length_take, List.length_drop]; omega
    | true =>
      simp only [if_true] at hno htr ⊢
      have h4 : wrap64 (hs + 4) = hs + 4 := wrap64_of_lt (by omega)
      obtain ⟨p, hp, hl⟩ := unmaskLoop_some frame (hs + 4)
        (frame.get ⟨hs, by omega⟩) (frame.get ⟨hs + 1, by omega⟩) (frame.get ⟨hs + 2, by omega⟩)
        (frame.get ⟨hs + 3, by omega⟩) n 0 (by omega) (by omega)
      refine ⟨p, ?_, Or.inr ⟨hl, by omega⟩⟩
      have g0 : frame[hs + 4 - 4]? = some (frame.get ⟨hs, by omega⟩) := by
        rw [show hs + 4 - 4 = hs by omega]; exact List.getElem?_eq_getElem _
      have g1 : frame[hs + 4 - 3]? = some (frame.get ⟨hs + 1, by omega⟩) := by
        rw [show hs + 4 - 3 = hs + 1 by omega]; exact List.getElem?_eq_getElem _
      have g2 : frame[hs + 4 - 2]? = some (frame.get ⟨hs + 2, by omega⟩) := by
        rw [show hs + 4 - 2 = hs + 2 by omega]; exact List.getElem?_eq_getElem _
      have g3 : frame[hs + 4 - 1]? = some (frame.get ⟨hs + 3, by omega⟩) := by
        rw [show hs + 4 - 1 = hs + 3 by omega]; exact List.getElem?_eq_getElem _
      simp only [decodePayload, if_true, h4, wrap64_of_lt hno, htr, if_false, g0, g1, g2, g3]
      exact hp

/-- Bytes after the end of the declared payload do not change what is extracted. -/
theorem decodePayload_append_right (frame s : List Byte) (masked : Bool) (n hs : Nat)
    (hno : hs + (if masked then 4 else 0) + n < 2 ^ 64)
    (hfit : hs + (if masked then 4 else 0) + n ≤ frame.length) :
    decodePayload (frame ++ s) masked n hs = decodePayload frame masked n hs := by
  cases masked with
  | false =>
    simp only [Bool.false_eq_true, if_false, Nat.add_zero] at hno hfit
    have h1 : ¬ (frame ++ s).length < hs + n := by rw [List.length_append]; omega
    have h2 : hs + n ≤ (frame ++ s).length := by rw [List.length_append]; omega
    simp only [decodePayload, Bool.false_eq_true, if_false, wrap64_of_lt hno, h1,
      not_lt.mpr hfit, if_pos hfit, if_pos h2, Option.some.injEq]
    rw [List.drop_append_of_le_length (by omega), List.take_append_of_le_length]
    rw [List.length_drop]; omega
  | true =>
    simp only [if_true] at hno hfit
    have h4 : wrap64 (hs + 4) = hs + 4 := wrap64_of_lt (by omega)
    have h1 : ¬ (frame ++ s).length < hs + 4 + n := by rw [List.length_append]; omega
    have g : ∀ k, k < frame.length → (frame ++ s)[k]? = frame[k]? :=
      fun k hk => List.getElem?_append_left hk
    simp only [decodePayload, if_true, h4, wrap64_of_lt hno, h1, not_lt.mpr hfit, if_false,
      g (hs + 4 - 4) (by omega), g (hs + 4 - 3) (by omega), g (hs + 4 - 2) (by omega),
      g (hs + 4 - 1) (by omega)]
    have hu := fun m0 m1 m2 m3 =>
      unmaskLoop_append_right frame s (hs + 4) m0 m1 m2 m3 n 0 (by omega) (by omega)
    cases frame[hs + 4 - 4]? <;> cases frame[hs + 4 - 3]? <;> cases frame[hs + 4 - 2]? <;>
      cases frame[hs + 4 - 1]? <;> simp only [hu]

/-- The extraction of the payload does not look at byte 0 of the buffer. -/
theorem decodePayload_head (b0 c0 : Byte) (tail : List Byte) (masked : Bool) (n hs : Nat)
    (hlen : tail.length + 1 < 2 ^ 64) (hhs : 1 ≤ hs) (hhs' : hs + 4 < 2 ^ 64) :
    decodePayload (b0 :: tail) masked n hs = decodePayload (c0 :: tail) masked n hs := by
  cases masked with
  | false =>
    obtain ⟨k, hk⟩ : ∃ k, hs = k + 1 := ⟨hs - 1, by omega⟩
    simp only [decodePayload, Bool.false_eq_true, if_false, List.length_cons, hk, List.drop_succ_cons]
  | true =>
    have h4 : wrap64 (hs + 4) = hs + 4 := wrap64_of_lt hhs'
    obtain ⟨k, hk⟩ : ∃ k, hs = k + 1 := ⟨hs - 1, by omega⟩
    have e0 : hs + 4 - 4 = k + 1 := by omega
    have e1 : hs + 4 - 3 = k + 1 + 1 := by omega
    have e2 : hs + 4 - 2 = k + 2 + 1 := by omega
    have e3 : hs + 4 - 1 = k + 3 + 1 := by omega
    have hu := fun m0 m1 m2 m3 =>
      unmaskLoop_head b0 c0 tail (hs + 4) m0 m1 m2 m3 n 0 hlen (by omega) (by omega)
    simp only [decodePayload, if_true, h4, List.length_cons, e0, e1, e2, e3,
      List.getElem?_cons_succ]
    split
    · rfl
    · cases tail[k]? <;> cases tail[k + 1]? <;> cases tail[k + 2]? <;> cases tail[k + 3]? <;>
        simp only [hu]

/-- The size of the first two bytes and the length field, read off the length class. -/
theorem declaredHeaderSize_cons (b0 b1 : Byte) (tail : List Byte) :
    declaredHeaderSize (b0 :: b1 :: tail) =
      (if b1.val % 128 = 126 then 4 else if b1.val % 128 = 127 then 10 else 2) +
        (if decide (128 ≤ b1.val) = true then 4 else 0) := by
  simp [declaredHeaderSize]

/-- On a buffer that holds its whole length field and has no close opcode, `decodeFrame`
extracts the payload with the declared length after the length field. -/
theorem decodeFrame_declared (self : WebSocketConnection) (b0 b1 : Byte) (tail : List Byte)
    (n : Nat) (hop : b0.val &&& 0x0F ≠ 8)
    (hd : declaredPayloadLength (b0 :: b1 :: tail) = some n) :
    decodeFrame self (b0 :: b1 :: tail) =
      (decodePayload (b0 :: b1 :: tail) (decide (128 ≤ b1.val)) n
        (if b1.val % 128 = 126 then 4 else if b1.val % 128 = 127 then 10 else 2)).map
        (fun payload => (payload, self)) := by
  by_cases h126 : b1.val % 128 = 126
  · match tail, hd with
    | [], hd => simp [declaredPayloadLength, h126] at hd
    | [_], hd => simp [declaredPayloadLength, h126] at hd
    | hi :: lo :: tail, hd =>
      have hn : bigEndianValue [hi, lo] = n := by
        simpa [declaredPayloadLength, h126] using hd
      rw [decodeFrame_medium self b0 b1 hi lo tail hop h126, hn, if_pos h126]
  · by_cases h127 : b1.val % 128 = 127
    · match tail, hd with
      | c0 :: c1 :: c2 :: c3 :: c4 :: c5 :: c6 :: c7 :: tail, hd =>
        have hn : bigEndianValue [c0, c1, c2, c3, c4, c5, c6, c7] = n := by
          simpa [declaredPayloadLength, h127] using hd
        rw [decodeFrame_large self b0 b1 c0 c1 c2 c3 c4 c5 c6 c7 tail hop h127, hn,
          if_neg h126, if_pos h127]
      | [], hd => simp [declaredPayloadLength, h127] at hd
      | [_], hd => simp [declaredPayloadLength, h127] at hd
      | [_, _], hd => simp [declaredPayloadLength, h127] at hd
      | [_, _, _], hd => simp [declaredPayloadLength, h127] at hd
      | [_, _, _, _], hd => simp [declaredPayloadLength, h127] at hd
      | [_, _, _, _, _], hd => simp [declaredPayloadLength, h127] at hd
      | [_, _, _, _, _, _], hd => simp [declaredPayloadLength, h127] at hd
      | [_, _, _, _, _, _, _], hd => simp [declaredPayloadLength, h127] at hd
    · have hn : b1.val % 128 = n := by
        simpa [declaredPayloadLength, h126, h127] using hd
      rw [decodeFrame_small self b0 b1 tail hop (by omega), if_neg h126, if_neg h127, hn]

/-- A buffer that holds its whole length field keeps its declared length when bytes are
appended. -/
theorem declaredPayloadLength_append (b s : List Byte) (n : Nat)
    (hd : declaredPayloadLength b = some n) : declaredPayloadLength (b ++ s) = some n := by
  match b, hd with
  | [], hd => simp [declaredPayloadLength] at hd
  | [_], hd => simp [declaredPayloadLength] at hd
  | b0 :: b1 :: tail, hd =>
    by_cases h126 : b1.val % 128 = 126
    · match tail, hd with
      | [], hd => simp [declaredPayloadLength, h126] at hd
      | [_], hd => simp [declaredPayloadLength, h126] at hd
      | hi :: lo :: tail, hd =>
        simpa [declaredPayloadLength, h126] using hd
    · by_cases h127 : b1.val % 128 = 127
      · match tail, hd with
        | c0 :: c1 :: c2 :: c3 :: c4 :: c5 :: c6 :: c7 :: tail, hd =>
          simpa [declaredPayloadLength, h127] using hd
        | [], hd => simp [declaredPayloadLength, h127] at hd
        | [_], hd => simp [declaredPayloadLength, h127] at hd
        | [_, _], hd => simp [declaredPayloadLength, h127] at hd
        | [_, _, _], hd => simp [declaredPayloadLength, h127] at hd
        | [_, _, _, _], hd => simp [declaredPayloadLength, h127] at hd
        | [_, _, _, _, _], hd => simp [declaredPayloadLength, h127] at hd
        | [_, _, _, _, _, _], hd => simp [declaredPayloadLength, h127] at hd
        | [_, _, _, _, _, _, _], hd => simp [declaredPayloadLength, h127] at hd
      · simpa [declaredPayloadLength, h126, h127] using hd

theorem declaredHeaderSize_append (b s : List Byte) (h : 2 ≤ b.length) :
    declaredHeaderSize (b ++ s) = declaredHeaderSize b := by
  match b, h with
  | b0 :: b1 :: tail, _ => simp [declaredHeaderSize]

/-- The payload length of a frame with a two-byte header is at most 125. -/
theorem declared_small_or_long_header (frame : List Byte) (n : Nat)
    (hd : declaredPayloadLength frame = some n) :
    n ≤ 125 ∨ 4 ≤ declaredHeaderSize frame := by
  match frame, hd with
  | [], hd => simp [declaredPayloadLength] at hd
  | [_], hd => simp [declaredPayloadLength] at hd
  | b0 :: b1 :: tail, hd =>
    rw [declaredHeaderSize_cons]
    by_cases h126 : b1.val % 128 = 126
    · right; rw [if_pos h126]; omega
    · by_cases h127 : b1.val % 128 = 127
      · right; rw [if_neg h126, if_pos h127]; omega
      · left
        have hn : b1.val % 128 = n := by
          simpa [declaredPayloadLength, h126, h127] using hd
        omega

/-- Totality of `decodeFrame` without overflow: on a buffer whose declared header size plus
declared payload length stays below `2 ^ 64`, no byte outside the buffer is read, and the
string returned is empty or has the declared length, the buffer then holding the whole
frame. -/
theorem decodeFrame_total (self : WebSocketConnection) (frame : List Byte)
    (hno : ∀ n, declaredPayloadLength frame = some n → declaredHeaderSize frame + n < 2 ^ 64) :
    ∃ p c, decodeFrame self frame = some (p, c) ∧
      (p = [] ∨ ∃ n, declaredPayloadLength frame = some n ∧ p.length = n ∧
        declaredHeaderSize frame + n ≤ frame.length) := by
  cases hd : declaredPayloadLength frame with
  | none =>
    obtain ⟨c, hc⟩ := decodeFrame_truncated_of_no_overflow self frame
      (by simp [isTruncated, hd]) hno
    exact ⟨[], c, hc, Or.inl rfl⟩
  | some n =>
    match frame, hd, hno with
    | [], hd, _ => simp [declaredPayloadLength] at hd
    | [_], hd, _ => simp [declaredPayloadLength] at hd
    | b0 :: b1 :: tail, hd, hno =>
      by_cases hop : b0.val &&& 0x0F = 8
      · exact ⟨[], { self with connected := false }, by simp [decodeFrame, hop], Or.inl rfl⟩
      · have hno' := hno n hd
        rw [declaredHeaderSize_cons] at hno'
        obtain ⟨p, hp, hlen⟩ := decodePayload_some (b0 :: b1 :: tail) (decide (128 ≤ b1.val)) n
          (if b1.val % 128 = 126 then 4 else if b1.val % 128 = 127 then 10 else 2) hno'
        refine ⟨p, self, ?_, ?_⟩
        · rw [decodeFrame_declared self b0 b1 tail n hop hd, hp]
          rfl
        · rcases hlen with h | ⟨h1, h2⟩
          · exact Or.inl h
          · exact Or.inr ⟨n, rfl, h1, by rw [declaredHeaderSize_cons]; exact h2⟩

/-! ## Claims about the decoder on arbitrary buffers -/

/-- C25. Only the first frame of a buffer is decoded: for a buffer `b` that holds its length
field and is at least as long as its declared header size plus its declared payload length
(the sum below `2 ^ 64`), and for all bytes `s` after it, `decodeFrame (b ++ s)` returns what
`decodeFrame b` returns, with the same connection afterwards; and when one read of a connected
connection delivers `b ++ s`, `receiveMessage` returns the result for `b`. -/
theorem only_first_frame_decoded (self : WebSocketConnection) (b s : List Byte) (n : Nat)
    (hd : declaredPayloadLength b = some n)
    (hfit : declaredHeaderSize b + n ≤ b.length)
    (hno : declaredHeaderSize b + n < 2 ^ 64) :
    decodeFrame self (b ++ s) = decodeFrame self b ∧
      (self.connected = true → (b ++ s).length ≤ 4096 →
        self.receiveMessage (some (b ++ s)) =
          (decodeFrame self b, [Event.sockRecv self.socket_fd])) := by
  have key : decodeFrame self (b ++ s) = decodeFrame self b := by
    have hd' := declaredPayloadLength_append b s n hd
    match b, hd, hfit, hno, hd' with
    | [], hd, _, _, _ => simp [declaredPayloadLength] at hd
    | [_], hd, _, _, _ => simp [declaredPayloadLength] at hd
    | b0 :: b1 :: tail, hd, hfit, hno, hd' =>
      by_cases hop : b0.val &&& 0x0F = 8
      · have h1 : ¬ tail.length + s.length + 1 + 1 < 2 := by omega
        have h2 : ¬ tail.length + 1 + 1 < 2 := by omega
        simp [decodeFrame, hop, h1, h2]
      · rw [declaredHeaderSize_cons] at hfit hno
        rw [decodeFrame_declared self b0 b1 tail n hop hd]
        have e : b0 :: b1 :: tail ++ s = b0 :: b1 :: (tail ++ s) := rfl
        rw [e] at hd' ⊢
        rw [decodeFrame_declared self b0 b1 (tail ++ s) n hop hd', ← e,
          decodePayload_append_right _ _ _ _ _ hno hfit]
  refine ⟨key, ?_⟩
  intro hc hlen
  have hpos : 0 < (b ++ s).length := by
    match b, hd with
    | [], hd => simp [declaredPayloadLength] at hd
    | _ :: _, _ => simp
  have htake : (b ++ s).take 4096 = b ++ s := List.take_of_length_le hlen
  have hr : ¬ ((recv (some (b ++ s)) 4096).1 ≤ 0) := by
    simp only [recv, htake, not_le]
    exact_mod_cast hpos
  simp only [WebSocketConnection.receiveMessage, hc, Bool.not_true, Bool.false_eq_true, if_false,
    hr]
  simp only [recv, htake, key]

theorem only_first_frame_decoded_witness :
    declaredPayloadLength [0x81, 0x02, 0x68, 0x69] = some 2 ∧
      decodeFrame ⟨7, "10.0.0.1", true⟩ ([0x81, 0x02, 0x68, 0x69] ++ [0x81, 0x01, 0x21]) =
        some ([0x68, 0x69], ⟨7, "10.0.0.1", true⟩) ∧
      decodeFrame ⟨7, "10.0.0.1", true⟩ ([0x81, 0x02, 0x68, 0x69] ++ [0x81, 0x01, 0x21]) =
        decodeFrame ⟨7, "10.0.0.1", true⟩ [0x81, 0x02, 0x68, 0x69] :=
  ⟨by decide, by decide,
    (only_first_frame_decoded ⟨7, "10.0.0.1", true⟩ [0x81, 0x02, 0x68, 0x69] [0x81, 0x01, 0x21] 2
      (by decide) (by decide) (by decide)).1⟩

/-- On a buffer of two bytes or more that ends before the end of its length field and has no
close opcode, `decodeFrame` returns the empty string and leaves the connection as it is. -/
theorem decodeFrame_undeclared (self : WebSocketConnection) (b0 b1 : Byte) (tail : List Byte)
    (hop : b0.val &&& 0x0F ≠ 8) (hd : declaredPayloadLength (b0 :: b1 :: tail) = none) :
    decodeFrame self (b0 :: b1 :: tail) = some ([], self) := by
  by_cases h126 : b1.val % 128 = 126
  · match tail, hd with
    | [], _ => simp [decodeFrame, hop, and_0x7F, h126]
    | [_], _ => simp [decodeFrame, hop, and_0x7F, h126]
    | hi :: lo :: tail, hd => simp [declaredPayloadLength, h126] at hd
  · by_cases h127 : b1.val % 128 = 127
    · have hlen : (b0 :: b1 :: tail).length < 10 := by
        by_contra hge
        simp only [List.length_cons] at hge
        simp [declaredPayloadLength, h127] at hd
        omega
      have h1 : ¬ (b0 :: b1 :: tail).length < 2 := by simp
      simp only [decodeFrame, if_neg h1, List.getElem?_cons_zero, List.getElem?_cons_succ,
        if_neg hop, and_0x7F, h127, if_pos hlen]
      simp
    · simp [declaredPayloadLength, h126, h127] at hd

theorem declaredPayloadLength_head (b0 c0 : Byte) (tail : List Byte) :
    declaredPayloadLength (b0 :: tail) = declaredPayloadLength (c0 :: tail) := by
  cases tail with
  | nil => rfl
  | cons b1 tail => simp [declaredPayloadLength]

/-- C26. Receive size limit: whatever a single read of `receiveMessage` delivers (at most
4096 bytes), if the declared header size plus the declared payload length of the bytes read
stays below `2 ^ 64`, then `receiveMessage` returns a string, of at most 4092 bytes; and for
every frame whose declared header size plus declared payload length exceeds 4096, the string
returned is empty. -/
theorem receive_size_limit (self : WebSocketConnection) (pending : Option (List Byte))
    (hno : ∀ n, declaredPayloadLength (recv pending 4096).2 = some n →
      declaredHeaderSize (recv pending 4096).2 + n < 2 ^ 64) :
    (recv pending 4096).2.length ≤ 4096 ∧
    (∃ p c, (self.receiveMessage pending).1 = some (p, c) ∧ p.length ≤ 4092) ∧
    (∀ frame n, pending = some frame → declaredPayloadLength frame = some n →
      4096 < declaredHeaderSize frame + n →
      ∃ c, (self.receiveMessage pending).1 = some ([], c)) := by
  have hbuf : (recv pending 4096).2.length ≤ 4096 := by
    cases pending with
    | none => simp [recv]
    | some d => simp [recv]
  obtain ⟨p, c, hdec, hp⟩ := decodeFrame_total self (recv pending 4096).2 hno
  refine ⟨hbuf, ?_, ?_⟩
  · by_cases hc : self.connected = true
    · by_cases hr : (recv pending 4096).1 ≤ 0
      · exact ⟨[], { self with connected := false },
          by simp [WebSocketConnection.receiveMessage, hc, hr], by simp⟩
      · refine ⟨p, c, by simp [WebSocketConnection.receiveMessage, hc, hr, hdec], ?_⟩
        rcases hp with hp | ⟨n, hd, hl, hfit⟩
        · simp [hp]
        · rcases declared_small_or_long_header _ n hd with h | h <;> omega
    · exact ⟨[], self, by simp [WebSocketConnection.receiveMessage, hc], by simp⟩
  · intro frame n hpend hd hbig
    by_cases hc : self.connected = true
    · by_cases hr : (recv pending 4096).1 ≤ 0
      · exact ⟨{ self with connected := false },
          by simp [WebSocketConnection.receiveMessage, hc, hr]⟩
      · refine ⟨c, ?_⟩
        rcases hp with hp | ⟨m, hd', hl, hfit⟩
        · simp [WebSocketConnection.receiveMessage, hc, hr, hdec, hp]
        · exfalso
          subst hpend
          have hbuf' : (recv (some frame) 4096).2 = frame.take 4096 := rfl
          rw [hbuf'] at hd' hfit hbuf
          have h2 : 2 ≤ (frame.take 4096).length := by
            match hft : frame.take 4096, hd' with
            | [], hd' => simp [declaredPayloadLength] at hd'
            | [_], hd' => simp [declaredPayloadLength] at hd'
            | _ :: _ :: _, _ => simp
          have hsplit : frame.take 4096 ++ frame.drop 4096 = frame := List.take_append_drop _ _
          have e1 := declaredPayloadLength_append (frame.take 4096) (frame.drop 4096) m hd'
          have e2 := declaredHeaderSize_append (frame.take 4096) (frame.drop 4096) h2
          rw [hsplit] at e1 e2
          rw [hd] at e1
          cases e1
          omega
    · exact ⟨self, by simp [WebSocketConnection.receiveMessage, hc]⟩

theorem receive_size_limit_witness :
    (∃ p c, ((⟨7, "10.0.0.1", true⟩ : WebSocketConnection).receiveMessage
        (some [0x81, 0x02, 0x68, 0x69])).1 = some (p, c) ∧ p.length ≤ 4092) ∧
      ((⟨7, "10.0.0.1", true⟩ : WebSocketConnection).receiveMessage
        (some [0x81, 0x02, 0x68, 0x69])).1 = some ([0x68, 0x69], ⟨7, "10.0.0.1", true⟩) :=
  ⟨(receive_size_limit ⟨7, "10.0.0.1", true⟩ (some [0x81, 0x02, 0x68, 0x69])
      (by
        intro n hn
        have h2 : declaredPayloadLength (recv (some [0x81, 0x02, 0x68, 0x69]) 4096).2 =
            some 2 := by decide
        rw [h2] at hn
        cases hn
        decide)).2.1,
    by decide⟩

/-- C27. The decoder ignores FIN, RSV and every opcode other than close: two buffers (shorter
than `2 ^ 64` bytes) that differ only in byte 0, both opcodes different from 0x8, give the same
result of `decodeFrame`, a read outside the buffer in the one being a read outside the buffer
in the other; and the connection is left as it is. -/
theorem decoder_ignores_first_byte (self : WebSocketConnection) (b0 c0 : Byte)
    (tail : List Byte) (hb : b0.val &&& 0x0F ≠ 0x8) (hc : c0.val &&& 0x0F ≠ 0x8)
    (hlen : tail.length + 1 < 2 ^ 64) :
    decodeFrame self (b0 :: tail) = decodeFrame self (c0 :: tail) ∧
      (∀ p c, decodeFrame self (b0 :: tail) = some (p, c) → c = self) ∧
      ((∀ n, declaredPayloadLength (b0 :: tail) = some n →
          declaredHeaderSize (b0 :: tail) + n < 2 ^ 64) →
        ∃ p, decodeFrame self (b0 :: tail) = some (p, self) ∧
          decodeFrame self (c0 :: tail) = some (p, self)) := by
  have hsame : decodeFrame self (b0 :: tail) = decodeFrame self (c0 :: tail) := by
    match tail, hlen with
    | [], _ => simp [decodeFrame]
    | b1 :: tail, hlen =>
      cases hd : declaredPayloadLength (b0 :: b1 :: tail) with
      | none =>
        have hd' := hd
        rw [declaredPayloadLength_head b0 c0] at hd'
        rw [decodeFrame_undeclared self b0 b1 tail hb hd,
          decodeFrame_undeclared self c0 b1 tail hc hd']
      | some n =>
        have hd' := hd
        rw [declaredPayloadLength_head b0 c0] at hd'
        rw [decodeFrame_declared self b0 b1 tail n hb hd,
          decodeFrame_declared self c0 b1 tail n hc hd',
          decodePayload_head b0 c0 (b1 :: tail) _ n _ hlen (by split_ifs <;> omega)
            (by split_ifs <;> decide)]
  have hconn : ∀ p c, decodeFrame self (b0 :: tail) = some (p, c) → c = self := by
    intro p c h
    match tail, h with
    | [], h =>
      simp [decodeFrame] at h
      exact h.2.symm
    | b1 :: tail, h =>
      cases hd : declaredPayloadLength (b0 :: b1 :: tail) with
      | none =>
        rw [decodeFrame_undeclared self b0 b1 tail hb hd] at h
        simp only [Option.some.injEq, Prod.mk.injEq] at h
        exact h.2.symm
      | some n =>
        rw [decodeFrame_declared self b0 b1 tail n hb hd] at h
        cases hq : decodePayload (b0 :: b1 :: tail) (decide (128 ≤ b1.val)) n
            (if b1.val % 128 = 126 then 4 else if b1.val % 128 = 127 then 10 else 2) with
        | none => rw [hq] at h; cases h
        | some q =>
          rw [hq] at h
          simp only [Option.map_some', Option.some.injEq, Prod.mk.injEq] at h
          exact h.2.symm
  refine ⟨hsame, hconn, ?_⟩
  intro hno
  obtain ⟨p, c, hdec, _⟩ := decodeFrame_total self (b0 :: tail) hno
  have hcs := hconn p c hdec
  subst hcs
  exact ⟨p, hdec, by rw [← hsame]; exact hdec⟩

theorem decoder_ignores_first_byte_witness :
    decodeFrame ⟨7, "10.0.0.1", true⟩ [0x89, 0x02, 0x68, 0x69] =
        some ([0x68, 0x69], ⟨7, "10.0.0.1", true⟩) ∧
      decodeFrame ⟨7, "10.0.0.1", true⟩ [0x89, 0x02, 0x68, 0x69] =
        decodeFrame ⟨7, "10.0.0.1", true⟩ [0x81, 0x02, 0x68, 0x69] :=
  ⟨by decide,
    (decoder_ignores_first_byte ⟨7, "10.0.0.1", true⟩ 0x89 0x81 [0x02, 0x68, 0x69]
      (by decide) (by decide) (by decide)).1⟩

/-! ## Totality and output shape of `SimpleSHA1::hash` -/

/-- The padding loop ends after fewer than 64 iterations: it appends the number of zero bytes
that brings the length to 56 modulo 64. -/
theorem padLoop_some (fuel : Nat) (message : List Byte)
    (h : (120 - message.length % 64) % 64 ≤ fuel) :
    padLoop fuel message =
      some (message ++ List.replicate ((120 - message.length % 64) % 64) (toByte 0x00)) := by
  induction fuel generalizing message with
  | zero =>
    have h56 : message.length % 64 = 56 := by omega
    have hk : (120 - message.length % 64) % 64 = 0 := by omega
    simp [padLoop, h56]
  | succ fuel ih =>
    by_cases h56 : message.length % 64 = 56
    · simp [padLoop, h56]
    · have hlen : (message ++ [toByte 0x00]).length = message.length + 1 := by simp
      have hk : (120 - message.length % 64) % 64 =
          (120 - (message.length + 1) % 64) % 64 + 1 := by omega
      have ih' := ih (message ++ [toByte 0x00]) (by rw [hlen]; omega)
      rw [hlen] at ih'
      simp only [padLoop, bne_iff_ne, ne_eq, h56, not_false_eq_true, if_true, ih', hk,
        List.replicate_succ, List.append_assoc, List.singleton_append]

theorem loadWords_some (message : List Byte) (offset steps i : Nat) (w : List Nat)
    (h : offset + (i + steps) * 4 ≤ message.length) :
    ∃ w', loadWords message offset steps i w = some w' := by
  induction steps generalizing i w with
  | zero => exact ⟨w, rfl⟩
  | succ steps ih =>
    have h0 : offset + i * 4 < message.length := by omega
    have h1 : offset + (i * 4 + 1) < message.length := by omega
    have h2 : offset + (i * 4 + 2) < message.length := by omega
    have h3 : offset + (i * 4 + 3) < message.length := by omega
    simp only [loadWords, List.getElem?_eq_getElem h0, List.getElem?_eq_getElem h1,
      List.getElem?_eq_getElem h2, List.getElem?_eq_getElem h3]
    exact ih (i + 1) _ (by omega)

/-- A call of `processChunk` on 64 bytes inside the buffer reads nothing outside it. -/
theorem processChunk_some (message : List Byte) (offset : Nat) (h : Sha1State)
    (hfit : offset + 64 ≤ message.length) : ∃ h', processChunk message offset h = some h' := by
  obtain ⟨w, hw⟩ := loadWords_some message offset 16 0 [] (by omega)
  simp only [processChunk, hw]
  exact ⟨_, rfl⟩

theorem chunkLoop_some (message : List Byte) (hm : message.length % 64 = 0) (fuel i : Nat)
    (h : Sha1State) (hi : i % 64 = 0) (hf : message.length ≤ i + 64 * fuel) :
    ∃ h', chunkLoop message fuel i h = some h' := by
  induction fuel generalizing i h with
  | zero =>
    have : ¬ i < message.length := by omega
    exact ⟨h, by simp [chunkLoop, this]⟩
  | succ fuel ih =>
    by_cases hlt : i < message.length
    · obtain ⟨h1, hh1⟩ := processChunk_some message i h (by omega)
      obtain ⟨h2, hh2⟩ := ih (i + 64) h1 (by omega) (by omega)
      exact ⟨h2, by simp only [chunkLoop, if_pos hlt, hh1, hh2]⟩
    · exact ⟨h, by simp only [chunkLoop, if_neg hlt]⟩

theorem hashBytes_length (h : Sha1State) : (hashBytes h).length = 20 := by
  simp [hashBytes]

/-- The padded message of `SimpleSHA1::hash`: its length is a positive multiple of 64. -/
theorem padded_message_length (input : List Byte) :
    ∃ padded, padLoop 64 (input ++ [toByte 0x80]) = some padded ∧
      0 < (padded ++ pushLength64 (wrap64 (input.length * 8))).length ∧
      (padded ++ pushLength64 (wrap64 (input.length * 8))).length % 64 = 0 := by
  refine ⟨_, padLoop_some 64 (input ++ [toByte 0x80]) (by omega), ?_, ?_⟩
  · simp only [List.length_append, pushLength64_length]; omega
  · simp only [List.length_append, pushLength64_length, List.length_replicate,
      List.length_singleton]
    omega

theorem sha1Digest_some (input : List Byte) :
    ∃ digest, sha1Digest input = some digest ∧ digest.length = 20 := by
  obtain ⟨padded, hpad, hpos, hmod⟩ := padded_message_length input
  obtain ⟨h', hh'⟩ := chunkLoop_some (padded ++ pushLength64 (wrap64 (input.length * 8))) hmod
    (padded ++ pushLength64 (wrap64 (input.length * 8))).length 0
    { a := 0x67452301, b := 0xEFCDAB89, c := 0x98BADCFE, d := 0x10325476, e := 0xC3D2E1F0 }
    (by omega) (by omega)
  refine ⟨hashBytes h', ?_, hashBytes_length h'⟩
  simp only [sha1Digest, hpad, hh']

theorem base64Chars_length : base64Chars.length = 64 := by decide

theorem base64Chars_getD_mem (n : Nat) :
    base64Chars.getD (n &&& 0x3F) (toByte 0) ∈ base64Chars := by
  have h : n &&& 0x3F < base64Chars.length := by
    rw [base64Chars_length, Nat.and_pow_two_sub_one_eq_mod n 6]
    exact Nat.mod_lt _ (by decide)
  rw [List.getD_eq_getElem _ _ h]
  exact List.getElem_mem h

theorem base64Gather_count (input : List Byte) (i steps j value count : Nat) :
    (base64Gather input i steps j value count).2 =
      count + min steps (input.length - (i + j)) := by
  induction steps generalizing j value count with
  | zero => simp [base64Gather]
  | succ steps ih =>
    by_cases h : i + j < input.length
    · simp only [base64Gather, dif_pos h, ih]
      omega
    · simp only [base64Gather, dif_neg h]
      omega

theorem base64Group_of_count (input : List Byte) (i count : Nat)
    (hc : (base64Gather input i 3 0 0 0).2 = count) :
    base64Group input i =
      [0, 1, 2, 3].map (fun j =>
        if j ≤ count then
          base64Chars.getD
            ((wrap32 ((base64Gather input i 3 0 0 0).1 <<< ((3 - count) * 8)) >>> (18 - j * 6))
              &&& 0x3F) (toByte 0)
        else toByte 61) := by
  simp only [base64Group, hc]

/-- A group of three input bytes gives four characters of the alphabet. -/
theorem base64Group_full (input : List Byte) (i : Nat) (h : i + 3 ≤ input.length) :
    ∃ a b c d, base64Group input i = [a, b, c, d] ∧ a ∈ base64Chars ∧ b ∈ base64Chars ∧
      c ∈ base64Chars ∧ d ∈ base64Chars := by
  have hc : (base64Gather input i 3 0 0 0).2 = 3 := by
    rw [base64Gather_count]; omega
  have h0 : (0 : Nat) ≤ 3 := by decide
  have h1 : (1 : Nat) ≤ 3 := by decide
  have h2 : (2 : Nat) ≤ 3 := by decide
  have h3 : (3 : Nat) ≤ 3 := by decide
  rw [base64Group_of_count input i 3 hc]
  simp only [List.map_cons, List.map_nil, if_pos h0, if_pos h1, if_pos h2, if_pos h3]
  exact ⟨_, _, _, _, rfl, base64Chars_getD_mem _, base64Chars_getD_mem _,
    base64Chars_getD_mem _, base64Chars_getD_mem _⟩

/-- A last group of two input bytes gives three characters of the alphabet and one `=`. -/
theorem base64Group_two (input : List Byte) (i : Nat) (h : i + 2 = input.length) :
    ∃ a b c, base64Group input i = [a, b, c, toByte 61] ∧ a ∈ base64Chars ∧
      b ∈ base64Chars ∧ c ∈ base64Chars := by
  have hc : (base64Gather input i 3 0 0 0).2 = 2 := by
    rw [base64Gather_count]; omega
  have h0 : (0 : Nat) ≤ 2 := by decide
  have h1 : (1 : Nat) ≤ 2 := by decide
  have h2 : (2 : Nat) ≤ 2 := by decide
  have h3 : ¬ (3 : Nat) ≤ 2 := by decide
  rw [base64Group_of_count input i 2 hc]
  simp only [List.map_cons, List.map_nil, if_pos h0, if_pos h1, if_pos h2, if_neg h3]
  exact ⟨_, _, _, rfl, base64Chars_getD_mem _, base64Chars_getD_mem _,
    base64Chars_getD_mem _⟩

/-- The encoding of 20 bytes: 27 characters of the alphabet and one `=`. -/
theorem base64Encode_twenty (input : List Byte) (hlen : input.length = 20) :
    (base64Encode input).length = 28 ∧ (∀ c ∈ (base64Encode input).take 27, c ∈ base64Chars) ∧
      (base64Encode input).drop 27 = [toByte 61] := by
  obtain ⟨a0, b0, c0, d0, e0, ha0, hb0, hc0, hd0⟩ := base64Group_full input 0 (by omega)
  obtain ⟨a1, b1, c1, d1, e1, ha1, hb1, hc1, hd1⟩ := base64Group_full input 3 (by omega)
  obtain ⟨a2, b2, c2, d2, e2, ha2, hb2, hc2, hd2⟩ := base64Group_full input 6 (by omega)
  obtain ⟨a3, b3, c3, d3, e3, ha3, hb3, hc3, hd3⟩ := base64Group_full input 9 (by omega)
  obtain ⟨a4, b4, c4, d4, e4, ha4, hb4, hc4, hd4⟩ := base64Group_full input 12 (by omega)
  obtain ⟨a5, b5, c5, d5, e5, ha5, hb5, hc5, hd5⟩ := base64Group_full input 15 (by omega)
  obtain ⟨a6, b6, c6, e6, ha6, hb6, hc6⟩ := base64Group_two input 18 (by omega)
  have hr : base64Encode input =
      [a0, b0, c0, d0, a1, b1, c1, d1, a2, b2, c2, d2, a3, b3, c3, d3, a4, b4, c4, d4,
        a5, b5, c5, d5, a6, b6, c6, toByte 61] := by
    simp only [base64Encode, hlen, base64Loop, Nat.zero_add, Nat.reduceAdd, Nat.reduceLT,
      if_true, if_false, e0, e1, e2, e3, e4, e5, e6, List.cons_append, List.nil_append,
      List.append_nil]
  rw [hr]
  refine ⟨rfl, ?_, rfl⟩
  intro c hc
  simp only [List.take, List.mem_cons, List.not_mem_nil, or_false] at hc
  rcases hc with h | h | h | h | h | h | h | h | h | h | h | h | h | h | h | h | h | h | h | h |
    h | h | h | h | h | h | h <;> (rw [h]; assumption)

/-- C28. `SimpleSHA1::hash` is total and has a fixed output shape: for every input the padding
loop ends, the padded message has a length that is a positive multiple of 64, every
`processChunk` call of the chunk loop has its 64 bytes inside the buffer, and the result is 28
characters, the first 27 from the base64 alphabet and the last one `=`. -/
theorem simpleSHA1_hash_total (input : List Byte) :
    (∃ padded, padLoop 64 (input ++ [toByte 0x80]) = some padded ∧
      0 < (padded ++ pushLength64 (wrap64 (input.length * 8))).length ∧
      (padded ++ pushLength64 (wrap64 (input.length * 8))).length % 64 = 0 ∧
      ∀ i h, i < (padded ++ pushLength64 (wrap64 (input.length * 8))).length → i % 64 = 0 →
        i + 64 ≤ (padded ++ pushLength64 (wrap64 (input.length * 8))).length ∧
        (processChunk (padded ++ pushLength64 (wrap64 (input.length * 8))) i h).isSome = true) ∧
    ∃ r, SimpleSHA1.hash input = some r ∧ r.length = 28 ∧
      (∀ c ∈ r.take 27, c ∈ base64Chars) ∧ r.drop 27 = [toByte 61] ∧
      toByte 61 ∉ base64Chars := by
  constructor
  · obtain ⟨padded, hpad, hpos, hmod⟩ := padded_message_length input
    refine ⟨padded, hpad, hpos, hmod, ?_⟩
    intro i h hi hi64
    have hfit : i + 64 ≤ (padded ++ pushLength64 (wrap64 (input.length * 8))).length := by
      omega
    obtain ⟨h', hh'⟩ := processChunk_some _ i h hfit
    exact ⟨hfit, by rw [hh']; rfl⟩
  · obtain ⟨digest, hd, hl⟩ := sha1Digest_some input
    obtain ⟨h1, h2, h3⟩ := base64Encode_twenty digest hl
    exact ⟨base64Encode digest, by simp [SimpleSHA1.hash, hd], h1, h2, h3, by decide⟩

end WebSocket
